import Mathlib

/-! Decision orchestration of the authorizer (`pkg/app/impl/authz.go`)

A shallow embedding of the authorizer's request handlers `Is`, `DecisionTree`,
`Query` and `Compile`, of the helpers `is`, `getPolicyInfoFromContext` and
`initDecisionFilter`, and of the identity lookup `GetIdentityV2`
(`directory/identity.go`), and theorems about them.

Conventions of the embedding

* Go `interface{}` values coming from the rule engine are the inductive `Value`.
* A Go `map[string]T` is an association list `List (String × T)` read with
  `Map.get` (first binding of a key) and written with `Map.set`
  (replace the binding of a key, or append a new one).
* A Go `(result, error)` pair is `Ret.ret resp err`; a run-time fault (nil
  pointer dereference, write to a nil map) is `Ret.fault`. For `GetIdentityV2`
  the pair is `Outcome.ret obj err` and the fault `Outcome.panic`.
* A pointer or slice that may be `nil` is an `Option`, with `none` for `nil`.
* The collaborators (identity resolver, runtime resolver, rule engine, decision
  log plugin) are fields of `AuthorizerServer` and `Runtime`; every call to one
  of them is recorded, in order, in the `trace` of the run.
-/

set_option linter.dupNamespace false
set_option linter.unusedVariables false

namespace impl

/-! ## Values and maps -/

/-- Dynamic values (`interface{}`) as they appear in rule-engine bindings and
decoded JSON: `nil`, `bool`, `json.Number`, `string`, `[]interface{}` and
`map[string]interface{}`. -/
inductive Value where
  | null
  | bool (b : Bool)
  | num (lit : String)
  | str (s : String)
  | list (xs : List Value)
  | map (m : List (String × Value))
deriving Repr

/-- The `%T` rendering of a dynamic value. -/
def Value.typeName : Value → String
  | .null => "<nil>"
  | .bool _ => "bool"
  | .num _ => "json.Number"
  | .str _ => "string"
  | .list _ => "[]interface {}"
  | .map _ => "map[string]interface {}"

/-- Map read `m[k]` with the comma-ok result: the first binding of `k`. -/
def Map.get {β : Type} : List (String × β) → String → Option β
  | [], _ => none
  | (k, v) :: rest, d => if k = d then some v else Map.get rest d

/-- Map write `m[k] = v`: replaces the binding of `k`, or adds one. -/
def Map.set {β : Type} : List (String × β) → String → β → List (String × β)
  | [], d, b => [(d, b)]
  | (k, v) :: rest, d, b => if k = d then (d, b) :: rest else (k, v) :: Map.set rest d b

/-- The keys of a map, in representation order. -/
def Map.keys {β : Type} (m : List (String × β)) : List String := m.map Prod.fst

/-- The entries visited by `for k, v := range m`: every key once, with the value
that `m[k]` reads. -/
def Map.range {β : Type} : List (String × β) → List (String × β)
  | [] => []
  | (k, v) :: rest => (k, v) :: (Map.range rest).filter (fun e => decide (e.1 ≠ k))

/-! ## Errors -/

/-- The error kinds of the `cerr` package used by the handlers. -/
inductive ErrKind where
  | InvalidArgument
  | UserNotFound
  | AuthenticationFailed
  | BadQuery
  | InvalidDecision
  | InvalidPolicyID
deriving DecidableEq, Repr

/-- The gRPC status codes (`google.golang.org/grpc/codes`). -/
inductive Code where
  | OK
  | Unknown
  | InvalidArgument
  | NotFound
  | FailedPrecondition
  | Unauthenticated
  | Internal
deriving DecidableEq, Repr

/-- Go `error` values built by the handlers.
`aserto` is a `cerr` error (`cerr.ErrX` with its message, its `Str` data and the
status set by `WithGRPCStatus`, if any); `asertoErr` is a `cerr` error carrying an
inner error (`.Err(err)`); `wrap` is `errors.Wrap`/`errors.Wrapf`; `external` is an
error produced by a collaborator or by the standard library. -/
inductive CErr where
  | aserto (kind : ErrKind) (grpc : Option Code) (msg : String) (data : List (String × String))
  | asertoErr (kind : ErrKind) (grpc : Option Code) (msg : String) (data : List (String × String))
      (cause : CErr)
  | wrap (msg : String) (cause : CErr)
  | external (msg : String)
deriving DecidableEq, Repr

/-- The bare `cerr.ErrX` value of a kind. -/
def cerr (kind : ErrKind) : CErr := .aserto kind none "" []

/-- Method `Msg`/`Msgf`: sets the message. -/
def CErr.Msg : CErr → String → CErr
  | .aserto k g _ d, m => .aserto k g m d
  | .asertoErr k g _ d c, m => .asertoErr k g m d c
  | e, _ => e

/-- Method `Str(key, value)`: attaches a data field. -/
def CErr.Str : CErr → String → String → CErr
  | .aserto k g m d, key, val => .aserto k g m (d ++ [(key, val)])
  | .asertoErr k g m d c, key, val => .asertoErr k g m (d ++ [(key, val)]) c
  | e, _, _ => e

/-- Method `Err(err)`: attaches an inner error. -/
def CErr.Err : CErr → CErr → CErr
  | .aserto k g m d, c => .asertoErr k g m d c
  | .asertoErr k g m d _, c => .asertoErr k g m d c
  | e, _ => e

/-- Method `WithGRPCStatus(code)`: overrides the gRPC status of the error. -/
def CErr.WithGRPCStatus : CErr → Code → CErr
  | .aserto k _ m d, c => .aserto k (some c) m d
  | .asertoErr k _ m d e, c => .asertoErr k (some c) m d e
  | e, _ => e

/-- The error kind a caller observes: the kind of the outermost `cerr` error,
looking through `errors.Wrap` layers; collaborator errors have none. -/
def CErr.kind : CErr → Option ErrKind
  | .aserto k _ _ _ => some k
  | .asertoErr k _ _ _ _ => some k
  | .wrap _ c => c.kind
  | .external _ => none

/-- The gRPC status code a client observes for an error. A status set with
`WithGRPCStatus` wins; otherwise a `cerr` error has the default status of its kind
in the `cerr` library (`lib`, defined outside this repository); an error that is
not a `cerr` error has status `Unknown`. -/
def CErr.grpcCode (lib : ErrKind → Code) : CErr → Code
  | .aserto k g _ _ => g.getD (lib k)
  | .asertoErr k g _ _ _ => g.getD (lib k)
  | .wrap _ c => c.grpcCode lib
  | .external _ => .Unknown

/-! ## Outcome extraction (`is`) -/

mutual
/-- Function `is(v, decision)`: the boolean outcome of `decision` in the binding
`v`. The map case is `isIn`. -/
def is : Value → String → Except CErr Bool
  | .bool b, _ => .ok b
  | .map m, decision => isIn m decision
  | .null, _ => .error ((cerr .InvalidDecision).Msg ("is unexpected type " ++ Value.typeName .null))
  | .num n, _ =>
    .error ((cerr .InvalidDecision).Msg ("is unexpected type " ++ Value.typeName (.num n)))
  | .str s, _ =>
    .error ((cerr .InvalidDecision).Msg ("is unexpected type " ++ Value.typeName (.str s)))
  | .list xs, _ =>
    .error ((cerr .InvalidDecision).Msg ("is unexpected type " ++ Value.typeName (.list xs)))
/-- The `map[string]interface{}` case of `is`: the lookup `m[decision]`
followed by the recursive call on the value found. -/
def isIn : List (String × Value) → String → Except CErr Bool
  | [], decision =>
    .error ((cerr .InvalidDecision).Msg ("decision element [" ++ decision ++ "] not found"))
  | (k, v) :: rest, decision =>
    if k = decision then
      match is v decision with
      | .ok outcome => .ok outcome
      | .error err => .error ((cerr .InvalidDecision).Err err)
    else isIn rest decision
end

/-! ## Request data -/

/-- Enumeration `api.IdentityType`. -/
inductive IdentityType where
  | UNKNOWN
  | NONE
  | SUB
  | JWT
deriving DecidableEq, Repr

/-- Message `api.IdentityContext` (field `Type` is `Typ` here). -/
structure IdentityContext where
  Identity : String
  Typ : IdentityType
deriving DecidableEq, Repr

/-- Message `api.PolicyContext`. -/
structure PolicyContext where
  Id : String
  Name : String
  Path : String
  Decisions : List String
  InstanceLabel : String
deriving DecidableEq, Repr

/-- The entries of the call context (`ctx.Value(key)`) that the handlers read:
`aserto-policy-id`, `aserto-policy-name`, `aserto-policy-path`,
`aserto-policy-decisions` and `aserto-instance-label`; `none` is an absent entry. -/
structure Ctx where
  policyId : Option String
  policyName : Option String
  policyPath : Option String
  policyDecisions : Option String
  instanceLabel : Option String
deriving DecidableEq, Repr

/-- The rendering `fmt.Sprintf("%s", v)` of a context entry: the string itself,
and `%!s(<nil>)` for an absent entry. -/
def sprintf (v : Option String) : String :=
  match v with
  | some s => s
  | none => "%!s(<nil>)"

/-- The loop of `strings.Split(s, ",")` over the characters still to read, with
the characters of the current component (latest first). -/
def splitComma : List Char → List Char → List String
  | [], cur => [String.mk cur.reverse]
  | c :: cs, cur =>
    if c = ',' then String.mk cur.reverse :: splitComma cs [] else splitComma cs (c :: cur)

/-- The call `strings.Split(s, ",")`. -/
def stringsSplit (s : String) : List String := splitComma s.data []

/-- Function `getPolicyInfoFromContext`; `none` is the `nil` result. -/
def getPolicyInfoFromContext (ctx : Ctx) : Option PolicyContext :=
  let Id := match ctx.policyId with
    | some _ => sprintf ctx.policyId
    | none => ""
  let Name := match ctx.policyName with
    | some _ => sprintf ctx.policyName
    | none => ""
  let Path := match ctx.policyPath with
    | some _ => sprintf ctx.policyPath
    | none => ""
  let Decisions := match ctx.policyDecisions with
    | some _ => stringsSplit (sprintf ctx.policyPath)
    | none => []
  let InstanceLabel := match ctx.instanceLabel with
    | some _ => sprintf ctx.instanceLabel
    | none => ""
  if Id = "" ∨ (Name = "" ∧ InstanceLabel = "") then none
  else some { Id := Id, Name := Name, Path := Path, Decisions := Decisions,
              InstanceLabel := InstanceLabel }

/-- Function `initDecisionFilter`. -/
def initDecisionFilter (decisions : List String) : String → Bool :=
  if decisions.length = 1 ∧ decisions.head? = some "*" then fun _ => true
  else
    let decisionMap : List (String × Unit) := decisions.foldl (fun m v => Map.set m v ()) []
    fun s => (Map.get decisionMap s).isSome

/-- A value stored in the evaluation input `map[string]interface{}`: decoded
JSON (`convert(...)` and raw input), the `*api.PolicyContext` (`nil` is `none`),
or the request's `*structpb.Struct` resource context. -/
inductive InputValue where
  | json (v : Value)
  | policy (pc : Option PolicyContext)
  | resource (fields : List (String × Value))

/-- The evaluation input handed to the rule engine. -/
abbrev Input := List (String × InputValue)

/-- Constant `InputUser`. -/
def InputUser : String := "user"
/-- Constant `InputIdentity`. -/
def InputIdentity : String := "identity"
/-- Constant `InputPolicy`. -/
def InputPolicy : String := "policy"
/-- Constant `InputResource`. -/
def InputResource : String := "resource"

/-- The name of an identity type in JSON. -/
def IdentityType.name : IdentityType → String
  | .UNKNOWN => "IDENTITY_TYPE_UNKNOWN"
  | .NONE => "IDENTITY_TYPE_NONE"
  | .SUB => "IDENTITY_TYPE_SUB"
  | .JWT => "IDENTITY_TYPE_JWT"

/-- Function `convert` on an identity context: its JSON form with proto field
names, enum values as strings and unpopulated fields included. -/
def convertIdentity (ic : IdentityContext) : Value :=
  .map [("identity", .str ic.Identity), ("type", .str ic.Typ.name)]

/-- Function `convert` on the resolved user. A user message is represented by
its JSON form. The `nil` message marshals, with `EmitUnpopulated`, to the object
that holds every field of the message at its zero value; the fields are those of
`v2.Object`, which is defined outside this repository, so that object is the
parameter `unpopulated`. -/
def convertUser (unpopulated : Value) (user : Option Value) : Value :=
  match user with
  | some v => v
  | none => unpopulated

/-- Function `getID`. -/
def getID (v : Input) : String :=
  match Map.get v "user" with
  | some (.json (.map u)) =>
    match Map.get u "id" with
    | some (.str i) => i
    | _ => ""
  | _ => ""

/-- Function `getEmail`. -/
def getEmail (v : Input) : String :=
  match Map.get v "user" with
  | some (.json (.map u)) =>
    match Map.get u "email" with
    | some (.str e) => e
    | _ =>
      match Map.get u "properties" with
      | some (.map p) =>
        match Map.get p "email" with
        | some (.str e) => e
        | _ => ""
      | _ => ""
  | _ => ""

/-! ## Responses, collaborators and runs -/

/-- Message `authz2.Decision`: one named outcome of an `Is` response. -/
structure Decision where
  Decision : String
  Is : Bool
deriving DecidableEq, Repr

/-- Message `authz2.IsResponse`. -/
structure IsResponse where
  Decisions : List Decision
deriving DecidableEq, Repr

/-- Message `api_v2.Decision`: the decision log record built by `Is`. `Policy` is
the record's `Policy.Context`; `UserContext`, `UserId` and `UserEmail` are the
fields of its `User`. -/
structure DecisionRecord where
  Id : String
  Timestamp : Nat
  Path : String
  Policy : PolicyContext
  UserContext : IdentityContext
  UserId : String
  UserEmail : String
  Resource : List (String × Value)
  Outcomes : List (String × Bool)

/-- Enumeration `authz2.PathSeparator` (and its v1 counterpart). -/
inductive PathSeparator where
  | UNKNOWN
  | DOT
  | SLASH
deriving DecidableEq, Repr

/-- Function `TranslatePathSeparator`, from the v2 to the v1 enumeration. -/
def TranslatePathSeparator (separator : PathSeparator) : PathSeparator :=
  match separator with
  | .SLASH => .SLASH
  | .DOT => .DOT
  | .UNKNOWN => .UNKNOWN

/-- A policy descriptor returned by `GetPolicyList`. -/
structure Policy where
  PackageName : String
  Location : String
deriving DecidableEq, Repr

/-- One element of a rule-engine result set (`rego.Result`), with its variable
bindings. -/
structure Result where
  Bindings : List (String × Value)

/-- Read of a binding `Bindings[name]`; an absent variable reads `nil`. -/
def Result.binding (r : Result) (name : String) : Value :=
  (Map.get r.Bindings name).getD .null

/-- What a handler calls on its collaborators, in call order. -/
inductive Event where
  | resolveIdentity (ic : IdentityContext)
  | runtimeFromContext (id name label : String)
  | getPolicyList (id : String) (sep : PathSeparator) (path : String)
  | prepare (query : String)
  | eval (query : String) (input : Input)
  | query (query : String) (input : Input)
  | compile (query : String) (input : Input)
  | log (record : DecisionRecord)

/-- Enumeration `authz2.TraceLevel`. -/
inductive TraceLevel where
  | UNKNOWN
  | OFF
  | FULL
  | NOTES
  | FAILS
deriving DecidableEq, Repr

/-- Enumeration `types.ExplainModeV1` of the rule engine. -/
inductive ExplainMode where
  | ExplainOffV1
  | ExplainFullV1
  | ExplainNotesV1
  | ExplainFailsV1
deriving DecidableEq, Repr

/-- Function `TraceLevelToExplainModeV2`. -/
def TraceLevelToExplainModeV2 (t : TraceLevel) : ExplainMode :=
  match t with
  | .UNKNOWN => .ExplainOffV1
  | .OFF => .ExplainOffV1
  | .FULL => .ExplainFullV1
  | .NOTES => .ExplainNotesV1
  | .FAILS => .ExplainFailsV1

/-- What `rt.Query` yields: the result set, the metrics (possibly `nil`) and the
decoded explanation (possibly `nil`). -/
structure QueryResult where
  Result : List Value
  Metrics : Option (List (String × Value))
  Explanation : Option (List Value)

/-- What `rt.Compile` yields: the partial-evaluation result (a JSON object), the
metrics (possibly `nil`) and the decoded explanation (possibly `nil`). -/
structure CompileResult where
  Result : List (String × Value)
  Metrics : Option (List (String × Value))
  Explanation : Option (List Value)

/-- The policy runtime selected for a call (`*runtime.Runtime`), as the handlers
use it. `GetPolicyList id sep path` lists the packages under a path prefix;
`Package policy sep` is the external path of a package;
`PrepareForEval query input` gives the preparation error, if any, of a query
built with or without `rego.Input`; `Eval query input` evaluates a prepared
query; `Query query input traceSummary metrics instrument explain` is the ad-hoc
query entry point;
`Compile query input unknowns disableInlining strict metrics instrument explain` is
the partial-evaluation entry point; `decisionLog` is the decision log plugin found
by `decisionlog_plugin.Lookup`, `none` when no sink is configured. -/
structure Runtime where
  GetPolicyList : String → PathSeparator → String → Except CErr (List Policy)
  Package : Policy → PathSeparator → String
  PrepareForEval : String → Option Input → Option CErr
  Eval : String → Input → Except CErr (List Result)
  Query : String → Input → Bool → Bool → Bool → ExplainMode → Except CErr QueryResult
  Compile : String → Input → List String → Bool → Bool → Bool → Bool → ExplainMode →
    Except CErr CompileResult
  decisionLog : Option (DecisionRecord → Option CErr)

/-- The flags of `cfg.API` read by the handlers. -/
structure Config where
  EnableResourceContext : Bool
  EnableIdentityContext : Bool
deriving DecidableEq, Repr

/-- The server and what a call of it depends on. `getUserFromIdentityContext`
returns the Go pair `(user, err)`: an error, or a user message that may be `nil`;
`RuntimeFromContext id name label` is the runtime resolver; `newUUID` and `now` are
the values `uuid.NewString()` and `time.Now()` yield during the call;
`jsonUnmarshal` is `json.Unmarshal` into a `map[string]interface{}`
(the JSON `null` decodes to a `nil` map, `none`); `unpopulatedUser` is the JSON
form of a user message none of whose fields is populated. -/
structure AuthorizerServer where
  cfg : Config
  getUserFromIdentityContext : IdentityContext → Except CErr (Option Value)
  unpopulatedUser : Value
  RuntimeFromContext : String → String → String → Except CErr Runtime
  newUUID : String
  now : Nat
  jsonUnmarshal : String → Except CErr (Option (List (String × Value)))

/-- What a handler call returns: the Go pair `(resp, err)` (`none` is `nil`), or a
run-time fault. -/
inductive Ret (α : Type) where
  | fault
  | ret (resp : Option α) (err : Option CErr)
deriving DecidableEq

/-- A run of a handler: what it returns and the collaborator calls it made. -/
structure Run (α : Type) where
  ret : Ret α
  trace : List Event

/-- The evaluation input that `Is` and `DecisionTree` assemble: the map literal
with the keys `user`, `identity`, `policy` and `resource`. -/
def evaluationInput (s : AuthorizerServer) (user : Option Value)
    (identityContext : IdentityContext) (policyContext : Option PolicyContext)
    (resourceContext : List (String × Value)) : Input :=
  [ (InputUser, .json (convertUser s.unpopulatedUser user)),
    (InputIdentity, .json (convertIdentity identityContext)),
    (InputPolicy, .policy policyContext),
    (InputResource, .resource resourceContext) ]

/-- A run of `Is`: what it returns, the collaborator calls it made, and the
decision log record it constructed, if it got that far. -/
structure IsRun where
  ret : Ret IsResponse
  trace : List Event
  record : Option DecisionRecord

/-! ## Handler `Is` -/

/-- Message `authz2.IsRequest`, as far as `Is` reads it. -/
structure IsRequest where
  IdentityContext : Option IdentityContext
  ResourceContext : Option (List (String × Value))

/-- The loop of `Is` over the requested decisions still to resolve, with the
response's `Decisions` and the `outcomes` map built so far. The first decision
that does not resolve ends the loop with the wrapped error. -/
def isLoop (v : Value) :
    List String → List Decision → List (String × Bool) →
      Except CErr (List Decision × List (String × Bool))
  | [], decisions, outcomes => .ok (decisions, outcomes)
  | d :: rest, decisions, outcomes =>
    match is v d with
    | .error err => .error (.wrap ("failed getting outcome for decision [" ++ d ++ "]") err)
    | .ok b => isLoop v rest (decisions ++ [{ Decision := d, Is := b }]) (Map.set outcomes d b)

/-- Handler `AuthorizerServer.Is`. -/
def Is (s : AuthorizerServer) (ctx : Ctx) (req : IsRequest) : IsRun :=
  let resp : IsResponse := { Decisions := [] }
  match getPolicyInfoFromContext ctx with
  | none => { ret := .fault, trace := [], record := none }
  | some policyContext =>
    if policyContext.Path = "" then
      { ret := .ret (some resp) (some ((cerr .InvalidArgument).Msg
          "policy context path not set in header aserto-policy-path")),
        trace := [], record := none }
    else if policyContext.Decisions.length = 0 then
      { ret := .ret (some resp) (some ((cerr .InvalidArgument).Msg
          "policy context decisions not set")),
        trace := [], record := none }
    else
      let resourceContext := req.ResourceContext.getD []
      match req.IdentityContext with
      | none =>
        { ret := .ret (some resp) (some ((cerr .InvalidArgument).Msg "identity context not set")),
          trace := [], record := none }
      | some identityContext =>
        if identityContext.Typ = .UNKNOWN then
          { ret := .ret (some resp) (some ((cerr .InvalidArgument).Msg "identity type UNKNOWN")),
            trace := [], record := none }
        else
          let t1 := [Event.resolveIdentity identityContext]
          match s.getUserFromIdentityContext identityContext with
          | .error _ =>
            { ret := .ret (some resp) (some (((cerr .UserNotFound).WithGRPCStatus .NotFound).Msg
                "failed to resolve identity context")),
              trace := t1, record := none }
          | .ok user =>
            let input : Input :=
              evaluationInput s user identityContext (some policyContext) resourceContext
            let queryStmt := "x = data." ++ policyContext.Path
            let t2 := t1 ++ [.runtimeFromContext policyContext.Id policyContext.Name
              policyContext.InstanceLabel]
            match s.RuntimeFromContext policyContext.Id policyContext.Name
                policyContext.InstanceLabel with
            | .error err =>
              { ret := .ret (some resp) (some (.wrap "failed to procure tenant runtime" err)),
                trace := t2, record := none }
            | .ok policyRuntime =>
              let t3 := t2 ++ [.prepare queryStmt]
              match policyRuntime.PrepareForEval queryStmt none with
              | some err =>
                { ret := .ret (some resp)
                    (some (((cerr .BadQuery).Err err).Str "query" queryStmt)),
                  trace := t3, record := none }
              | none =>
                let t4 := t3 ++ [.eval queryStmt input]
                match policyRuntime.Eval queryStmt input with
                | .error err =>
                  { ret := .ret (some resp) (some ((((cerr .BadQuery).Err err).Str "query"
                      queryStmt).Msg "query evaluation failed")),
                    trace := t4, record := none }
                | .ok [] =>
                  { ret := .ret (some resp) (some (((cerr .BadQuery).Str "query"
                      queryStmt).Msg "undefined results")),
                    trace := t4, record := none }
                | .ok (r :: _) =>
                  let v := r.binding "x"
                  match isLoop v policyContext.Decisions [] [] with
                  | .error err => { ret := .ret none (some err), trace := t4, record := none }
                  | .ok (decisions, outcomes) =>
                    let resp : IsResponse := { Decisions := resp.Decisions ++ decisions }
                    let d : DecisionRecord :=
                      { Id := s.newUUID,
                        Timestamp := s.now,
                        Path := policyContext.Path,
                        Policy := policyContext,
                        UserContext := identityContext,
                        UserId := getID input,
                        UserEmail := getEmail input,
                        Resource := resourceContext,
                        Outcomes := outcomes }
                    match policyRuntime.decisionLog with
                    | none => { ret := .ret (some resp) none, trace := t4, record := some d }
                    | some dplugin =>
                      match dplugin d with
                      | some err =>
                        { ret := .ret (some resp) (some err), trace := t4 ++ [.log d],
                          record := some d }
                      | none =>
                        { ret := .ret (some resp) none, trace := t4 ++ [.log d],
                          record := some d }

/-! ## Handler `DecisionTree` -/

/-- Message `authz2.DecisionTreeOptions`. -/
structure DecisionTreeOptions where
  PathSeparator : PathSeparator
deriving DecidableEq, Repr

/-- Message `authz2.DecisionTreeRequest`, as far as `DecisionTree` reads it. -/
structure DecisionTreeRequest where
  IdentityContext : Option IdentityContext
  ResourceContext : Option (List (String × Value))
  Options : Option DecisionTreeOptions

/-- Message `authz2.DecisionTreeResponse`; `Path` is the tree (`none` is `nil`). -/
structure DecisionTreeResponse where
  PathRoot : String
  Path : Option (List (String × Value))

/-- The loop `for k, v := range result` of `DecisionTree` over the entries still
to visit, with the `results` map built so far. -/
def treeFields (decisionFilter : String → Bool) (packageName : String) :
    List (String × Value) → List (String × Value) → List (String × Value)
  | [], results => results
  | (k, v) :: rest, results =>
    if !decisionFilter k then treeFields decisionFilter packageName rest results
    else
      match v with
      | .bool b =>
        let results : List (String × Value) :=
          match Map.get results packageName with
          | none => Map.set results packageName (Value.map [])
          | some .null => Map.set results packageName (Value.map [])
          | some _ => results
        match Map.get results packageName with
        | some (.map r) =>
          treeFields decisionFilter packageName rest
            (Map.set results packageName (.map (Map.set r k (.bool b))))
        | _ => treeFields decisionFilter packageName rest results
      | _ => treeFields decisionFilter packageName rest results

/-- The variables of `DecisionTree` that its package loop reads and writes. -/
structure TreeState where
  results : List (String × Value)
  policyContext : PolicyContext
  input : Input
  trace : List Event

/-- The loop `for _, policy := range policyList` of `DecisionTree` over the
packages still to evaluate. It ends with the final variables, or with the error
of the first package that fails and the calls made up to it. -/
def treeLoop (policyRuntime : Runtime) (separator : PathSeparator)
    (decisionFilter : String → Bool) :
    List Policy → TreeState → Except (CErr × List Event) TreeState
  | [], st => .ok st
  | policy :: rest, st =>
    let queryStmt := "x = data." ++ policy.PackageName
    let policyContext := { st.policyContext with Path := policy.PackageName }
    let input := Map.set st.input InputPolicy (.policy (some policyContext))
    let t1 := st.trace ++ [.prepare queryStmt]
    match policyRuntime.PrepareForEval queryStmt (some input) with
    | some err => .error (((cerr .BadQuery).Err err).Str "query" queryStmt, t1)
    | none =>
      let packageName := policyRuntime.Package policy (TranslatePathSeparator separator)
      let t2 := t1 ++ [.eval queryStmt input]
      match policyRuntime.Eval queryStmt input with
      | .error err =>
        .error ((((cerr .BadQuery).Err err).Str "query" queryStmt).Msg "query evaluation failed",
          t2)
      | .ok [] =>
        .error (((cerr .BadQuery).Str "query" queryStmt).Msg "undefined results", t2)
      | .ok (r :: _) =>
        let results :=
          match r.binding "x" with
          | .map result => treeFields decisionFilter packageName (Map.range result) st.results
          | _ => st.results
        treeLoop policyRuntime separator decisionFilter rest
          { results := results, policyContext := policyContext, input := input, trace := t2 }

/-- Handler `AuthorizerServer.DecisionTree`. The conversion
`structpb.NewStruct(results)` of the tree does not fail on a tree of booleans
keyed by strings. -/
def DecisionTree (s : AuthorizerServer) (ctx : Ctx) (req : DecisionTreeRequest) :
    Run DecisionTreeResponse :=
  let resp : DecisionTreeResponse := { PathRoot := "", Path := none }
  let policyContext := getPolicyInfoFromContext ctx
  let resourceContext := req.ResourceContext.getD []
  let options : DecisionTreeOptions := req.Options.getD { PathSeparator := .DOT }
  match req.IdentityContext with
  | none =>
    { ret := .ret (some resp) (some ((cerr .InvalidArgument).Msg "identity context not set")),
      trace := [] }
  | some identityContext =>
    if identityContext.Typ = .UNKNOWN then
      { ret := .ret (some resp) (some ((cerr .InvalidArgument).Msg "identity type UNKNOWN")),
        trace := [] }
    else
      let t1 := [Event.resolveIdentity identityContext]
      match s.getUserFromIdentityContext identityContext with
      | .error _ =>
        { ret := .ret (some resp) (some (((cerr .AuthenticationFailed).WithGRPCStatus
            .NotFound).Msg "failed to resolve identity context")),
          trace := t1 }
      | .ok user =>
        let input : Input :=
          evaluationInput s user identityContext policyContext resourceContext
        match policyContext with
        | none => { ret := .fault, trace := t1 }
        | some policyContext =>
          let t2 := t1 ++ [.runtimeFromContext policyContext.Id policyContext.Name
            policyContext.InstanceLabel]
          match s.RuntimeFromContext policyContext.Id policyContext.Name
              policyContext.InstanceLabel with
          | .error err =>
            { ret := .ret (some resp) (some (.wrap "failed to procure tenant runtime" err)),
              trace := t2 }
          | .ok policyRuntime =>
            let t3 := t2 ++ [.getPolicyList policyContext.Id
              (TranslatePathSeparator options.PathSeparator) policyContext.Path]
            match policyRuntime.GetPolicyList policyContext.Id
                (TranslatePathSeparator options.PathSeparator) policyContext.Path with
            | .error err =>
              { ret := .ret (some resp) (some (.wrap "get policy list" err)), trace := t3 }
            | .ok policyList =>
              let decisionFilter := initDecisionFilter policyContext.Decisions
              match treeLoop policyRuntime options.PathSeparator decisionFilter policyList
                  { results := [], policyContext := policyContext, input := input,
                    trace := t3 } with
              | .error (err, t) => { ret := .ret (some resp) (some err), trace := t }
              | .ok st =>
                { ret := .ret (some { PathRoot := st.policyContext.Path,
                                      Path := some st.results }) none,
                  trace := st.trace }

/-! ## Handler `Query` -/

/-- Message `authz2.QueryOptions`. -/
structure QueryOptions where
  Metrics : Bool
  Instrument : Bool
  Trace : TraceLevel
  TraceSummary : Bool
deriving DecidableEq, Repr

/-- Message `authz2.QueryRequest`, as far as `Query` reads it. -/
structure QueryRequest where
  Query : String
  Input : String
  Options : Option QueryOptions
  IdentityContext : Option IdentityContext
  ResourceContext : Option (List (String × Value))

/-- Message `authz2.QueryResponse`; an entry of `Trace` is a `*structpb.Struct`
(`none` is `nil`). -/
structure QueryResponse where
  Response : Option (List (String × Value))
  Metrics : Option (List (String × Value))
  Trace : List (Option (List (String × Value)))
  TraceSummary : List String

/-- Method `GetStringValue` of a trace entry: the string, or the empty string. -/
def getStringValue (v : Value) : String :=
  match v with
  | .str s => s
  | _ => ""

/-- Method `GetStructValue` of a trace entry: the struct, or `nil`. -/
def getStructValue (v : Value) : Option (List (String × Value)) :=
  match v with
  | .map m => some m
  | _ => none

/-- The tail of `Query` after `rt.Query` succeeded: the response built from the
query result. The JSON re-encoding of the engine's own result and the
`structpb` conversions are taken to succeed. -/
def queryResponse (options : QueryOptions) (queryResult : QueryResult) : QueryResponse :=
  let resp : QueryResponse :=
    { Response := some [("result", .list queryResult.Result)],
      Metrics := some (queryResult.Metrics.getD []),
      Trace := [],
      TraceSummary := [] }
  match queryResult.Explanation with
  | none => resp
  | some v =>
    if options.TraceSummary then { resp with TraceSummary := v.map getStringValue }
    else { resp with Trace := v.map getStructValue }

/-- Handler `AuthorizerServer.Query`. -/
def Query (s : AuthorizerServer) (ctx : Ctx) (req : QueryRequest) : Run QueryResponse :=
  let empty : QueryResponse := { Response := none, Metrics := none, Trace := [], TraceSummary := [] }
  if req.Query = "" then
    { ret := .ret (some empty) (some ((cerr .InvalidArgument).Msg "query not set")), trace := [] }
  else
    let options : QueryOptions := req.Options.getD
      { Metrics := false, Instrument := false, Trace := .OFF, TraceSummary := false }
    let options : QueryOptions :=
      if options.Trace = .UNKNOWN then { options with Trace := .OFF } else options
    let decoded : Except CErr (Option (List (String × Value))) :=
      if req.Input ≠ "" then s.jsonUnmarshal req.Input else .ok none
    match decoded with
    | .error err =>
      { ret := .ret (some empty) (some (.wrap
          "failed to unmarshal input - make sure it's a valid JSON object" err)),
        trace := [] }
    | .ok raw =>
      let input : Input := (raw.getD []).map (fun e => (e.1, InputValue.json e.2))
      let policyContext := getPolicyInfoFromContext ctx
      let input : Input :=
        match policyContext with
        | some pc => Map.set input InputPolicy (.policy (some pc))
        | none => input
      let input : Input :=
        if s.cfg.EnableResourceContext then
          match req.ResourceContext with
          | some rc => Map.set input InputResource (.resource rc)
          | none => input
        else input
      let identityStep : Except (Run QueryResponse) (Input × List Event) :=
        if s.cfg.EnableIdentityContext then
          match req.IdentityContext with
          | none => .ok (input, [])
          | some identityContext =>
            if identityContext.Typ = .UNKNOWN then
              .error { ret := .ret (some empty)
                         (some ((cerr .InvalidArgument).Msg "identity type UNKNOWN")),
                       trace := [] }
            else if identityContext.Typ = .NONE then .ok (input, [])
            else
              let input := Map.set input InputIdentity (.json (convertIdentity identityContext))
              let t1 := [Event.resolveIdentity identityContext]
              match s.getUserFromIdentityContext identityContext with
              | .ok (some user) =>
                .ok (Map.set input InputUser
                  (.json (convertUser s.unpopulatedUser (some user))), t1)
              | _ =>
                .error { ret := .ret (some empty)
                           (some (((cerr .AuthenticationFailed).WithGRPCStatus .NotFound).Msg
                             "failed to resolve identity context")),
                         trace := t1 }
        else .ok (input, [])
      match identityStep with
      | .error run => run
      | .ok (input, t1) =>
        let selected : Except CErr Runtime × List Event :=
          match policyContext with
          | some pc =>
            (match s.RuntimeFromContext pc.Id pc.Name pc.InstanceLabel with
             | .error err => .error (.wrap "failed to procure tenant runtime" err)
             | .ok rt => .ok rt,
             t1 ++ [.runtimeFromContext pc.Id pc.Name pc.InstanceLabel])
          | none =>
            (match s.RuntimeFromContext "" "" "" with
             | .error _ => .error ((cerr .InvalidPolicyID).Msg "undefined policy context")
             | .ok rt => .ok rt,
             t1 ++ [.runtimeFromContext "" "" ""])
        match selected with
        | (.error err, t2) => { ret := .ret (some empty) (some err), trace := t2 }
        | (.ok rt, t2) =>
          let t3 := t2 ++ [.query req.Query input]
          match rt.Query req.Query input options.TraceSummary options.Metrics options.Instrument
              (TraceLevelToExplainModeV2 options.Trace) with
          | .error err => { ret := .ret (some empty) (some err), trace := t3 }
          | .ok queryResult =>
            { ret := .ret (some (queryResponse options queryResult)) none, trace := t3 }

/-! ## Calls that reach the rule engine's binding -/

/-- The call `Is s ctx req` passes validation, resolves the identity to `user`,
selects the runtime `rt`, prepares its query and evaluates it to the non-empty
result set `r :: rs`, for the policy context `pc` and the identity context `ic`:
it reaches the extraction of the outcomes from the binding `x` of `r`. -/
structure IsReachesBinding (s : AuthorizerServer) (ctx : Ctx) (req : IsRequest)
    (pc : PolicyContext) (ic : IdentityContext) (user : Option Value) (rt : Runtime)
    (r : Result) (rs : List Result) : Prop where
  policy : getPolicyInfoFromContext ctx = some pc
  path : pc.Path ≠ ""
  decisions : pc.Decisions ≠ []
  identity : req.IdentityContext = some ic
  identityType : ic.Typ ≠ .UNKNOWN
  resolved : s.getUserFromIdentityContext ic = .ok user
  selected : s.RuntimeFromContext pc.Id pc.Name pc.InstanceLabel = .ok rt
  prepared : rt.PrepareForEval ("x = data." ++ pc.Path) none = none
  evaluated :
    rt.Eval ("x = data." ++ pc.Path)
      (evaluationInput s user ic (some pc) (req.ResourceContext.getD [])) = .ok (r :: rs)

/-- The collaborator calls of an `Is` call up to and including the evaluation. -/
def isTrace (pc : PolicyContext) (ic : IdentityContext) (input : Input) : List Event :=
  [ .resolveIdentity ic,
    .runtimeFromContext pc.Id pc.Name pc.InstanceLabel,
    .prepare ("x = data." ++ pc.Path),
    .eval ("x = data." ++ pc.Path) input ]

/-- An event is a call of the decision log sink. -/
def Event.isLog : Event → Bool
  | .log _ => true
  | _ => false

/-! ## A concrete deployment, for evaluating the handlers -/

/-- A runtime with the two packages `app.a` and `app.b`, in which every
evaluation binds `x` to the value `x`, with the decision log sink `sink`. -/
def demoRuntime (x : Value) (sink : Option (DecisionRecord → Option CErr)) : Runtime :=
  { GetPolicyList := fun _ _ _ => .ok [⟨"app.a", ""⟩, ⟨"app.b", ""⟩],
    Package := fun policy _ => policy.PackageName,
    PrepareForEval := fun _ _ => none,
    Eval := fun _ _ => .ok [{ Bindings := [("x", x)] }],
    Query := fun _ _ _ _ _ _ => .ok { Result := [], Metrics := none, Explanation := none },
    Compile := fun _ _ _ _ _ _ _ _ =>
      .ok { Result := [], Metrics := none, Explanation := none },
    decisionLog := sink }

/-- A server whose directory knows the single identity `alice@example.com`, whose
runtime resolver always selects `demoRuntime x sink`, and whose JSON decoder
accepts the empty object only. -/
def demoServer (x : Value) (sink : Option (DecisionRecord → Option CErr)) : AuthorizerServer :=
  { cfg := { EnableResourceContext := true, EnableIdentityContext := true },
    getUserFromIdentityContext := fun ic =>
      if ic.Identity = "alice@example.com" then
        .ok (some (.map [("id", .str "u1"), ("email", .str "alice@example.com")]))
      else .error (.external "identity not found"),
    unpopulatedUser := .map [("id", .str ""), ("email", .str "")],
    RuntimeFromContext := fun _ _ _ => .ok (demoRuntime x sink),
    newUUID := "00000000-0000-0000-0000-000000000000",
    now := 0,
    jsonUnmarshal := fun raw =>
      if raw = "\x7b\x7d" then .ok (some []) else .error (.external "invalid character") }

/-- A call context that addresses a policy; its path entry is `allowed`, so the
decisions that `getPolicyInfoFromContext` yields are the list with the single
name `allowed`. -/
def demoCtx : Ctx :=
  { policyId := some "tenant", policyName := some "policy", policyPath := some "allowed",
    policyDecisions := some "allowed", instanceLabel := none }

/-- The policy context of `demoCtx`. -/
def demoPolicyContext : PolicyContext :=
  { Id := "tenant", Name := "policy", Path := "allowed", Decisions := ["allowed"],
    InstanceLabel := "" }

/-- The identity context of a known subject. -/
def alice : IdentityContext := { Identity := "alice@example.com", Typ := .SUB }

/-- The identity context of a subject the directory does not know. -/
def nobody : IdentityContext := { Identity := "noexisting-user@acmecorp.com", Typ := .SUB }

/-- A sink that accepts every record. -/
def acceptingSink : DecisionRecord → Option CErr := fun _ => none

/-- A sink that fails on every record. -/
def failingSink : DecisionRecord → Option CErr := fun _ => some (.external "sink unavailable")

/-! ## The tree that `DecisionTree` assembles, package by package -/

/-- A dynamic value is a plain boolean. -/
def Value.isBool : Value → Bool
  | .bool _ => true
  | _ => false

/-- A field of a result object that `DecisionTree` keeps: its name passes the
decision filter and its value is a plain boolean. -/
def keepsField (decisionFilter : String → Bool) (e : String × Value) : Bool :=
  decisionFilter e.1 && e.2.isBool

/-- The sub-map of a package after the fields `es` were visited, starting from
the sub-map `r`: every kept field is written, in order. -/
def collectFields (decisionFilter : String → Bool) :
    List (String × Value) → List (String × Value) → List (String × Value)
  | [], r => r
  | e :: rest, r =>
    collectFields decisionFilter rest (if keepsField decisionFilter e then Map.set r e.1 e.2 else r)

/-- The evaluation input of a package in the loop of `DecisionTree`: the
call's input with the policy entry's path set to the package name. -/
def packageInput (input : Input) (pc : PolicyContext) (policy : Policy) : Input :=
  Map.set input InputPolicy (.policy (some { pc with Path := policy.PackageName }))

/-- The top-level result object of a package, as `DecisionTree` reads it: the
binding `x` of the first result of evaluating the package's query when that is a
mapping, and no fields otherwise. -/
def packageResult (rt : Runtime) (input : Input) (pc : PolicyContext) (policy : Policy) :
    List (String × Value) :=
  match rt.Eval ("x = data." ++ policy.PackageName) (packageInput input pc policy) with
  | .ok (r :: _) =>
    match r.binding "x" with
    | .map result => result
    | _ => []
  | _ => []

/-- The decision of name `k` that a result object contributes to the tree: the
field `k` when its name passes the decision filter and its value is a plain
boolean. -/
def decisionField (decisionFilter : String → Bool) (result : List (String × Value))
    (k : String) : Option Value :=
  if decisionFilter k then
    match Map.get result k with
    | some (.bool b) => some (.bool b)
    | _ => none
  else none

/-- The tree entry that a result object contributes: none when it has no kept
field, and otherwise the sub-map of its kept fields. -/
def treeEntry (decisionFilter : String → Bool) (result : List (String × Value)) :
    Option Value :=
  if (Map.range result).any (keepsField decisionFilter) then
    some (.map (collectFields decisionFilter (Map.range result) []))
  else none

/-! ## Further call contexts -/

/-- A call context that addresses a policy and requests the path prefix `app`. -/
def treeCtx : Ctx :=
  { policyId := some "tenant", policyName := some "policy", policyPath := some "app",
    policyDecisions := some "allowed", instanceLabel := none }

/-- A call context without any policy entry: it addresses no policy. -/
def emptyCtx : Ctx :=
  { policyId := none, policyName := none, policyPath := none, policyDecisions := none,
    instanceLabel := none }

/-- A call context that addresses a policy, with the path entry
`peoplefinder.GET.users` and the decisions entry `allowed,visible`. -/
def decisionsCtx : Ctx :=
  { policyId := some "tenant", policyName := some "policy",
    policyPath := some "peoplefinder.GET.users", policyDecisions := some "allowed,visible",
    instanceLabel := none }

/-! ## Packages that fail in the loop of `DecisionTree` -/

/-- The package does not evaluate in the loop of `DecisionTree`: the preparation
of its query fails, or its evaluation fails, or its evaluation yields no result. -/
def packageFails (rt : Runtime) (input : Input) (pc : PolicyContext) (policy : Policy) : Bool :=
  match rt.PrepareForEval ("x = data." ++ policy.PackageName)
      (some (packageInput input pc policy)) with
  | some _ => true
  | none =>
    match rt.Eval ("x = data." ++ policy.PackageName) (packageInput input pc policy) with
    | .error _ => true
    | .ok [] => true
    | .ok (_ :: _) => false

/-- The collaborator calls that the loop of `DecisionTree` makes for a package
that evaluates: the preparation and the evaluation of its query. -/
def packageEvents (input : Input) (pc : PolicyContext) (policy : Policy) : List Event :=
  [ .prepare ("x = data." ++ policy.PackageName),
    .eval ("x = data." ++ policy.PackageName) (packageInput input pc policy) ]

/-- The collaborator calls that the loop of `DecisionTree` makes for a package
that fails: the preparation of its query and, when that succeeds, its
evaluation. -/
def failingPackageEvents (rt : Runtime) (input : Input) (pc : PolicyContext)
    (policy : Policy) : List Event :=
  match rt.PrepareForEval ("x = data." ++ policy.PackageName)
      (some (packageInput input pc policy)) with
  | some _ => [.prepare ("x = data." ++ policy.PackageName)]
  | none => packageEvents input pc policy

/-- The collaborator calls of a `DecisionTree` call up to and including the
enumeration of the packages. -/
def treeTrace (pc : PolicyContext) (ic : IdentityContext) (sep : PathSeparator) : List Event :=
  [ .resolveIdentity ic,
    .runtimeFromContext pc.Id pc.Name pc.InstanceLabel,
    .getPolicyList pc.Id (TranslatePathSeparator sep) pc.Path ]

/-! ## Handler `Compile` -/

/-- Message `authz2.CompileRequest`, as far as `Compile` reads it. -/
structure CompileRequest where
  Query : String
  Input : String
  Unknowns : List String
  DisableInlining : Bool
  Options : Option QueryOptions
  IdentityContext : Option IdentityContext
  ResourceContext : Option (List (String × Value))

/-- Message `authz2.CompileResponse`; an entry of `Trace` is a `*structpb.Struct`
(`none` is `nil`). -/
structure CompileResponse where
  Response : Option (List (String × Value))
  Metrics : Option (List (String × Value))
  Trace : List (Option (List (String × Value)))
  TraceSummary : List String

/-- The tail of `Compile` after `rt.Compile` succeeded: the response built from
the compile result. The JSON re-encoding of the engine's own result and the
`protoutil` conversions are taken to succeed. -/
def compileResponse (options : QueryOptions) (compileResult : CompileResult) :
    CompileResponse :=
  let resp : CompileResponse :=
    { Response := some compileResult.Result,
      Metrics := some (compileResult.Metrics.getD []),
      Trace := [],
      TraceSummary := [] }
  match compileResult.Explanation with
  | none => resp
  | some v =>
    if options.TraceSummary then { resp with TraceSummary := v.map getStringValue }
    else { resp with Trace := v.map getStructValue }

/-- Handler `AuthorizerServer.Compile`. Its variable `input` is a Go map that is
`nil` (`none`) until it is decoded from a non-empty raw input or allocated at the
end of the assembly; an assignment `input[k] = v` to the `nil` map is a run-time
fault. -/
def Compile (s : AuthorizerServer) (ctx : Ctx) (req : CompileRequest) : Run CompileResponse :=
  let empty : CompileResponse :=
    { Response := none, Metrics := none, Trace := [], TraceSummary := [] }
  if req.Query = "" then
    { ret := .ret (some empty) (some ((cerr .InvalidArgument).Msg "query not set")), trace := [] }
  else
    let options : QueryOptions := req.Options.getD
      { Metrics := false, Instrument := false, Trace := .OFF, TraceSummary := false }
    let options : QueryOptions :=
      if options.Trace = .UNKNOWN then { options with Trace := .OFF } else options
    let decoded : Except CErr (Option (List (String × Value))) :=
      if req.Input ≠ "" then s.jsonUnmarshal req.Input else .ok none
    match decoded with
    | .error err =>
      { ret := .ret (some empty) (some (.wrap
          "failed to unmarshal input - make sure it's a valid JSON object" err)),
        trace := [] }
    | .ok raw =>
      let input : Option Input := raw.map (fun m => m.map (fun e => (e.1, InputValue.json e.2)))
      let resourceStep : Except (Run CompileResponse) (Option Input) :=
        if s.cfg.EnableResourceContext then
          match req.ResourceContext with
          | some rc =>
            match input with
            | none => .error { ret := .fault, trace := [] }
            | some m => .ok (some (Map.set m InputResource (.resource rc)))
          | none => .ok input
        else .ok input
      match resourceStep with
      | .error run => run
      | .ok input =>
        let identityStep : Except (Run CompileResponse) (Option Input × List Event) :=
          if s.cfg.EnableIdentityContext then
            match req.IdentityContext with
            | none => .ok (input, [])
            | some identityContext =>
              if identityContext.Typ = .UNKNOWN then
                .error { ret := .ret (some empty)
                           (some ((cerr .InvalidArgument).Msg "identity type UNKNOWN")),
                         trace := [] }
              else if identityContext.Typ = .NONE then .ok (input, [])
              else
                match input with
                | none => .error { ret := .fault, trace := [] }
                | some m =>
                  let m := Map.set m InputIdentity (.json (convertIdentity identityContext))
                  let t1 := [Event.resolveIdentity identityContext]
                  match s.getUserFromIdentityContext identityContext with
                  | .ok (some user) =>
                    .ok (some (Map.set m InputUser
                      (.json (convertUser s.unpopulatedUser (some user)))), t1)
                  | _ =>
                    .error { ret := .ret (some empty)
                               (some (((cerr .AuthenticationFailed).WithGRPCStatus
                                 .NotFound).Msg "failed to resolve identity context")),
                             trace := t1 }
          else .ok (input, [])
        match identityStep with
        | .error run => run
        | .ok (input, t1) =>
          let policyContext := getPolicyInfoFromContext ctx
          let policyStep : Except (Run CompileResponse) (Option Input) :=
            match policyContext with
            | some pc =>
              match input with
              | none => .error { ret := .fault, trace := t1 }
              | some m => .ok (some (Map.set m InputPolicy (.policy (some pc))))
            | none => .ok input
          match policyStep with
          | .error run => run
          | .ok input =>
            let input : Input := input.getD []
            let selected : Except CErr Runtime × List Event :=
              match policyContext with
              | some pc =>
                (match s.RuntimeFromContext pc.Id pc.Name pc.InstanceLabel with
                 | .error err => .error (.wrap "failed to procure tenant runtime" err)
                 | .ok rt => .ok rt,
                 t1 ++ [.runtimeFromContext pc.Id pc.Name pc.InstanceLabel])
              | none =>
                (match s.RuntimeFromContext "" "" "" with
                 | .error _ => .error ((cerr .InvalidPolicyID).Msg "undefined policy context")
                 | .ok rt => .ok rt,
                 t1 ++ [.runtimeFromContext "" "" ""])
            match selected with
            | (.error err, t2) => { ret := .ret (some empty) (some err), trace := t2 }
            | (.ok rt, t2) =>
              let t3 := t2 ++ [.compile req.Query input]
              match rt.Compile req.Query input req.Unknowns req.DisableInlining true
                  options.Metrics options.Instrument
                  (TraceLevelToExplainModeV2 options.Trace) with
              | .error err => { ret := .ret (some empty) (some err), trace := t3 }
              | .ok compileResult =>
                { ret := .ret (some (compileResponse options compileResult)) none, trace := t3 }

/-! ## A scripted deployment -/

/-- A runtime that enumerates the packages `policies`, translates a package to
the external path `package policy`, and evaluates a query to `eval query`. -/
def scriptedRuntime (policies : List Policy) (package : Policy → String)
    (eval : String → Except CErr (List Result)) : Runtime :=
  { GetPolicyList := fun _ _ _ => .ok policies,
    Package := fun policy _ => package policy,
    PrepareForEval := fun _ _ => none,
    Eval := fun query _ => eval query,
    Query := fun _ _ _ _ _ _ => .ok { Result := [], Metrics := none, Explanation := none },
    Compile := fun _ _ _ _ _ _ _ _ =>
      .ok { Result := [], Metrics := none, Explanation := none },
    decisionLog := none }

/-- A server with the flags `cfg` whose directory knows the single identity
`alice@example.com`, whose runtime resolver always selects `rt`, and whose JSON
decoder knows the empty object, the object with the single field `resource` of
value `1`, and `null`. -/
def scriptedServer (cfg : Config) (rt : Runtime) : AuthorizerServer :=
  { cfg := cfg,
    getUserFromIdentityContext := fun ic =>
      if ic.Identity = "alice@example.com" then
        .ok (some (.map [("id", .str "u1"), ("email", .str "alice@example.com")]))
      else .error (.external "identity not found"),
    unpopulatedUser := .map [("id", .str ""), ("email", .str "")],
    RuntimeFromContext := fun _ _ _ => .ok rt,
    newUUID := "00000000-0000-0000-0000-000000000000",
    now := 0,
    jsonUnmarshal := fun raw =>
      if raw = "\x7b\x7d" then .ok (some [])
      else if raw = "\x7b\"resource\": 1\x7d" then .ok (some [("resource", .num "1")])
      else if raw = "null" then .ok none
      else .error (.external "invalid character") }

/-- The package `app.a`. -/
def packageA : Policy := { PackageName := "app.a", Location := "" }

/-- The package `app.b`. -/
def packageB : Policy := { PackageName := "app.b", Location := "" }

/-- A runtime with the packages `app.a` and `app.b` in which `app.a` evaluates to
the object with the boolean field `allowed` and the evaluation of `app.b` is
undefined (it yields no result). -/
def undefinedSecondRuntime : Runtime :=
  scriptedRuntime [packageA, packageB] (fun policy => policy.PackageName)
    (fun query =>
      if query = "x = data.app.a" then
        .ok [{ Bindings := [("x", .map [("allowed", .bool true)])] }]
      else .ok [])

/-- The flags of a server that merges both the resource context and the identity
context. -/
def allEnabled : Config := { EnableResourceContext := true, EnableIdentityContext := true }

/-- The flags of a server that merges neither the resource context nor the
identity context. -/
def allDisabled : Config := { EnableResourceContext := false, EnableIdentityContext := false }

/-- The fields of the raw input of a `Query` or `Compile` request, as decoded by
the server's JSON decoder; no fields for an empty raw input, for the JSON `null`
and for a raw input that does not decode. -/
def decodedInput (s : AuthorizerServer) (raw : String) : List (String × Value) :=
  if raw = "" then []
  else
    match s.jsonUnmarshal raw with
    | .ok (some m) => m
    | _ => []

/-! ## Packages that translate to the same external path -/

/-- The decision `k` under the external path `p` of a tree: the field `k` of the
sub-map under `p`, if there is one. -/
def lookupField (tree : List (String × Value)) (p k : String) : Option Value :=
  match Map.get tree p with
  | some (.map sub) => Map.get sub k
  | _ => none

/-- The decision `k` under the external path `p` after the packages of a list
were visited in order, starting from the decision `acc`: every package that
translates to `p` and contributes a decision `k` replaces it, and a package that
does not contribute `k` leaves it as it is. -/
def mergedField (decisionFilter : String → Bool) (rt : Runtime) (separator : PathSeparator)
    (input : Input) (pc : PolicyContext) (p k : String) :
    List Policy → Option Value → Option Value
  | [], acc => acc
  | policy :: rest, acc =>
    mergedField decisionFilter rt separator input pc p k rest
      (if rt.Package policy (TranslatePathSeparator separator) = p then
        match decisionField decisionFilter (packageResult rt input pc policy) k with
        | some v => some v
        | none => acc
      else acc)

/-- A runtime with the packages `app.a` and `app.b` that both translate to the
external path `app`; `app.a` evaluates to the object with the field `a` and `app.b`
to the object with the field `b`. -/
def collidingRuntime : Runtime :=
  scriptedRuntime [packageA, packageB] (fun _ => "app")
    (fun query =>
      if query = "x = data.app.a" then
        .ok [{ Bindings := [("x", .map [("a", .bool true)])] }]
      else .ok [{ Bindings := [("x", .map [("b", .bool false)])] }])

/-- A call context that addresses a policy; its path entry is `*`, so the
decisions that `getPolicyInfoFromContext` yields are the wildcard. -/
def starCtx : Ctx :=
  { policyId := some "tenant", policyName := some "policy", policyPath := some "*",
    policyDecisions := some "*", instanceLabel := none }

/-- The fields of a binding when it is a mapping, and no fields otherwise. -/
def objectFields (x : Value) : List (String × Value) :=
  match x with
  | .map result => result
  | _ => []

end impl

/-! ## Identity lookup (`directory/identity.go`) -/

namespace directory

/-- Message `v2.Object`, a directory object. -/
structure Object where
  Id : String
  Typ : String
  Key : String
deriving DecidableEq, Repr

/-- Message `v2.ObjectIdentifier`, as far as `GetIdentityV2` reads it: the field
`Id`, a `*string` (`none` is `nil`). -/
structure ObjectIdentifier where
  Id : Option String
deriving DecidableEq, Repr

/-- Message `v2.Relation`, as far as `GetIdentityV2` reads it: the field
`Subject`, a pointer (`none` is `nil`). -/
structure Relation where
  Subject : Option ObjectIdentifier
deriving DecidableEq, Repr

/-- Message `ds2.GetRelationRequest`, as `GetIdentityV2` fills it. -/
structure GetRelationRequest where
  ObjectType : String
  ObjectKey : String
  RelationName : String
  RelationObjectType : String
  SubjectType : String
  WithObjects : Bool
deriving DecidableEq, Repr

/-- Message `ds2.GetRelationResponse`. `Results` is a slice of pointers: `none`
is the `nil` slice, `some []` an empty slice that is not `nil`, and an element
`none` a `nil` pointer. `Objects` is a map from ids to pointers; the `nil` map
and the empty map both have length 0 and are the empty list. -/
structure GetRelationResponse where
  Results : Option (List (Option Relation))
  Objects : List (String × Option Object)
deriving DecidableEq, Repr

/-- An error of the directory reader client: one that unwraps to
`derr.ErrNotFound`, or any other error. -/
inductive ClientError where
  | notFound
  | other (msg : String)
deriving DecidableEq, Repr

/-- An error returned by `GetIdentityV2`: `aerr.ErrDirectoryObjectNotFound` (with
its message, if one was set), or the client's error passed on. -/
inductive IdentityError where
  | ErrDirectoryObjectNotFound (msg : String)
  | client (err : ClientError)
deriving DecidableEq, Repr

/-- What a call of `GetIdentityV2` does: it returns the Go pair of an object
pointer and an error (`none` is `nil`), or it panics on a `nil` dereference or on
an index out of range. -/
inductive Outcome where
  | ret (obj : Option Object) (err : Option IdentityError)
  | panic
deriving DecidableEq, Repr

/-- The request that `GetIdentityV2` sends for an identity: the `identifier`
relation of the object of type `identity` keyed by the identity, toward a subject
of type `user`, with the related objects hydrated. -/
def relationRequest (identity : String) : GetRelationRequest :=
  { ObjectType := "identity", ObjectKey := identity, RelationName := "identifier",
    RelationObjectType := "identity", SubjectType := "user", WithObjects := true }

/-- The expression `relResp.Objects[*relResp.Results[0].Subject.Id]`: the id of
the subject of the first result, looked up in the objects. Indexing an empty
slice and dereferencing a `nil` result, subject or id panic (`none`); a key that
is absent from the map yields the `nil` pointer. -/
def subjectObject (results : List (Option Relation)) (objects : List (String × Option Object)) :
    Option (Option Object) :=
  match results with
  | [] => none
  | none :: _ => none
  | some relation :: _ =>
    match relation.Subject with
    | none => none
    | some subject =>
      match subject.Id with
      | none => none
      | some id => some ((impl.Map.get objects id).getD none)

/-- Function `GetIdentityV2`; `client` is the call `client.GetRelation`, which
returns a response pointer (`none` is `nil`) or an error. -/
def GetIdentityV2
    (client : GetRelationRequest → Except ClientError (Option GetRelationResponse))
    (identity : String) : Outcome :=
  match client (relationRequest identity) with
  | .error .notFound => .ret none (some (.ErrDirectoryObjectNotFound ""))
  | .error err => .ret none (some (.client err))
  | .ok none => .panic
  | .ok (some relResp) =>
    match relResp.Results with
    | none => .ret none (some (.ErrDirectoryObjectNotFound ""))
    | some results =>
      if relResp.Objects.length = 0 then
        .ret none (some (.ErrDirectoryObjectNotFound "no objects found in relation"))
      else
        match subjectObject results relResp.Objects with
        | none => .panic
        | some obj => .ret obj none

/-- The identity object of `alice@example.com`. -/
def aliceIdentity : Object := { Id := "i1", Typ := "identity", Key := "alice@example.com" }

/-- A directory in which the identity `alice@example.com` has an `identifier`
relation to the subject `u1`, and whose hydrated objects hold the identity object
but no object of id `u1`. -/
def danglingDirectory : GetRelationRequest → Except ClientError (Option GetRelationResponse) :=
  fun _ => .ok (some { Results := some [some { Subject := some { Id := some "u1" } }],
                       Objects := [("i1", some aliceIdentity)] })

/-- A directory whose relation lookup succeeds with an empty result slice that is
not `nil`, together with a hydrated object. -/
def emptyResultsDirectory :
    GetRelationRequest → Except ClientError (Option GetRelationResponse) :=
  fun _ => .ok (some { Results := some [], Objects := [("i1", some aliceIdentity)] })

end directory

namespace impl

/-! ## Theorems -/

/-! ### Maps -/

theorem Map.get_set_same {β : Type} (m : List (String × β)) (k : String) (b : β) :
    Map.get (Map.set m k b) k = some b := by
  induction m with
  | nil => simp [Map.set, Map.get]
  | cons hd tl ih =>
    obtain ⟨k', v'⟩ := hd
    by_cases h : k' = k
    · simp [Map.set, Map.get, h]
    · simp [Map.set, Map.get, h, ih]

theorem Map.get_set_other {β : Type} (m : List (String × β)) (k d : String) (b : β)
    (h : k ≠ d) : Map.get (Map.set m k b) d = Map.get m d := by
  induction m with
  | nil => simp [Map.set, Map.get, h]
  | cons hd tl ih =>
    obtain ⟨k', v'⟩ := hd
    by_cases h' : k' = k
    · subst h'
      simp [Map.set, Map.get, h]
    · simp [Map.set, Map.get, h', ih]

theorem Map.set_set {β : Type} (m : List (String × β)) (k : String) (a b : β) :
    Map.set (Map.set m k a) k b = Map.set m k b := by
  induction m with
  | nil => simp [Map.set]
  | cons hd tl ih =>
    obtain ⟨k', v'⟩ := hd
    by_cases h : k' = k
    · simp [Map.set, h]
    · simp [Map.set, h, ih]

theorem Map.get_isSome_iff_mem_keys {β : Type} (m : List (String × β)) (k : String) :
    (Map.get m k).isSome = true ↔ k ∈ Map.keys m := by
  induction m with
  | nil => simp [Map.get, Map.keys]
  | cons hd tl ih =>
    obtain ⟨k', v'⟩ := hd
    by_cases h : k' = k
    · simp [Map.get, Map.keys, h]
    · have h2 : ¬ k = k' := fun e => h e.symm
      simp only [Map.keys] at ih
      simp [Map.get, Map.keys, h, h2, ih]

theorem Map.mem_keys_set {β : Type} (m : List (String × β)) (k d : String) (b : β) :
    d ∈ Map.keys (Map.set m k b) ↔ d = k ∨ d ∈ Map.keys m := by
  rw [← Map.get_isSome_iff_mem_keys, ← Map.get_isSome_iff_mem_keys]
  by_cases h : k = d
  · subst h
    simp [Map.get_set_same]
  · have h2 : ¬ d = k := fun e => h e.symm
    simp [Map.get_set_other _ _ _ _ h, h2]

/-! ### Outcome extraction -/

theorem isIn_eq (m : List (String × Value)) (d : String) :
    isIn m d =
      match Map.get m d with
      | none =>
        .error ((cerr .InvalidDecision).Msg ("decision element [" ++ d ++ "] not found"))
      | some w =>
        match is w d with
        | .ok outcome => .ok outcome
        | .error err => .error ((cerr .InvalidDecision).Err err) := by
  induction m with
  | nil => simp [isIn, Map.get]
  | cons hd tl ih =>
    obtain ⟨k, v⟩ := hd
    by_cases h : k = d
    · simp [isIn, Map.get, h]
    · simp [isIn, Map.get, h, ih]

theorem is_error_kind (v : Value) (d : String) (e : CErr) (h : is v d = .error e) :
    e.kind = some .InvalidDecision := by
  cases v with
  | bool b => simp [is] at h
  | map m =>
    rw [is, isIn_eq] at h
    split at h
    · injection h with h
      subst h
      rfl
    · split at h
      · simp at h
      · injection h with h
        subst h
        rfl
  | null => simp [is] at h; subst h; rfl
  | num n => simp [is] at h; subst h; rfl
  | str s => simp [is] at h; subst h; rfl
  | list xs => simp [is] at h; subst h; rfl

/-- C1: `is(v, d)` returns `b` with no error when `v` is the boolean `b`; when `v`
is a mapping with key `d` its result is that of `is(v[d], d)` (the same boolean, or
a failure of the same kind); and it fails with InvalidDecision when `v` is a
mapping without key `d` or has any other shape. Errors are compared by kind. -/
theorem is_contract (v : Value) (d : String) :
    (is v d).mapError CErr.kind =
      match v with
      | .bool b => .ok b
      | .map m =>
        match Map.get m d with
        | some w => (is w d).mapError CErr.kind
        | none => .error (some .InvalidDecision)
      | _ => .error (some .InvalidDecision) := by
  cases v with
  | bool b => simp [is, Except.mapError]
  | map m =>
    simp only [is]
    rw [isIn_eq]
    cases hg : Map.get m d with
    | none => simp [Except.mapError, cerr, CErr.Msg, CErr.kind]
    | some w =>
      simp only
      cases hw : is w d with
      | ok b => simp [Except.mapError]
      | error e =>
        have hk := is_error_kind w d e hw
        simp [Except.mapError, cerr, CErr.Err, CErr.kind, hk]
  | null => simp [is, Except.mapError, cerr, CErr.Msg, CErr.kind]
  | num n => simp [is, Except.mapError, cerr, CErr.Msg, CErr.kind]
  | str s => simp [is, Except.mapError, cerr, CErr.Msg, CErr.kind]
  | list xs => simp [is, Except.mapError, cerr, CErr.Msg, CErr.kind]

/-! ### The decision loop of `Is` -/

theorem isLoop_ok (v : Value) :
    ∀ (ds : List String) (acc : List Decision) (out : List (String × Bool))
      (decs : List Decision) (outs : List (String × Bool)),
      isLoop v ds acc out = .ok (decs, outs) →
      ∃ fresh : List Decision,
        decs = acc ++ fresh ∧
        List.Forall₂ (fun d e => e.Decision = d ∧ is v d = .ok e.Is) ds fresh ∧
        (∀ k, k ∈ Map.keys outs ↔ k ∈ ds ∨ k ∈ Map.keys out) ∧
        (∀ k, k ∈ ds → ∃ b, is v k = .ok b ∧ Map.get outs k = some b) ∧
        (∀ k, k ∉ ds → Map.get outs k = Map.get out k) := by
  intro ds
  induction ds with
  | nil =>
    intro acc out decs outs h
    simp only [isLoop, Except.ok.injEq, Prod.mk.injEq] at h
    obtain ⟨h1, h2⟩ := h
    subst h1 h2
    exact ⟨[], by simp, List.Forall₂.nil, by simp, by simp, by simp⟩
  | cons d rest ih =>
    intro acc out decs outs h
    simp only [isLoop] at h
    cases hv : is v d with
    | error e => simp [hv] at h
    | ok b =>
      simp only [hv] at h
      obtain ⟨fresh, h1, h2, h3, h4, h5⟩ := ih _ _ _ _ h
      refine ⟨{ Decision := d, Is := b } :: fresh, ?_, ?_, ?_, ?_, ?_⟩
      · simp [h1]
      · exact List.Forall₂.cons ⟨rfl, hv⟩ h2
      · intro k
        rw [h3, Map.mem_keys_set]
        simp only [List.mem_cons]
        tauto
      · intro k hk
        by_cases hkr : k ∈ rest
        · exact h4 k hkr
        · have hkd : k = d := by
            rcases List.mem_cons.mp hk with h' | h'
            · exact h'
            · exact absurd h' hkr
          subst hkd
          exact ⟨b, hv, by rw [h5 k hkr, Map.get_set_same]⟩
      · intro k hk
        have hkd : d ≠ k := fun e => hk (by simp [e])
        have hkr : k ∉ rest := fun e => hk (by simp [e])
        rw [h5 k hkr, Map.get_set_other _ _ _ _ hkd]

theorem isLoop_error (v : Value) :
    ∀ (ds : List String) (acc : List Decision) (out : List (String × Bool)),
      (∃ d ∈ ds, ∃ e, is v d = .error e) →
      ∃ e, isLoop v ds acc out = .error e ∧ e.kind = some .InvalidDecision := by
  intro ds
  induction ds with
  | nil => intro acc out h; simp at h
  | cons d rest ih =>
    intro acc out h
    simp only [isLoop]
    cases hv : is v d with
    | error e =>
      exact ⟨_, rfl, by simpa [CErr.kind] using is_error_kind v d e hv⟩
    | ok b =>
      obtain ⟨d', hd', e, he⟩ := h
      have : d' ∈ rest := by
        rcases List.mem_cons.mp hd' with h' | h'
        · subst h'; rw [hv] at he; cases he
        · exact h'
      exact ih _ _ ⟨d', this, e, he⟩

/-! ### The shape of an `Is` run -/

theorem Is_of_reaches (s : AuthorizerServer) (ctx : Ctx) (req : IsRequest)
    (pc : PolicyContext) (ic : IdentityContext) (user : Option Value) (rt : Runtime)
    (r : Result) (rs : List Result) (h : IsReachesBinding s ctx req pc ic user rt r rs) :
    Is s ctx req =
      let input := evaluationInput s user ic (some pc) (req.ResourceContext.getD [])
      match isLoop (r.binding "x") pc.Decisions [] [] with
      | .error err => { ret := .ret none (some err), trace := isTrace pc ic input, record := none }
      | .ok (decisions, outcomes) =>
        let d : DecisionRecord :=
          { Id := s.newUUID, Timestamp := s.now, Path := pc.Path, Policy := pc,
            UserContext := ic, UserId := getID input, UserEmail := getEmail input,
            Resource := req.ResourceContext.getD [], Outcomes := outcomes }
        match rt.decisionLog with
        | none =>
          { ret := .ret (some { Decisions := decisions }) none, trace := isTrace pc ic input,
            record := some d }
        | some dplugin =>
          { ret := .ret (some { Decisions := decisions }) (dplugin d),
            trace := isTrace pc ic input ++ [.log d], record := some d } := by
  obtain ⟨h1, h2, h3, h4, h5, h6, h7, h8, h9⟩ := h
  have h3' : ¬ pc.Decisions.length = 0 := by
    intro hl
    exact h3 (List.length_eq_zero.mp hl)
  simp only [Is, h1, h2, h3', h4, h5, h6, h7, h8, h9, if_false, isTrace, List.nil_append,
    List.cons_append, List.singleton_append]
  cases hloop : isLoop (r.binding "x") pc.Decisions [] [] with
  | error e => rfl
  | ok p =>
    obtain ⟨decisions, outcomes⟩ := p
    simp only
    cases hlog : rt.decisionLog with
    | none => rfl
    | some dplugin =>
      simp only
      cases hd : dplugin _ <;> rfl

theorem Is_cases (s : AuthorizerServer) (ctx : Ctx) (req : IsRequest) :
    ((Is s ctx req).record = none ∧ (∀ e ∈ (Is s ctx req).trace, e.isLog = false) ∧
      ((Is s ctx req).ret = .fault ∨
        ∃ err, (Is s ctx req).ret = .ret (some { Decisions := [] }) (some err))) ∨
    ∃ pc ic user rt r rs, IsReachesBinding s ctx req pc ic user rt r rs := by
  cases h1 : getPolicyInfoFromContext ctx with
  | none => left; simp [Is, h1]
  | some pc =>
    by_cases h2 : pc.Path = ""
    · left; simp [Is, h1, h2]
    by_cases h3 : pc.Decisions.length = 0
    · left; simp [Is, h1, h2, h3]
    cases h4 : req.IdentityContext with
    | none => left; simp [Is, h1, h2, h3, h4]
    | some ic =>
      by_cases h5 : ic.Typ = .UNKNOWN
      · left; simp [Is, h1, h2, h3, h4, h5]
      cases h6 : s.getUserFromIdentityContext ic with
      | error e => left; simp [Is, h1, h2, h3, h4, h5, h6, Event.isLog]
      | ok user =>
        cases h7 : s.RuntimeFromContext pc.Id pc.Name pc.InstanceLabel with
        | error e => left; simp [Is, h1, h2, h3, h4, h5, h6, h7, Event.isLog]
        | ok rt =>
          cases h8 : rt.PrepareForEval ("x = data." ++ pc.Path) none with
          | some e => left; simp [Is, h1, h2, h3, h4, h5, h6, h7, h8, Event.isLog]
          | none =>
            cases h9 : rt.Eval ("x = data." ++ pc.Path)
                (evaluationInput s user ic (some pc) (req.ResourceContext.getD [])) with
            | error e => left; simp [Is, h1, h2, h3, h4, h5, h6, h7, h8, h9, Event.isLog]
            | ok results =>
              cases results with
              | nil => left; simp [Is, h1, h2, h3, h4, h5, h6, h7, h8, h9, Event.isLog]
              | cons r rs =>
                right
                refine ⟨pc, ic, user, rt, r, rs, h1, h2, ?_, h4, h5, h6, h7, h8, h9⟩
                intro hn
                exact h3 (by simp [hn])

/-! ### Facts about the concrete deployment -/

theorem demo_reaches (x : Value) (sink : Option (DecisionRecord → Option CErr)) :
    IsReachesBinding (demoServer x sink) demoCtx
      { IdentityContext := some alice, ResourceContext := none } demoPolicyContext alice
      (some (.map [("id", .str "u1"), ("email", .str "alice@example.com")]))
      (demoRuntime x sink) { Bindings := [("x", x)] } [] where
  policy := by decide
  path := by decide
  decisions := by decide
  identity := rfl
  identityType := by decide
  resolved := by rfl
  selected := rfl
  prepared := rfl
  evaluated := rfl

/-! ### Theorems about `Is` -/

/-- C2: when `Is` returns without error, the response's `Decisions` list has
exactly one entry per requested decision name, in request order (entry `i` carries
the `i`-th requested name, duplicates included), and the boolean of each entry is
the outcome that `is` resolves for that name from the binding `x` of the first
result. -/
theorem Is_decisions_in_request_order (s : AuthorizerServer) (ctx : Ctx) (req : IsRequest)
    (resp : IsResponse) (h : (Is s ctx req).ret = .ret (some resp) none) :
    ∃ pc ic user rt r rs, IsReachesBinding s ctx req pc ic user rt r rs ∧
      List.Forall₂ (fun d e => e.Decision = d ∧ is (r.binding "x") d = .ok e.Is)
        pc.Decisions resp.Decisions := by
  rcases Is_cases s ctx req with ⟨_, _, hf | ⟨err, he⟩⟩ | ⟨pc, ic, user, rt, r, rs, hr⟩
  · rw [hf] at h; cases h
  · rw [he] at h; cases h
  · refine ⟨pc, ic, user, rt, r, rs, hr, ?_⟩
    rw [Is_of_reaches s ctx req pc ic user rt r rs hr] at h
    simp only at h
    cases hloop : isLoop (r.binding "x") pc.Decisions [] [] with
    | error e => rw [hloop] at h; cases h
    | ok p =>
      obtain ⟨decisions, outcomes⟩ := p
      obtain ⟨fresh, h1, h2, -⟩ := isLoop_ok _ _ _ _ _ _ hloop
      rw [hloop] at h
      simp only [List.nil_append] at h1
      subst h1
      cases hlog : rt.decisionLog with
      | none =>
        rw [hlog] at h
        simp only [Ret.ret.injEq, Option.some.injEq] at h
        rw [← h.1]
        exact h2
      | some dplugin =>
        rw [hlog] at h
        simp only [Ret.ret.injEq, Option.some.injEq] at h
        rw [← h.1]
        exact h2

/-- Witness of C2: with decisions `allowed` and the binding that maps `allowed` to
`true` the response is the single entry (`allowed`, `true`); with the binding that
maps it to `false` it is (`allowed`, `false`). -/
theorem Is_decisions_in_request_order_witness :
    (Is (demoServer (.map [("allowed", .bool false)]) none) demoCtx
        { IdentityContext := some alice, ResourceContext := none }).ret
      = .ret (some { Decisions := [{ Decision := "allowed", Is := false }] }) none ∧
    (Is (demoServer (.map [("allowed", .bool true)]) none) demoCtx
        { IdentityContext := some alice, ResourceContext := none }).ret
      = .ret (some { Decisions := [{ Decision := "allowed", Is := true }] }) none ∧
    ∃ pc ic user rt r rs,
      IsReachesBinding (demoServer (.map [("allowed", .bool true)]) none) demoCtx
        { IdentityContext := some alice, ResourceContext := none } pc ic user rt r rs ∧
      List.Forall₂ (fun (d : String) (e : Decision) =>
          e.Decision = d ∧ is (r.binding "x") d = .ok e.Is)
        pc.Decisions [{ Decision := "allowed", Is := true }] :=
  ⟨rfl, rfl,
    Is_decisions_in_request_order (demoServer (.map [("allowed", .bool true)]) none) demoCtx
      { IdentityContext := some alice, ResourceContext := none }
      { Decisions := [{ Decision := "allowed", Is := true }] } rfl⟩

/-- C3: when the call reaches the binding and at least one requested decision name
fails to resolve against it, `Is` fails with an InvalidDecision error, returns a
`nil` response (none of the decisions), makes no call of the decision log sink and
constructs no record. -/
theorem Is_unresolved_decision_aborts (s : AuthorizerServer) (ctx : Ctx) (req : IsRequest)
    (pc : PolicyContext) (ic : IdentityContext) (user : Option Value) (rt : Runtime)
    (r : Result) (rs : List Result) (h : IsReachesBinding s ctx req pc ic user rt r rs)
    (hbad : ∃ d ∈ pc.Decisions, ∃ e, is (r.binding "x") d = .error e) :
    ∃ err, (Is s ctx req).ret = .ret none (some err) ∧ err.kind = some .InvalidDecision ∧
      (∀ e ∈ (Is s ctx req).trace, e.isLog = false) ∧ (Is s ctx req).record = none := by
  obtain ⟨err, hloop, hkind⟩ := isLoop_error (r.binding "x") pc.Decisions [] [] hbad
  have hI := Is_of_reaches s ctx req pc ic user rt r rs h
  simp only [hloop] at hI
  rw [hI]
  refine ⟨err, rfl, hkind, ?_, rfl⟩
  intro e he
  simp only [isTrace, List.mem_cons, List.mem_singleton, List.not_mem_nil, or_false] at he
  rcases he with he | he | he | he <;> subst he <;> rfl

/-- Witness of C3: the rule result is the empty object, so the requested key
`allowed` is missing. -/
theorem Is_unresolved_decision_aborts_witness :
    ∃ err, (Is (demoServer (.map []) (some acceptingSink)) demoCtx
        { IdentityContext := some alice, ResourceContext := none }).ret = .ret none (some err) ∧
      err.kind = some .InvalidDecision ∧
      (∀ e ∈ (Is (demoServer (.map []) (some acceptingSink)) demoCtx
        { IdentityContext := some alice, ResourceContext := none }).trace, e.isLog = false) ∧
      (Is (demoServer (.map []) (some acceptingSink)) demoCtx
        { IdentityContext := some alice, ResourceContext := none }).record = none :=
  Is_unresolved_decision_aborts (demoServer (.map []) (some acceptingSink)) demoCtx
    { IdentityContext := some alice, ResourceContext := none } demoPolicyContext alice
    (some (.map [("id", .str "u1"), ("email", .str "alice@example.com")]))
    (demoRuntime (.map []) (some acceptingSink)) { Bindings := [("x", .map [])] } []
    (demo_reaches (.map []) (some acceptingSink))
    ⟨"allowed", by decide,
      (cerr .InvalidDecision).Msg "decision element [allowed] not found", rfl⟩

/-- C4: when the call context yields an addressable policy context and the policy
path is empty, or the decision list is empty, or the identity context is missing,
or its type is UNKNOWN, `Is` fails with InvalidArgument, returns the empty decision
list, and has called no collaborator (identity resolver, instance selector,
evaluator, log sink). -/
theorem Is_validation (s : AuthorizerServer) (ctx : Ctx) (req : IsRequest)
    (pc : PolicyContext) (hpc : getPolicyInfoFromContext ctx = some pc)
    (hbad : pc.Path = "" ∨ pc.Decisions = [] ∨ req.IdentityContext = none ∨
      ∃ ic, req.IdentityContext = some ic ∧ ic.Typ = .UNKNOWN) :
    ∃ err, (Is s ctx req).ret = .ret (some { Decisions := [] }) (some err) ∧
      err.kind = some .InvalidArgument ∧ (Is s ctx req).trace = [] := by
  by_cases h2 : pc.Path = ""
  · refine ⟨(cerr .InvalidArgument).Msg
      "policy context path not set in header aserto-policy-path", ?_, rfl, ?_⟩ <;>
    simp only [Is, hpc, h2, if_true]
  by_cases h3 : pc.Decisions.length = 0
  · refine ⟨(cerr .InvalidArgument).Msg "policy context decisions not set", ?_, rfl, ?_⟩ <;>
    simp only [Is, hpc, h2, h3, if_true, if_false]
  cases h4 : req.IdentityContext with
  | none =>
    refine ⟨(cerr .InvalidArgument).Msg "identity context not set", ?_, rfl, ?_⟩ <;>
    simp only [Is, hpc, h2, h3, h4, if_false]
  | some ic =>
    by_cases h5 : ic.Typ = .UNKNOWN
    · refine ⟨(cerr .InvalidArgument).Msg "identity type UNKNOWN", ?_, rfl, ?_⟩ <;>
      simp only [Is, hpc, h2, h3, h4, h5, if_true, if_false]
    · exfalso
      rcases hbad with hb | hb | hb | ⟨ic', hb, hb'⟩
      · exact h2 hb
      · exact h3 (by simp [hb])
      · rw [h4] at hb; cases hb
      · rw [h4] at hb
        cases hb
        exact h5 hb'

/-- Witness of C4: a request without identity context. -/
theorem Is_validation_witness :
    ∃ err, (Is (demoServer .null none) demoCtx
        { IdentityContext := none, ResourceContext := none }).ret
        = .ret (some { Decisions := [] }) (some err) ∧
      err.kind = some .InvalidArgument ∧
      (Is (demoServer .null none) demoCtx
        { IdentityContext := none, ResourceContext := none }).trace = [] :=
  Is_validation _ _ _ demoPolicyContext (by decide) (Or.inr (Or.inr (Or.inl rfl)))

/-- C5, the code at a failing input: for a request that passes validation and
whose identity does not resolve, `Is` fails with the error kind UserNotFound, which
is not AuthenticationFailed, while `DecisionTree` fails with AuthenticationFailed
for the same identity. -/
theorem Is_identity_failure_kind :
    (∃ err, (Is (demoServer .null none) demoCtx
        { IdentityContext := some nobody, ResourceContext := none }).ret
        = .ret (some { Decisions := [] }) (some err) ∧
      err.kind = some .UserNotFound ∧ err.kind ≠ some .AuthenticationFailed) ∧
    (∃ resp err, (DecisionTree (demoServer .null none) demoCtx
        { IdentityContext := some nobody, ResourceContext := none, Options := none }).ret
        = .ret resp (some err) ∧ err.kind = some .AuthenticationFailed) :=
  ⟨⟨_, rfl, rfl, by decide⟩, ⟨_, _, rfl, rfl⟩⟩

/-! ### Helper facts on traces and on pointwise-related lists -/

theorem isTrace_no_log (pc : PolicyContext) (ic : IdentityContext) (input : Input) :
    ∀ e ∈ isTrace pc ic input, e.isLog = false := by
  intro e he
  simp only [isTrace, List.mem_cons, List.mem_singleton, List.not_mem_nil, or_false] at he
  rcases he with he | he | he | he <;> subst he <;> rfl

theorem forall₂_exists_left {α β : Type} {R : α → β → Prop} :
    ∀ {l₁ : List α} {l₂ : List β}, List.Forall₂ R l₁ l₂ → ∀ b ∈ l₂, ∃ a ∈ l₁, R a b := by
  intro l₁ l₂ h
  induction h with
  | nil => intro b hb; simp at hb
  | cons hab _ ih =>
    intro b hb
    rcases List.mem_cons.mp hb with hb | hb
    · subst hb
      exact ⟨_, List.mem_cons_self _ _, hab⟩
    · obtain ⟨a, ha, hR⟩ := ih b hb
      exact ⟨a, List.mem_cons_of_mem _ ha, hR⟩

theorem forall₂_exists_right {α β : Type} {R : α → β → Prop} :
    ∀ {l₁ : List α} {l₂ : List β}, List.Forall₂ R l₁ l₂ → ∀ a ∈ l₁, ∃ b ∈ l₂, R a b := by
  intro l₁ l₂ h
  induction h with
  | nil => intro a ha; simp at ha
  | cons hab _ ih =>
    intro a ha
    rcases List.mem_cons.mp ha with ha | ha
    · subst ha
      exact ⟨_, List.mem_cons_self _ _, hab⟩
    · obtain ⟨b, hb, hR⟩ := ih a ha
      exact ⟨b, List.mem_cons_of_mem _ hb, hR⟩

theorem forall₂_names {v : Value} :
    ∀ {ds : List String} {fresh : List Decision},
      List.Forall₂ (fun d e => e.Decision = d ∧ is v d = .ok e.Is) ds fresh →
      fresh.map (fun e => e.Decision) = ds := by
  intro ds fresh h
  induction h with
  | nil => rfl
  | cons hab _ ih => simp [hab.1, ih]

/-! ### Identity that does not resolve -/

/-- C6, counterexample: a `Query` request with a non-empty query, identity-context
merging enabled, an identity of type SUB that does not resolve, and a raw input
that is not valid JSON. `Query` returns the decoding error, whose gRPC status is
not NotFound. -/
theorem Query_missing_identity_malformed_input :
    (demoServer .null none).cfg.EnableIdentityContext = true ∧
    nobody.Typ ≠ .NONE ∧ nobody.Typ ≠ .UNKNOWN ∧
    (demoServer .null none).getUserFromIdentityContext nobody
      = .error (.external "identity not found") ∧
    (Query (demoServer .null none) demoCtx
        { Query := "x = true", Input := "\x7b", Options := none,
          IdentityContext := some nobody, ResourceContext := none }).ret
      = .ret (some { Response := none, Metrics := none, Trace := [], TraceSummary := [] })
          (some (.wrap "failed to unmarshal input - make sure it's a valid JSON object"
            (.external "invalid character"))) ∧
    (CErr.wrap "failed to unmarshal input - make sure it's a valid JSON object"
        (.external "invalid character")).grpcCode (fun _ => .NotFound) ≠ .NotFound :=
  ⟨rfl, by decide, by decide, rfl, rfl, by decide⟩

/-- C6, amended: for an identity context of a type other than NONE/UNKNOWN whose
resolution fails, `DecisionTree`, `Is` (with an addressable policy context,
non-empty path and decisions) and `Query` (with a non-empty query, identity-context
merging enabled, and a raw input that is empty or decodes as JSON) each return an
error whose gRPC status code is NotFound. -/
theorem missing_identity_NotFound (s : AuthorizerServer) (ctx : Ctx) (ic : IdentityContext)
    (e₀ : CErr) (lib : ErrKind → Code) (hnone : ic.Typ ≠ .NONE) (hunknown : ic.Typ ≠ .UNKNOWN)
    (hres : s.getUserFromIdentityContext ic = .error e₀) :
    (∀ req : DecisionTreeRequest, req.IdentityContext = some ic →
      ∃ resp err, (DecisionTree s ctx req).ret = .ret resp (some err) ∧
        err.grpcCode lib = .NotFound) ∧
    (∀ (req : IsRequest) (pc : PolicyContext), req.IdentityContext = some ic →
      getPolicyInfoFromContext ctx = some pc → pc.Path ≠ "" → pc.Decisions ≠ [] →
      ∃ resp err, (Is s ctx req).ret = .ret resp (some err) ∧ err.grpcCode lib = .NotFound) ∧
    (∀ req : QueryRequest, req.IdentityContext = some ic → req.Query ≠ "" →
      s.cfg.EnableIdentityContext = true →
      (req.Input = "" ∨ ∃ raw, s.jsonUnmarshal req.Input = .ok raw) →
      ∃ resp err, (Query s ctx req).ret = .ret resp (some err) ∧
        err.grpcCode lib = .NotFound) := by
  refine ⟨?_, ?_, ?_⟩
  · intro req hic
    refine ⟨some { PathRoot := "", Path := none },
      ((cerr .AuthenticationFailed).WithGRPCStatus .NotFound).Msg
      "failed to resolve identity context", ?_, rfl⟩
    simp only [DecisionTree, hic, hunknown, hres, if_false]
  · intro req pc hic hpc hpath hdec
    have hdec' : ¬ pc.Decisions.length = 0 := fun hl => hdec (List.length_eq_zero.mp hl)
    refine ⟨some { Decisions := [] }, ((cerr .UserNotFound).WithGRPCStatus .NotFound).Msg
      "failed to resolve identity context", ?_, rfl⟩
    simp only [Is, hpc, hpath, hdec', hic, hunknown, hres, if_false]
  · intro req hic hq hflag hinput
    refine ⟨some { Response := none, Metrics := none, Trace := [], TraceSummary := [] },
      ((cerr .AuthenticationFailed).WithGRPCStatus .NotFound).Msg
      "failed to resolve identity context", ?_, rfl⟩
    rcases hinput with hempty | ⟨raw, hraw⟩
    · simp [Query, hq, hempty, hflag, hic, hnone, hunknown, hres]
    · by_cases hempty : req.Input = ""
      · simp [Query, hq, hempty, hflag, hic, hnone, hunknown, hres]
      · simp [Query, hq, hempty, hraw, hflag, hic, hnone, hunknown, hres]

/-- Witness of C6 (amended): the identity `nobody` in the concrete deployment, with
the empty raw input of the repository's test. -/
theorem missing_identity_NotFound_witness :
    ∃ resp err, (Query (demoServer .null none) demoCtx
        { Query := "x = true", Input := "", Options := none,
          IdentityContext := some nobody, ResourceContext := none }).ret
        = .ret resp (some err) ∧ err.grpcCode (fun _ => .Unknown) = .NotFound :=
  (missing_identity_NotFound (demoServer .null none) demoCtx nobody
    (.external "identity not found") (fun _ => .Unknown) (by decide) (by decide) rfl).2.2
    { Query := "x = true", Input := "", Options := none,
      IdentityContext := some nobody, ResourceContext := none }
    rfl (by decide) rfl (Or.inl rfl)

/-! ### Decision logging -/

/-- C7: for an `Is` call whose selected runtime has a decision log sink: if `Is`
returns without error, the sink's `Log` was called exactly once (the last call of
the run, after the evaluation), it returned no error, and the record it received
holds the resolved outcome of every requested decision; and if a `Log` call
returns an error, `Is` returns that error. -/
theorem Is_logged_or_failed (s : AuthorizerServer) (ctx : Ctx) (req : IsRequest)
    (pc : PolicyContext) (rt : Runtime) (sink : DecisionRecord → Option CErr)
    (hpc : getPolicyInfoFromContext ctx = some pc)
    (hrt : s.RuntimeFromContext pc.Id pc.Name pc.InstanceLabel = .ok rt)
    (hsink : rt.decisionLog = some sink) :
    (∀ resp, (Is s ctx req).ret = .ret resp none →
      ∃ ic user r rs d, IsReachesBinding s ctx req pc ic user rt r rs ∧
        (Is s ctx req).trace =
          isTrace pc ic (evaluationInput s user ic (some pc) (req.ResourceContext.getD []))
            ++ [.log d] ∧
        (∀ e ∈ isTrace pc ic (evaluationInput s user ic (some pc) (req.ResourceContext.getD [])),
          e.isLog = false) ∧
        sink d = none ∧ (Is s ctx req).record = some d ∧
        ∀ k ∈ pc.Decisions, ∃ b, is (r.binding "x") k = .ok b ∧
          Map.get d.Outcomes k = some b) ∧
    (∀ d e, Event.log d ∈ (Is s ctx req).trace → sink d = some e →
      ∃ resp, (Is s ctx req).ret = .ret resp (some e)) := by
  rcases Is_cases s ctx req with ⟨_, hnolog, hf | ⟨err, he⟩⟩ | ⟨pc', ic, user, rt', r, rs, hr⟩
  · refine ⟨fun resp h => ?_, fun d e hmem _ => ?_⟩
    · rw [hf] at h; cases h
    · have := hnolog _ hmem
      simp [Event.isLog] at this
  · refine ⟨fun resp h => ?_, fun d e hmem _ => ?_⟩
    · rw [he] at h; cases h
    · have := hnolog _ hmem
      simp [Event.isLog] at this
  · have hpc' : pc' = pc := by
      have := hr.policy
      rw [hpc] at this
      exact (Option.some.inj this).symm
    subst hpc'
    have hrt' : rt' = rt := by
      have := hr.selected
      rw [hrt] at this
      exact (Except.ok.inj this).symm
    subst hrt'
    have hI := Is_of_reaches s ctx req pc' ic user rt' r rs hr
    cases hloop : isLoop (r.binding "x") pc'.Decisions [] [] with
    | error err =>
      simp only [hloop] at hI
      refine ⟨fun resp h => ?_, fun d e hmem _ => ?_⟩
      · rw [hI] at h; cases h
      · rw [hI] at hmem
        have := isTrace_no_log _ _ _ _ hmem
        simp [Event.isLog] at this
    | ok p =>
      obtain ⟨decisions, outcomes⟩ := p
      obtain ⟨fresh, -, -, -, h4, -⟩ := isLoop_ok _ _ _ _ _ _ hloop
      simp only [hloop, hsink] at hI
      refine ⟨fun resp h => ?_, fun d e hmem hd => ?_⟩
      · rw [hI] at h
        simp only [Ret.ret.injEq] at h
        refine ⟨ic, user, r, rs, _, hr, by rw [hI], isTrace_no_log _ _ _, h.2, by rw [hI], ?_⟩
        intro k hk
        exact h4 k hk
      · rw [hI] at hmem
        simp only [List.mem_append, List.mem_singleton] at hmem
        rcases hmem with hmem | hmem
        · have := isTrace_no_log _ _ _ _ hmem
          simp [Event.isLog] at this
        · injection hmem with hmem
          subst hmem
          rw [hI]
          exact ⟨_, by rw [hd]⟩

/-- Witness of C7: the concrete deployment with an accepting sink. -/
theorem Is_logged_or_failed_witness :
    (∀ resp, (Is (demoServer (.map [("allowed", .bool true)]) (some acceptingSink)) demoCtx
        { IdentityContext := some alice, ResourceContext := none }).ret = .ret resp none →
      ∃ ic user r rs d,
        IsReachesBinding (demoServer (.map [("allowed", .bool true)]) (some acceptingSink))
          demoCtx { IdentityContext := some alice, ResourceContext := none }
          demoPolicyContext ic user
          (demoRuntime (.map [("allowed", .bool true)]) (some acceptingSink)) r rs ∧
        (Is (demoServer (.map [("allowed", .bool true)]) (some acceptingSink)) demoCtx
          { IdentityContext := some alice, ResourceContext := none }).trace =
          isTrace demoPolicyContext ic
              (evaluationInput
                (demoServer (.map [("allowed", .bool true)]) (some acceptingSink)) user ic
                (some demoPolicyContext) [])
            ++ [.log d] ∧
        (∀ e ∈ isTrace demoPolicyContext ic
            (evaluationInput
              (demoServer (.map [("allowed", .bool true)]) (some acceptingSink)) user ic
              (some demoPolicyContext) []), e.isLog = false) ∧
        acceptingSink d = none ∧
        (Is (demoServer (.map [("allowed", .bool true)]) (some acceptingSink)) demoCtx
          { IdentityContext := some alice, ResourceContext := none }).record = some d ∧
        ∀ k ∈ demoPolicyContext.Decisions,
          ∃ b, is (Result.binding r "x") k = .ok b ∧ Map.get d.Outcomes k = some b) ∧
    (Is (demoServer (.map [("allowed", .bool true)]) (some acceptingSink)) demoCtx
        { IdentityContext := some alice, ResourceContext := none }).ret
      = .ret (some { Decisions := [{ Decision := "allowed", Is := true }] }) none :=
  ⟨(Is_logged_or_failed (demoServer (.map [("allowed", .bool true)]) (some acceptingSink))
      demoCtx { IdentityContext := some alice, ResourceContext := none } demoPolicyContext
      (demoRuntime (.map [("allowed", .bool true)]) (some acceptingSink)) acceptingSink
      (by decide) rfl rfl).1, rfl⟩

/-- C8: when `Is` constructs a decision log record, the key set of the record's
`Outcomes` map is exactly the set of requested decision names, every entry of the
response's `Decisions` list is found in `Outcomes` with the same boolean, and every
entry of `Outcomes` is an entry of the response's `Decisions` list. -/
theorem Is_record_outcomes (s : AuthorizerServer) (ctx : Ctx) (req : IsRequest)
    (d : DecisionRecord) (h : (Is s ctx req).record = some d) :
    ∃ pc resp err, getPolicyInfoFromContext ctx = some pc ∧
      (Is s ctx req).ret = .ret (some resp) err ∧
      resp.Decisions.map (fun e => e.Decision) = pc.Decisions ∧
      (∀ k, k ∈ Map.keys d.Outcomes ↔ k ∈ pc.Decisions) ∧
      (∀ e ∈ resp.Decisions, Map.get d.Outcomes e.Decision = some e.Is) ∧
      (∀ k b, Map.get d.Outcomes k = some b →
        ({ Decision := k, Is := b } : Decision) ∈ resp.Decisions) := by
  rcases Is_cases s ctx req with ⟨hnone, -⟩ | ⟨pc, ic, user, rt, r, rs, hr⟩
  · rw [hnone] at h; cases h
  · have hI := Is_of_reaches s ctx req pc ic user rt r rs hr
    cases hloop : isLoop (r.binding "x") pc.Decisions [] [] with
    | error err =>
      simp only [hloop] at hI
      rw [hI] at h; cases h
    | ok p =>
      obtain ⟨decisions, outcomes⟩ := p
      obtain ⟨fresh, h1, h2, h3, h4, h5⟩ := isLoop_ok _ _ _ _ _ _ hloop
      simp only [List.nil_append] at h1
      subst h1
      simp only [hloop] at hI
      have hrec : d.Outcomes = outcomes := by
        cases hlog : rt.decisionLog with
        | none =>
          simp only [hlog] at hI
          rw [hI] at h
          simp only [Option.some.injEq] at h
          rw [← h]
        | some dplugin =>
          simp only [hlog] at hI
          rw [hI] at h
          simp only [Option.some.injEq] at h
          rw [← h]
      have hret : ∃ err, (Is s ctx req).ret = .ret (some { Decisions := decisions }) err := by
        cases hlog : rt.decisionLog with
        | none =>
          simp only [hlog] at hI
          exact ⟨_, by rw [hI]⟩
        | some dplugin =>
          simp only [hlog] at hI
          exact ⟨_, by rw [hI]⟩
      obtain ⟨err, hret⟩ := hret
      refine ⟨pc, { Decisions := decisions }, err, hr.policy, hret, forall₂_names h2, ?_, ?_, ?_⟩
      · intro k
        rw [hrec, h3]
        simp [Map.keys]
      · intro e he
        obtain ⟨k, hk, hke, hkv⟩ := forall₂_exists_left h2 e he
        obtain ⟨b, hb, hget⟩ := h4 k hk
        rw [hkv] at hb
        injection hb with hb
        rw [hrec, hke, hget, hb]
      · intro k b hget
        rw [hrec] at hget
        have hk : k ∈ pc.Decisions := by
          by_contra hk
          rw [h5 k hk] at hget
          simp [Map.get] at hget
        obtain ⟨b', hb', hget'⟩ := h4 k hk
        rw [hget] at hget'
        injection hget' with hbb
        subst hbb
        obtain ⟨e, he, hke, hkv⟩ := forall₂_exists_right h2 k hk
        rw [hb'] at hkv
        injection hkv with hkv
        have : e = { Decision := k, Is := b } := by
          cases e
          simp only [Decision.mk.injEq]
          exact ⟨hke, hkv.symm⟩
        rw [← this]
        exact he

/-- Witness of C8: the record of the concrete deployment, for the rule result that
maps `allowed` to `true`. -/
theorem Is_record_outcomes_witness :
    ∃ pc resp err, getPolicyInfoFromContext demoCtx = some pc ∧
      (Is (demoServer (.map [("allowed", .bool true)]) none) demoCtx
        { IdentityContext := some alice, ResourceContext := none }).ret
        = .ret (some resp) err ∧
      resp.Decisions.map (fun e => e.Decision) = pc.Decisions ∧
      (∀ k, k ∈ Map.keys [("allowed", true)] ↔ k ∈ pc.Decisions) ∧
      (∀ e ∈ resp.Decisions, Map.get [("allowed", true)] e.Decision = some e.Is) ∧
      (∀ k b, Map.get [("allowed", true)] k = some b →
        ({ Decision := k, Is := b } : Decision) ∈ resp.Decisions) :=
  Is_record_outcomes (demoServer (.map [("allowed", .bool true)]) none) demoCtx
    { IdentityContext := some alice, ResourceContext := none }
    { Id := "00000000-0000-0000-0000-000000000000", Timestamp := 0, Path := "allowed",
      Policy := demoPolicyContext, UserContext := alice, UserId := "u1",
      UserEmail := "alice@example.com", Resource := [], Outcomes := [("allowed", true)] }
    rfl

/-! ### Responses returned with an error -/

/-- C9, the code at a failing input: the decision log sink of the selected runtime
fails on every record. `Is` returns the sink's error together with a response
whose `Decisions` list holds the resolved decision; it is neither `nil` nor
empty. On the same deployment a request whose identity does not resolve returns
the empty response, and a binding from which the decision cannot be extracted
returns a `nil` response. -/
theorem Is_sink_failure_returns_decisions :
    (Is (demoServer (.map [("allowed", .bool true)]) (some failingSink)) demoCtx
        { IdentityContext := some alice, ResourceContext := none }).ret
      = .ret (some { Decisions := [{ Decision := "allowed", Is := true }] })
          (some (.external "sink unavailable")) ∧
    (Is (demoServer (.map [("allowed", .bool true)]) (some failingSink)) demoCtx
        { IdentityContext := some nobody, ResourceContext := none }).ret
      = .ret (some { Decisions := [] })
          (some (((cerr .UserNotFound).WithGRPCStatus .NotFound).Msg
            "failed to resolve identity context")) ∧
    ∃ err, (Is (demoServer .null (some failingSink)) demoCtx
        { IdentityContext := some alice, ResourceContext := none }).ret
      = .ret none (some err) :=
  ⟨rfl, rfl, _, rfl⟩

/-- The response that `Is` returns next to an error. When the decision log sink
was not called (validation, identity resolution, instance selection, query
preparation or evaluation, decision extraction), the response is `nil` or has an
empty `Decisions` list. When the sink was called on the record `d`, the error is
the error the sink returned on `d`, and the response holds, in request order, the
resolved decision of every requested name. -/
theorem Is_error_response (s : AuthorizerServer) (ctx : Ctx) (req : IsRequest)
    (resp : Option IsResponse) (err : CErr) (h : (Is s ctx req).ret = .ret resp (some err)) :
    ((∀ e ∈ (Is s ctx req).trace, e.isLog = false) →
      resp = none ∨ resp = some { Decisions := [] }) ∧
    (∀ d, Event.log d ∈ (Is s ctx req).trace →
      ∃ pc ic user rt r rs sink decisions,
        IsReachesBinding s ctx req pc ic user rt r rs ∧
        rt.decisionLog = some sink ∧ sink d = some err ∧
        resp = some { Decisions := decisions } ∧
        List.Forall₂ (fun k e => e.Decision = k ∧ is (r.binding "x") k = .ok e.Is)
          pc.Decisions decisions) := by
  rcases Is_cases s ctx req with ⟨_, hnolog, hf | ⟨err', he⟩⟩ | ⟨pc, ic, user, rt, r, rs, hr⟩
  · rw [hf] at h; cases h
  · rw [he] at h
    simp only [Ret.ret.injEq] at h
    refine ⟨fun _ => Or.inr h.1.symm, fun d hmem => ?_⟩
    have := hnolog _ hmem
    simp [Event.isLog] at this
  · have hI := Is_of_reaches s ctx req pc ic user rt r rs hr
    cases hloop : isLoop (r.binding "x") pc.Decisions [] [] with
    | error e =>
      simp only [hloop] at hI
      rw [hI] at h
      simp only [Ret.ret.injEq] at h
      refine ⟨fun _ => Or.inl h.1.symm, fun d hmem => ?_⟩
      rw [hI] at hmem
      have := isTrace_no_log _ _ _ _ hmem
      simp [Event.isLog] at this
    | ok p =>
      obtain ⟨decisions, outcomes⟩ := p
      obtain ⟨fresh, h1, h2, -⟩ := isLoop_ok _ _ _ _ _ _ hloop
      simp only [List.nil_append] at h1
      subst h1
      simp only [hloop] at hI
      cases hlog : rt.decisionLog with
      | none =>
        simp only [hlog] at hI
        rw [hI] at h
        cases h
      | some dplugin =>
        simp only [hlog] at hI
        rw [hI] at h
        simp only [Ret.ret.injEq] at h
        refine ⟨fun hno => ?_, fun d hmem => ?_⟩
        · have hmem : Event.log
                { Id := s.newUUID, Timestamp := s.now, Path := pc.Path, Policy := pc,
                  UserContext := ic,
                  UserId := getID (evaluationInput s user ic (some pc)
                    (req.ResourceContext.getD [])),
                  UserEmail := getEmail (evaluationInput s user ic (some pc)
                    (req.ResourceContext.getD [])),
                  Resource := req.ResourceContext.getD [], Outcomes := outcomes }
                ∈ (Is s ctx req).trace := by
            rw [hI]
            simp
          have := hno _ hmem
          simp [Event.isLog] at this
        · rw [hI] at hmem
          simp only [List.mem_append, List.mem_singleton] at hmem
          rcases hmem with hmem | hmem
          · have := isTrace_no_log _ _ _ _ hmem
            simp [Event.isLog] at this
          · injection hmem with hmem
            subst hmem
            exact ⟨pc, ic, user, rt, r, rs, dplugin, decisions, hr, hlog, h.2, h.1.symm, h2⟩

/-! ### Ranging over a map -/

theorem Map.get_filter_ne {β : Type} (l : List (String × β)) (k d : String) :
    Map.get (l.filter (fun e => !decide (e.1 = k))) d = if d = k then none else Map.get l d := by
  induction l with
  | nil => simp [Map.get]
  | cons hd tl ih =>
    obtain ⟨k', v'⟩ := hd
    by_cases h : k' = k
    · subst h
      by_cases hd : d = k'
      · subst hd
        simp [List.filter, Map.get, ih]
      · have hd' : ¬ k' = d := fun e => hd e.symm
        simp [List.filter, Map.get, ih, hd, hd']
    · by_cases hd : d = k
      · subst hd
        simp [List.filter, Map.get, h, ih]
      · simp [List.filter, Map.get, h, ih, hd]

theorem Map.get_range {β : Type} (m : List (String × β)) (d : String) :
    Map.get (Map.range m) d = Map.get m d := by
  induction m with
  | nil => rfl
  | cons hd tl ih =>
    obtain ⟨k, v⟩ := hd
    by_cases h : k = d
    · simp [Map.range, Map.get, h]
    · have h' : ¬ d = k := fun e => h e.symm
      simp [Map.range, Map.get, h, Map.get_filter_ne, h', ih]

theorem Map.keys_range_nodup {β : Type} (m : List (String × β)) :
    (Map.keys (Map.range m)).Nodup := by
  induction m with
  | nil => simp [Map.range, Map.keys]
  | cons hd tl ih =>
    obtain ⟨k, v⟩ := hd
    simp only [Map.range, Map.keys, List.map_cons, List.nodup_cons, List.mem_map,
      List.mem_filter, decide_eq_true_eq, not_exists, not_and]
    refine ⟨?_, ?_⟩
    · rintro ⟨k', v'⟩ ⟨_, hne⟩ heq
      exact hne heq
    · simp only [Map.keys] at ih
      exact (List.Nodup.sublist (List.Sublist.map _ (List.filter_sublist _)) ih)

theorem Map.get_eq_none_of_not_mem_keys {β : Type} (m : List (String × β)) (k : String)
    (h : k ∉ Map.keys m) : Map.get m k = none := by
  cases hg : Map.get m k with
  | none => rfl
  | some v =>
    exfalso
    exact h ((Map.get_isSome_iff_mem_keys m k).mp (by simp [hg]))

theorem Map.get_of_mem {β : Type} (m : List (String × β)) (k : String) (v : β)
    (hnd : (Map.keys m).Nodup) (h : (k, v) ∈ m) : Map.get m k = some v := by
  induction m with
  | nil => simp at h
  | cons hd tl ih =>
    obtain ⟨k', v'⟩ := hd
    simp only [Map.keys, List.map_cons, List.nodup_cons] at hnd
    rcases List.mem_cons.mp h with h | h
    · injection h with h1 h2
      subst h1 h2
      simp [Map.get]
    · have hne : ¬ k' = k := by
        intro e
        subst e
        exact hnd.1 (List.mem_map.mpr ⟨(k', v), h, rfl⟩)
      simp only [Map.get, hne, if_false]
      exact ih hnd.2 h

theorem Map.mem_of_get {β : Type} (m : List (String × β)) (k : String) (v : β)
    (h : Map.get m k = some v) : (k, v) ∈ m := by
  induction m with
  | nil => simp [Map.get] at h
  | cons hd tl ih =>
    obtain ⟨k', v'⟩ := hd
    by_cases hk : k' = k
    · subst hk
      simp only [Map.get, if_true, Option.some.injEq] at h
      subst h
      exact List.mem_cons_self _ _
    · simp only [Map.get, hk, if_false] at h
      exact List.mem_cons_of_mem _ (ih h)

/-! ### The field loop of `DecisionTree` -/

theorem collectFields_of_none_kept (f : String → Bool) :
    ∀ (es r : List (String × Value)), es.any (keepsField f) = false →
      collectFields f es r = r := by
  intro es
  induction es with
  | nil => intro r _; rfl
  | cons e rest ih =>
    intro r h
    simp only [List.any_cons, Bool.or_eq_false_iff] at h
    simp only [collectFields, h.1, Bool.false_eq_true, if_false]
    exact ih r h.2

theorem collectFields_get (f : String → Bool) :
    ∀ (es r : List (String × Value)) (k : String), (Map.keys es).Nodup →
      Map.get (collectFields f es r) k =
        match Map.get es k with
        | some v => if keepsField f (k, v) then some v else Map.get r k
        | none => Map.get r k := by
  intro es
  induction es with
  | nil => intro r k _; simp [collectFields, Map.get]
  | cons e rest ih =>
    intro r k hnd
    obtain ⟨k₁, v₁⟩ := e
    simp only [Map.keys, List.map_cons, List.nodup_cons] at hnd
    have ih' := ih (if keepsField f (k₁, v₁) then Map.set r k₁ v₁ else r) k hnd.2
    simp only [collectFields]
    rw [ih']
    by_cases hk : k₁ = k
    · subst hk
      have hnone : Map.get rest k₁ = none := Map.get_eq_none_of_not_mem_keys _ _ hnd.1
      by_cases hkeep : keepsField f (k₁, v₁) = true
      · simp [Map.get, hnone, hkeep, Map.get_set_same]
      · simp [Map.get, hnone, hkeep]
    · simp only [Map.get, hk, if_false]
      by_cases hkeep : keepsField f (k₁, v₁) = true
      · simp only [hkeep, if_true, Map.get_set_other _ _ _ _ hk]
      · simp only [hkeep]
        simp

theorem treeFields_of_map (f : String → Bool) (p : String) :
    ∀ (es R r₀ : List (String × Value)), Map.get R p = some (.map r₀) →
      treeFields f p es R =
        if es.any (keepsField f) then Map.set R p (.map (collectFields f es r₀)) else R := by
  intro es
  induction es with
  | nil => intro R r₀ _; simp [treeFields]
  | cons e rest ih =>
    intro R r₀ hR
    obtain ⟨k, v⟩ := e
    by_cases hf : f k = true
    · cases v with
      | bool b =>
        have hkeep : keepsField f (k, .bool b) = true := by simp [keepsField, hf, Value.isBool]
        have hstep : treeFields f p ((k, .bool b) :: rest) R =
            treeFields f p rest (Map.set R p (.map (Map.set r₀ k (.bool b)))) := by
          simp [treeFields, hf, hR]
        rw [hstep, ih _ (Map.set r₀ k (.bool b)) (Map.get_set_same _ _ _)]
        simp only [List.any_cons, hkeep, Bool.true_or, if_true, collectFields]
        by_cases hany : rest.any (keepsField f) = true
        · simp only [hany, if_true, Map.set_set]
        · have hany' : rest.any (keepsField f) = false := by simpa using hany
          simp only [hany', Bool.false_eq_true, if_false]
          rw [collectFields_of_none_kept f rest _ hany']
      | null =>
        have hkeep : keepsField f (k, .null) = false := by simp [keepsField, Value.isBool]
        have hstep : treeFields f p ((k, .null) :: rest) R = treeFields f p rest R := by
          simp [treeFields, hf]
        rw [hstep, ih R r₀ hR]
        simp only [List.any_cons, collectFields, hkeep, Bool.false_or, Bool.false_eq_true, if_false]
      | num n =>
        have hkeep : keepsField f (k, .num n) = false := by simp [keepsField, Value.isBool]
        have hstep : treeFields f p ((k, .num n) :: rest) R = treeFields f p rest R := by
          simp [treeFields, hf]
        rw [hstep, ih R r₀ hR]
        simp only [List.any_cons, collectFields, hkeep, Bool.false_or, Bool.false_eq_true, if_false]
      | str n =>
        have hkeep : keepsField f (k, .str n) = false := by simp [keepsField, Value.isBool]
        have hstep : treeFields f p ((k, .str n) :: rest) R = treeFields f p rest R := by
          simp [treeFields, hf]
        rw [hstep, ih R r₀ hR]
        simp only [List.any_cons, collectFields, hkeep, Bool.false_or, Bool.false_eq_true, if_false]
      | list n =>
        have hkeep : keepsField f (k, .list n) = false := by simp [keepsField, Value.isBool]
        have hstep : treeFields f p ((k, .list n) :: rest) R = treeFields f p rest R := by
          simp [treeFields, hf]
        rw [hstep, ih R r₀ hR]
        simp only [List.any_cons, collectFields, hkeep, Bool.false_or, Bool.false_eq_true, if_false]
      | map n =>
        have hkeep : keepsField f (k, .map n) = false := by simp [keepsField, Value.isBool]
        have hstep : treeFields f p ((k, .map n) :: rest) R = treeFields f p rest R := by
          simp [treeFields, hf]
        rw [hstep, ih R r₀ hR]
        simp only [List.any_cons, collectFields, hkeep, Bool.false_or, Bool.false_eq_true, if_false]
    · have hkeep : keepsField f (k, v) = false := by simp [keepsField, hf]
      have hstep : treeFields f p ((k, v) :: rest) R = treeFields f p rest R := by
        simp [treeFields, hf]
      rw [hstep, ih R r₀ hR]
      simp only [List.any_cons, collectFields, hkeep, Bool.false_or, Bool.false_eq_true, if_false]

theorem treeFields_of_none (f : String → Bool) (p : String) :
    ∀ (es R : List (String × Value)), Map.get R p = none →
      treeFields f p es R =
        if es.any (keepsField f) then Map.set R p (.map (collectFields f es [])) else R := by
  intro es
  induction es with
  | nil => intro R _; simp [treeFields]
  | cons e rest ih =>
    intro R hR
    obtain ⟨k, v⟩ := e
    by_cases hkeep : keepsField f (k, v) = true
    · have hf : f k = true := by
        simp only [keepsField, Bool.and_eq_true] at hkeep
        exact hkeep.1
      cases v with
      | bool b =>
        have hstep : treeFields f p ((k, .bool b) :: rest) R =
            treeFields f p rest (Map.set R p (.map (Map.set [] k (.bool b)))) := by
          simp [treeFields, hf, hR, Map.get_set_same, Map.set_set]
        rw [hstep, treeFields_of_map f p rest _ (Map.set [] k (.bool b))
          (Map.get_set_same _ _ _)]
        simp only [List.any_cons, hkeep, Bool.true_or, if_true, collectFields]
        by_cases hany : rest.any (keepsField f) = true
        · simp only [hany, if_true, Map.set_set]
        · have hany' : rest.any (keepsField f) = false := by simpa using hany
          simp only [hany', Bool.false_eq_true, if_false]
          rw [collectFields_of_none_kept f rest _ hany']
      | null => simp [keepsField, Value.isBool] at hkeep
      | num n => simp [keepsField, Value.isBool] at hkeep
      | str n => simp [keepsField, Value.isBool] at hkeep
      | list n => simp [keepsField, Value.isBool] at hkeep
      | map n => simp [keepsField, Value.isBool] at hkeep
    · have hkeep' : keepsField f (k, v) = false := by simpa using hkeep
      have hstep : treeFields f p ((k, v) :: rest) R = treeFields f p rest R := by
        by_cases hf : f k = true
        · cases v with
          | bool b => simp [keepsField, hf, Value.isBool] at hkeep'
          | null => simp [treeFields, hf]
          | num n => simp [treeFields, hf]
          | str n => simp [treeFields, hf]
          | list n => simp [treeFields, hf]
          | map n => simp [treeFields, hf]
        · simp [treeFields, hf]
      rw [hstep, ih R hR]
      simp only [List.any_cons, collectFields, hkeep', Bool.false_or, Bool.false_eq_true, if_false]

/-! ### The entry of one package -/

theorem treeEntry_isSome_iff (f : String → Bool) (result : List (String × Value)) :
    (treeEntry f result).isSome = true ↔
      ∃ k b, f k = true ∧ Map.get result k = some (.bool b) := by
  have hany : (Map.range result).any (keepsField f) = true ↔
      ∃ k b, f k = true ∧ Map.get result k = some (.bool b) := by
    rw [List.any_eq_true]
    constructor
    · rintro ⟨⟨k, v⟩, hmem, hkeep⟩
      simp only [keepsField, Bool.and_eq_true] at hkeep
      cases v with
      | bool b =>
        refine ⟨k, b, hkeep.1, ?_⟩
        rw [← Map.get_range]
        exact Map.get_of_mem _ _ _ (Map.keys_range_nodup result) hmem
      | null => simp [Value.isBool] at hkeep
      | num n => simp [Value.isBool] at hkeep
      | str n => simp [Value.isBool] at hkeep
      | list n => simp [Value.isBool] at hkeep
      | map n => simp [Value.isBool] at hkeep
    · rintro ⟨k, b, hf, hget⟩
      rw [← Map.get_range] at hget
      exact ⟨(k, .bool b), Map.mem_of_get _ _ _ hget, by simp [keepsField, hf, Value.isBool]⟩
  rw [← hany]
  by_cases h : (Map.range result).any (keepsField f) = true
  · simp [treeEntry, h]
  · simp [treeEntry, h]

theorem collectFields_range_get (f : String → Bool) (result : List (String × Value))
    (k : String) :
    Map.get (collectFields f (Map.range result) []) k = decisionField f result k := by
  rw [collectFields_get f _ [] k (Map.keys_range_nodup result), Map.get_range]
  cases hg : Map.get result k with
  | none => simp [decisionField, hg, Map.get]
  | some v =>
    by_cases hf : f k = true
    · cases v <;> simp [decisionField, hg, keepsField, hf, Value.isBool, Map.get]
    · cases v <;> simp [decisionField, hg, keepsField, hf, Value.isBool, Map.get]

theorem treeEntry_eq_some (f : String → Bool) (result : List (String × Value)) (entry : Value)
    (h : treeEntry f result = some entry) :
    ∃ sub, entry = .map sub ∧ sub ≠ [] ∧ ∀ k, Map.get sub k = decisionField f result k := by
  have hsome : (treeEntry f result).isSome = true := by simp [h]
  obtain ⟨k, b, hf, hget⟩ := (treeEntry_isSome_iff f result).mp hsome
  by_cases hany : (Map.range result).any (keepsField f) = true
  · simp only [treeEntry, hany, if_true, Option.some.injEq] at h
    refine ⟨_, h.symm, ?_, collectFields_range_get f result⟩
    intro hnil
    have := collectFields_range_get f result k
    rw [hnil] at this
    simp [Map.get, decisionField, hf, hget] at this
  · simp [treeEntry, hany] at h

theorem packageStep_eq (f : String → Bool) (p : String) (R : List (String × Value))
    (x : Value) (hR : Map.get R p = none) :
    (match x with
      | .map result => treeFields f p (Map.range result) R
      | _ => R) =
    match treeEntry f (match x with
      | .map result => result
      | _ => []) with
    | some entry => Map.set R p entry
    | none => R := by
  cases x with
  | map result =>
    simp only
    rw [treeFields_of_none f p _ R hR]
    by_cases hany : (Map.range result).any (keepsField f) = true
    · simp [treeEntry, hany]
    · simp [treeEntry, hany]
  | null => simp [treeEntry, Map.range]
  | bool b => simp [treeEntry, Map.range]
  | num n => simp [treeEntry, Map.range]
  | str n => simp [treeEntry, Map.range]
  | list n => simp [treeEntry, Map.range]

/-! ### The package loop of `DecisionTree` -/

theorem treeLoop_results (rt : Runtime) (sep : PathSeparator) (f : String → Bool)
    (input₀ : Input) (pc : PolicyContext) :
    ∀ (policies : List Policy) (st st' : TreeState),
      treeLoop rt sep f policies st = .ok st' →
      (∀ v, Map.set st.input InputPolicy v = Map.set input₀ InputPolicy v) →
      (∀ path, { st.policyContext with Path := path } = { pc with Path := path }) →
      (policies.map (fun pol => rt.Package pol (TranslatePathSeparator sep))).Nodup →
      (∀ pol ∈ policies,
        Map.get st.results (rt.Package pol (TranslatePathSeparator sep)) = none) →
      (∀ pol ∈ policies,
        Map.get st'.results (rt.Package pol (TranslatePathSeparator sep)) =
          treeEntry f (packageResult rt input₀ pc pol)) ∧
      (∀ p, (∀ pol ∈ policies, rt.Package pol (TranslatePathSeparator sep) ≠ p) →
        Map.get st'.results p = Map.get st.results p) := by
  intro policies
  induction policies with
  | nil =>
    intro st st' h _ _ _ _
    simp only [treeLoop, Except.ok.injEq] at h
    subst h
    exact ⟨by simp, by simp⟩
  | cons pol rest ih =>
    intro st st' h hin hpc hnd hfresh
    simp only [treeLoop, hin, hpc] at h
    have hin' : Map.set input₀ InputPolicy
        (InputValue.policy (some { pc with Path := pol.PackageName })) =
        packageInput input₀ pc pol := rfl
    rw [hin'] at h
    cases hprep : rt.PrepareForEval ("x = data." ++ pol.PackageName)
        (some (packageInput input₀ pc pol)) with
    | some e => simp [hprep] at h
    | none =>
      simp only [hprep] at h
      cases hev : rt.Eval ("x = data." ++ pol.PackageName) (packageInput input₀ pc pol) with
      | error e => simp [hev] at h
      | ok results =>
        cases results with
        | nil => simp [hev] at h
        | cons r rs =>
          simp only [hev] at h
          have hres : packageResult rt input₀ pc pol =
              match r.binding "x" with
              | .map result => result
              | _ => [] := by
            simp only [packageResult, hev]
          simp only [List.map_cons, List.nodup_cons, List.mem_map, not_exists, not_and] at hnd
          have hR := hfresh pol (List.mem_cons_self _ _)
          rw [packageStep_eq f _ st.results (r.binding "x") hR, ← hres] at h
          obtain ⟨ih1, ih2⟩ := ih _ st' h
            (by intro v; simp only [packageInput, Map.set_set])
            (by intro path; rfl)
            hnd.2
            (by
              intro pol' hpol'
              have hne : rt.Package pol (TranslatePathSeparator sep) ≠
                  rt.Package pol' (TranslatePathSeparator sep) :=
                fun e => hnd.1 pol' hpol' e.symm
              have hf' := hfresh pol' (List.mem_cons_of_mem _ hpol')
              cases hte : treeEntry f (packageResult rt input₀ pc pol) with
              | none => simpa [hte] using hf'
              | some entry => simp only [hte, Map.get_set_other _ _ _ _ hne, hf'])
          refine ⟨?_, ?_⟩
          · intro pol' hpol'
            rcases List.mem_cons.mp hpol' with hp | hp
            · subst hp
              rw [ih2 _ (fun q hq e => hnd.1 q hq e)]
              cases hte : treeEntry f (packageResult rt input₀ pc pol') with
              | none => simpa [hte] using hR
              | some entry => simp only [hte, Map.get_set_same]
            · exact ih1 pol' hp
          · intro p hp
            have hne : rt.Package pol (TranslatePathSeparator sep) ≠ p :=
              hp pol (List.mem_cons_self _ _)
            rw [ih2 p (fun q hq => hp q (List.mem_cons_of_mem _ hq))]
            cases hte : treeEntry f (packageResult rt input₀ pc pol) with
            | none => simp [hte]
            | some entry => simp only [hte, Map.get_set_other _ _ _ _ hne]

/-! ### Theorems about `DecisionTree` -/

theorem DecisionTree_of_enumerated (s : AuthorizerServer) (ctx : Ctx)
    (req : DecisionTreeRequest) (pc : PolicyContext) (ic : IdentityContext)
    (user : Option Value) (rt : Runtime) (policyList : List Policy)
    (hpc : getPolicyInfoFromContext ctx = some pc) (hic : req.IdentityContext = some ic)
    (htyp : ic.Typ ≠ .UNKNOWN) (hres : s.getUserFromIdentityContext ic = .ok user)
    (hrt : s.RuntimeFromContext pc.Id pc.Name pc.InstanceLabel = .ok rt)
    (hlist : rt.GetPolicyList pc.Id
      (TranslatePathSeparator (req.Options.getD { PathSeparator := .DOT }).PathSeparator)
      pc.Path = .ok policyList) :
    DecisionTree s ctx req =
      match treeLoop rt (req.Options.getD { PathSeparator := .DOT }).PathSeparator
          (initDecisionFilter pc.Decisions) policyList
          { results := [], policyContext := pc,
            input := evaluationInput s user ic (some pc) (req.ResourceContext.getD []),
            trace := [.resolveIdentity ic,
              .runtimeFromContext pc.Id pc.Name pc.InstanceLabel,
              .getPolicyList pc.Id
                (TranslatePathSeparator (req.Options.getD { PathSeparator := .DOT }).PathSeparator)
                pc.Path] } with
      | .error (err, t) =>
        { ret := .ret (some { PathRoot := "", Path := none }) (some err), trace := t }
      | .ok st =>
        { ret := .ret (some { PathRoot := st.policyContext.Path, Path := some st.results }) none,
          trace := st.trace } := by
  simp only [DecisionTree, hpc, hic, htyp, hres, hrt, hlist, if_false, List.nil_append,
    List.cons_append, List.singleton_append]

/-- C10: for a `DecisionTree` call that enumerates the packages `policyList`:
when the enumeration is empty the call succeeds with an empty, present tree; and
when the call succeeds over packages with pairwise distinct external paths, the
tree has an entry under the external path `p` if and only if a package with path
`p` has, in its top-level result object, a field whose value is a plain boolean
and whose name passes the decision filter; the entry of a package is a non-empty
sub-map holding exactly those fields with their booleans (so any non-boolean field
and any field rejected by the filter is absent). -/
theorem DecisionTree_tree (s : AuthorizerServer) (ctx : Ctx) (req : DecisionTreeRequest)
    (pc : PolicyContext) (ic : IdentityContext) (user : Option Value) (rt : Runtime)
    (policyList : List Policy)
    (hpc : getPolicyInfoFromContext ctx = some pc) (hic : req.IdentityContext = some ic)
    (htyp : ic.Typ ≠ .UNKNOWN) (hres : s.getUserFromIdentityContext ic = .ok user)
    (hrt : s.RuntimeFromContext pc.Id pc.Name pc.InstanceLabel = .ok rt)
    (hlist : rt.GetPolicyList pc.Id
      (TranslatePathSeparator (req.Options.getD { PathSeparator := .DOT }).PathSeparator)
      pc.Path = .ok policyList) :
    (policyList = [] →
      (DecisionTree s ctx req).ret
        = .ret (some { PathRoot := pc.Path, Path := some [] }) none) ∧
    (∀ resp, (DecisionTree s ctx req).ret = .ret (some resp) none →
      (policyList.map (fun pol => rt.Package pol
        (TranslatePathSeparator (req.Options.getD { PathSeparator := .DOT }).PathSeparator))).Nodup →
      ∃ tree, resp.Path = some tree ∧
        (∀ p, (Map.get tree p).isSome = true ↔
          ∃ pol ∈ policyList,
            rt.Package pol (TranslatePathSeparator
              (req.Options.getD { PathSeparator := .DOT }).PathSeparator) = p ∧
            ∃ k b, initDecisionFilter pc.Decisions k = true ∧
              Map.get (packageResult rt
                (evaluationInput s user ic (some pc) (req.ResourceContext.getD [])) pc pol) k
                = some (.bool b)) ∧
        (∀ pol ∈ policyList, ∀ entry,
          Map.get tree (rt.Package pol (TranslatePathSeparator
            (req.Options.getD { PathSeparator := .DOT }).PathSeparator)) = some entry →
          ∃ sub, entry = .map sub ∧ sub ≠ [] ∧
            ∀ k, Map.get sub k =
              decisionField (initDecisionFilter pc.Decisions)
                (packageResult rt
                  (evaluationInput s user ic (some pc) (req.ResourceContext.getD [])) pc pol) k)) := by
  have hD := DecisionTree_of_enumerated s ctx req pc ic user rt policyList hpc hic htyp hres
    hrt hlist
  refine ⟨?_, ?_⟩
  · intro hnil
    subst hnil
    rw [hD]
    simp only [treeLoop]
  · intro resp hsucc hnd
    rw [hD] at hsucc
    cases hloop : treeLoop rt (req.Options.getD { PathSeparator := .DOT }).PathSeparator
        (initDecisionFilter pc.Decisions) policyList
        { results := [], policyContext := pc,
          input := evaluationInput s user ic (some pc) (req.ResourceContext.getD []),
          trace := [.resolveIdentity ic,
            .runtimeFromContext pc.Id pc.Name pc.InstanceLabel,
            .getPolicyList pc.Id
              (TranslatePathSeparator (req.Options.getD { PathSeparator := .DOT }).PathSeparator)
              pc.Path] } with
    | error e =>
      rw [hloop] at hsucc
      obtain ⟨err, t⟩ := e
      cases hsucc
    | ok st =>
      rw [hloop] at hsucc
      simp only [Ret.ret.injEq, Option.some.injEq, and_true] at hsucc
      obtain ⟨h1, h2⟩ := treeLoop_results rt _ (initDecisionFilter pc.Decisions)
        (evaluationInput s user ic (some pc) (req.ResourceContext.getD [])) pc policyList _ st
        hloop (fun _ => rfl) (fun _ => rfl) hnd (fun _ _ => rfl)
      refine ⟨st.results, by rw [← hsucc], ?_, ?_⟩
      · intro p
        constructor
        · intro hsome
          by_cases hex : ∃ pol ∈ policyList, rt.Package pol (TranslatePathSeparator
              (req.Options.getD { PathSeparator := .DOT }).PathSeparator) = p
          · obtain ⟨pol, hpol, hp⟩ := hex
            refine ⟨pol, hpol, hp, ?_⟩
            rw [← hp, h1 pol hpol] at hsome
            exact (treeEntry_isSome_iff _ _).mp hsome
          · exfalso
            have hnone := h2 p (fun pol hpol e => hex ⟨pol, hpol, e⟩)
            rw [hnone] at hsome
            simp [Map.get] at hsome
        · rintro ⟨pol, hpol, hp, hfield⟩
          rw [← hp, h1 pol hpol]
          exact (treeEntry_isSome_iff _ _).mpr hfield
      · intro pol hpol entry hentry
        rw [h1 pol hpol] at hentry
        exact treeEntry_eq_some _ _ _ hentry

/-- Witness of C10: the concrete deployment, whose two packages both evaluate to
the object with the boolean field `allowed` and the number field `count`; the
decision filter is that of the single name `allowed`. -/
theorem DecisionTree_tree_witness :
    (DecisionTree (demoServer (.map [("allowed", .bool true), ("count", .num "3")]) none)
        demoCtx { IdentityContext := some alice, ResourceContext := none, Options := none }).ret
      = .ret (some { PathRoot := "app.b",
                     Path := some [("app.a", .map [("allowed", .bool true)]),
                                   ("app.b", .map [("allowed", .bool true)])] }) none ∧
    ∃ tree,
      (some [("app.a", Value.map [("allowed", .bool true)]),
             ("app.b", Value.map [("allowed", .bool true)])]) = some tree ∧
      (∀ p, (Map.get tree p).isSome = true ↔
        ∃ pol ∈ [({ PackageName := "app.a", Location := "" } : Policy),
                  { PackageName := "app.b", Location := "" }],
          pol.PackageName = p ∧
          ∃ k b, initDecisionFilter ["allowed"] k = true ∧
            Map.get (packageResult
              (demoRuntime (.map [("allowed", .bool true), ("count", .num "3")]) none)
              (evaluationInput (demoServer (.map [("allowed", .bool true), ("count", .num "3")]) none)
                (some (.map [("id", .str "u1"), ("email", .str "alice@example.com")]))
                alice (some demoPolicyContext) []) demoPolicyContext pol) k
              = some (.bool b)) ∧
      (∀ pol ∈ [({ PackageName := "app.a", Location := "" } : Policy),
                 { PackageName := "app.b", Location := "" }],
        ∀ entry, Map.get tree pol.PackageName = some entry →
        ∃ sub, entry = .map sub ∧ sub ≠ [] ∧
          ∀ k, Map.get sub k =
            decisionField (initDecisionFilter ["allowed"])
              (packageResult
                (demoRuntime (.map [("allowed", .bool true), ("count", .num "3")]) none)
                (evaluationInput (demoServer (.map [("allowed", .bool true), ("count", .num "3")]) none)
                  (some (.map [("id", .str "u1"), ("email", .str "alice@example.com")]))
                  alice (some demoPolicyContext) []) demoPolicyContext pol) k) :=
  ⟨rfl,
    (DecisionTree_tree (demoServer (.map [("allowed", .bool true), ("count", .num "3")]) none)
      demoCtx { IdentityContext := some alice, ResourceContext := none, Options := none }
      demoPolicyContext alice
      (some (.map [("id", .str "u1"), ("email", .str "alice@example.com")]))
      (demoRuntime (.map [("allowed", .bool true), ("count", .num "3")]) none)
      [{ PackageName := "app.a", Location := "" }, { PackageName := "app.b", Location := "" }]
      (by decide) rfl (by decide) rfl rfl rfl).2
      { PathRoot := "app.b",
        Path := some [("app.a", .map [("allowed", .bool true)]),
                      ("app.b", .map [("allowed", .bool true)])] }
      rfl (by decide)⟩

/-! ### The decision filter -/

theorem foldl_set_isSome (ds : List String) :
    ∀ (m : List (String × Unit)) (s : String),
      (Map.get (ds.foldl (fun m v => Map.set m v ()) m) s).isSome = true ↔
        s ∈ ds ∨ (Map.get m s).isSome = true := by
  induction ds with
  | nil => intro m s; simp
  | cons d rest ih =>
    intro m s
    rw [List.foldl_cons, ih, Map.get_isSome_iff_mem_keys, Map.mem_keys_set,
      ← Map.get_isSome_iff_mem_keys]
    simp only [List.mem_cons]
    tauto

theorem star_iff (ds : List String) :
    (ds.length = 1 ∧ ds.head? = some "*") ↔ ds = ["*"] := by
  constructor
  · rintro ⟨h1, h2⟩
    cases ds with
    | nil => simp at h1
    | cons d rest =>
      cases rest with
      | nil =>
        simp only [List.head?_cons, Option.some.injEq] at h2
        rw [h2]
      | cons d' rest' => simp at h1
  · intro h
    subst h
    exact ⟨rfl, rfl⟩

/-- C13: for every list of decision names `ds` and every name `s`,
`initDecisionFilter(ds)(s)` is true when `ds` is exactly the one-element list
holding `*`, and otherwise it is true if and only if `s` is an element of `ds`
under exact string equality. -/
theorem initDecisionFilter_spec (ds : List String) (s : String) :
    initDecisionFilter ds s = if ds = ["*"] then true else decide (s ∈ ds) := by
  by_cases h : ds = ["*"]
  · subst h
    rfl
  · have h' : ¬ (ds.length = 1 ∧ ds.head? = some "*") := fun hc => h ((star_iff ds).mp hc)
    simp only [initDecisionFilter, h', h, if_false]
    have := foldl_set_isSome ds [] s
    simp only [Map.get, Option.isSome_none, Bool.false_eq_true, or_false] at this
    by_cases hs : s ∈ ds
    · simp only [hs, decide_True]
      exact this.mpr hs
    · simp only [hs, decide_False]
      cases hv : (Map.get (ds.foldl (fun m v => Map.set m v ()) []) s).isSome with
      | false => rfl
      | true => exact absurd (this.mp hv) hs

/-! ### The policy context read from the call context -/

/-- C18, the code at a failing input: the call context addresses a policy and
carries the decisions entry `allowed,visible` and the path entry
`peoplefinder.GET.users`; the policy context returned has as `Decisions` the
components of the path entry, not those of the decisions entry. -/
theorem getPolicyInfoFromContext_decisions_from_path :
    stringsSplit "allowed,visible" = ["allowed", "visible"] ∧
    getPolicyInfoFromContext decisionsCtx =
      some { Id := "tenant", Name := "policy", Path := "peoplefinder.GET.users",
             Decisions := ["peoplefinder.GET.users"], InstanceLabel := "" } ∧
    (getPolicyInfoFromContext { decisionsCtx with policyPath := some "a,b" }).map
      (fun pc => pc.Decisions) = some ["a", "b"] := by
  refine ⟨by decide, by decide, by decide⟩

/-- C19, the code at a failing input: with a call context that addresses no
policy, `Is` faults (it reads the path of the absent policy context) and
`DecisionTree` faults after resolving the identity, before any instance selection
(it reads the instance label of the absent policy context); `Query`, on the same
call context, selects the default instance. -/
theorem absent_policy_context_faults :
    getPolicyInfoFromContext emptyCtx = none ∧
    (Is (demoServer (.map [("allowed", .bool true)]) none) emptyCtx
        { IdentityContext := some alice, ResourceContext := none }).ret = .fault ∧
    (DecisionTree (demoServer (.map [("allowed", .bool true)]) none) emptyCtx
        { IdentityContext := some alice, ResourceContext := none, Options := none }).ret
      = .fault ∧
    (DecisionTree (demoServer (.map [("allowed", .bool true)]) none) emptyCtx
        { IdentityContext := some alice, ResourceContext := none, Options := none }).trace
      = [.resolveIdentity alice] ∧
    (Query (demoServer (.map [("allowed", .bool true)]) none) emptyCtx
        { Query := "x = true", Input := "", Options := none, IdentityContext := none,
          ResourceContext := none }).trace
      = [.runtimeFromContext "" "" "", .query "x = true" []] :=
  ⟨by decide, rfl, rfl, rfl, rfl⟩

theorem treeLoop_path (rt : Runtime) (sep : PathSeparator) (f : String → Bool) :
    ∀ (policies : List Policy) (st st' : TreeState),
      treeLoop rt sep f policies st = .ok st' →
      st'.policyContext.Path =
        match policies.getLast? with
        | some last => last.PackageName
        | none => st.policyContext.Path := by
  intro policies
  induction policies with
  | nil =>
    intro st st' h
    simp only [treeLoop, Except.ok.injEq] at h
    subst h
    rfl
  | cons p rest ih =>
    intro st st' h
    simp only [treeLoop] at h
    split at h
    · cases h
    · split at h
      · cases h
      · cases h
      · have := ih _ st' h
        rw [this]
        cases rest with
        | nil => rfl
        | cons q rest' =>
          rw [List.getLast?_cons_cons]
          cases hl : (q :: rest').getLast? with
          | none => simp at hl
          | some last => rfl

/-- C11, the code at a failing input: the requested path prefix is `app` and the
enumeration yields the packages `app.a` and `app.b`; the call succeeds and the
response's `PathRoot` is `app.b`, the name of the last package evaluated, not the
requested prefix. -/
theorem DecisionTree_PathRoot_last_package :
    (getPolicyInfoFromContext treeCtx).map (fun pc => pc.Path) = some "app" ∧
    (DecisionTree (demoServer (.map [("allowed", .bool true)]) none) treeCtx
        { IdentityContext := some alice, ResourceContext := none, Options := none }).ret
      = .ret (some { PathRoot := "app.b", Path := some [] }) none := by
  refine ⟨by decide, rfl⟩

/-! ### Failing packages -/

theorem exists_first_true {α : Type} (P : α → Bool) :
    ∀ l : List α, (∃ a ∈ l, P a = true) →
      ∃ pre a post, l = pre ++ a :: post ∧ (∀ b ∈ pre, P b = false) ∧ P a = true := by
  intro l
  induction l with
  | nil => rintro ⟨a, ha, _⟩; simp at ha
  | cons x rest ih =>
    intro h
    by_cases hx : P x = true
    · exact ⟨[], x, rest, rfl, by simp, hx⟩
    · have hrest : ∃ a ∈ rest, P a = true := by
        obtain ⟨a, ha, hP⟩ := h
        rcases List.mem_cons.mp ha with ha | ha
        · subst ha; exact absurd hP hx
        · exact ⟨a, ha, hP⟩
      obtain ⟨pre, a, post, hl, hpre, ha⟩ := ih hrest
      refine ⟨x :: pre, a, post, by simp [hl], ?_, ha⟩
      intro b hb
      rcases List.mem_cons.mp hb with hb | hb
      · subst hb; simpa using hx
      · exact hpre b hb

theorem treeLoop_cons_ok (rt : Runtime) (sep : PathSeparator) (f : String → Bool)
    (input₀ : Input) (pc : PolicyContext) (p : Policy) (rest : List Policy) (st : TreeState)
    (r : Result) (rs : List Result)
    (hin : ∀ v, Map.set st.input InputPolicy v = Map.set input₀ InputPolicy v)
    (hpc : ∀ path, { st.policyContext with Path := path } = { pc with Path := path })
    (hprep : rt.PrepareForEval ("x = data." ++ p.PackageName)
      (some (packageInput input₀ pc p)) = none)
    (hev : rt.Eval ("x = data." ++ p.PackageName) (packageInput input₀ pc p) = .ok (r :: rs)) :
    treeLoop rt sep f (p :: rest) st =
      treeLoop rt sep f rest
        { results :=
            match r.binding "x" with
            | .map result =>
              treeFields f (rt.Package p (TranslatePathSeparator sep)) (Map.range result)
                st.results
            | _ => st.results,
          policyContext := { pc with Path := p.PackageName },
          input := packageInput input₀ pc p,
          trace := st.trace ++ packageEvents input₀ pc p } := by
  have hin' : Map.set input₀ InputPolicy
      (InputValue.policy (some { pc with Path := p.PackageName })) =
      packageInput input₀ pc p := rfl
  simp only [treeLoop, hin, hpc, hin', hprep, hev, packageEvents, List.append_assoc,
    List.singleton_append]

theorem treeLoop_fails (rt : Runtime) (sep : PathSeparator) (f : String → Bool)
    (input₀ : Input) (pc : PolicyContext) (pol : Policy) (post : List Policy)
    (hpol : packageFails rt input₀ pc pol = true) :
    ∀ (pre : List Policy) (st : TreeState),
      (∀ v, Map.set st.input InputPolicy v = Map.set input₀ InputPolicy v) →
      (∀ path, { st.policyContext with Path := path } = { pc with Path := path }) →
      (∀ p ∈ pre, packageFails rt input₀ pc p = false) →
      ∃ err, treeLoop rt sep f (pre ++ pol :: post) st =
          .error (err, st.trace ++ pre.flatMap (packageEvents input₀ pc)
            ++ failingPackageEvents rt input₀ pc pol) ∧
        err.kind = some .BadQuery := by
  intro pre
  induction pre with
  | nil =>
    intro st hin hpc _
    have hin' : Map.set input₀ InputPolicy
        (InputValue.policy (some { pc with Path := pol.PackageName })) =
        packageInput input₀ pc pol := rfl
    simp only [List.nil_append, treeLoop, hin, hpc, hin', List.flatMap_nil, List.append_nil]
    simp only [packageFails] at hpol
    cases hprep : rt.PrepareForEval ("x = data." ++ pol.PackageName)
        (some (packageInput input₀ pc pol)) with
    | some e =>
      refine ⟨((cerr .BadQuery).Err e).Str "query" ("x = data." ++ pol.PackageName), ?_, rfl⟩
      simp [failingPackageEvents, hprep]
    | none =>
      simp only [hprep] at hpol
      cases hev : rt.Eval ("x = data." ++ pol.PackageName) (packageInput input₀ pc pol) with
      | error e =>
        refine ⟨(((cerr .BadQuery).Err e).Str "query" ("x = data." ++ pol.PackageName)).Msg
          "query evaluation failed", ?_, rfl⟩
        simp [failingPackageEvents, hprep, packageEvents]
      | ok results =>
        cases results with
        | nil =>
          refine ⟨((cerr .BadQuery).Str "query" ("x = data." ++ pol.PackageName)).Msg
            "undefined results", ?_, rfl⟩
          simp [failingPackageEvents, hprep, packageEvents]
        | cons r rs => simp [hev] at hpol
  | cons p pre' ih =>
    intro st hin hpc hpre
    have hp := hpre p (List.mem_cons_self _ _)
    have hin' : Map.set input₀ InputPolicy
        (InputValue.policy (some { pc with Path := p.PackageName })) =
        packageInput input₀ pc p := rfl
    simp only [packageFails] at hp
    cases hprep : rt.PrepareForEval ("x = data." ++ p.PackageName)
        (some (packageInput input₀ pc p)) with
    | some e => simp [hprep] at hp
    | none =>
      simp only [hprep] at hp
      cases hev : rt.Eval ("x = data." ++ p.PackageName) (packageInput input₀ pc p) with
      | error e => simp [hev] at hp
      | ok results =>
        cases results with
        | nil => simp [hev] at hp
        | cons r rs =>
          rw [List.cons_append, treeLoop_cons_ok rt sep f input₀ pc p _ st r rs hin hpc hprep hev]
          obtain ⟨err, herr, hkind⟩ := ih
            { results :=
                match r.binding "x" with
                | .map result =>
                  treeFields f (rt.Package p (TranslatePathSeparator sep)) (Map.range result)
                    st.results
                | _ => st.results,
              policyContext := { pc with Path := p.PackageName },
              input := packageInput input₀ pc p,
              trace := st.trace ++ packageEvents input₀ pc p }
            (by intro v; simp only [packageInput, Map.set_set])
            (by intro path; rfl)
            (fun q hq => hpre q (List.mem_cons_of_mem _ hq))
          refine ⟨err, ?_, hkind⟩
          rw [herr]
          simp [List.append_assoc]

/-- C12: when a `DecisionTree` call enumerates its packages and, for one of them,
query preparation fails, evaluation fails or evaluation yields no result, the call
returns a BadQuery error with the zero-value response (no `PathRoot`, no tree),
whatever the packages before the first failing one produced; its collaborator
calls are those of the packages before the first failing one and of that package,
so no later package is prepared or evaluated. -/
theorem DecisionTree_package_failure (s : AuthorizerServer) (ctx : Ctx)
    (req : DecisionTreeRequest) (pc : PolicyContext) (ic : IdentityContext)
    (user : Option Value) (rt : Runtime) (policyList : List Policy)
    (hpc : getPolicyInfoFromContext ctx = some pc) (hic : req.IdentityContext = some ic)
    (htyp : ic.Typ ≠ .UNKNOWN) (hres : s.getUserFromIdentityContext ic = .ok user)
    (hrt : s.RuntimeFromContext pc.Id pc.Name pc.InstanceLabel = .ok rt)
    (hlist : rt.GetPolicyList pc.Id
      (TranslatePathSeparator (req.Options.getD { PathSeparator := .DOT }).PathSeparator)
      pc.Path = .ok policyList)
    (hfail : ∃ pol ∈ policyList,
      packageFails rt (evaluationInput s user ic (some pc) (req.ResourceContext.getD [])) pc pol
        = true) :
    ∃ pre pol post err, policyList = pre ++ pol :: post ∧
      (∀ p ∈ pre,
        packageFails rt (evaluationInput s user ic (some pc) (req.ResourceContext.getD [])) pc p
          = false) ∧
      packageFails rt (evaluationInput s user ic (some pc) (req.ResourceContext.getD [])) pc pol
        = true ∧
      (DecisionTree s ctx req).ret = .ret (some { PathRoot := "", Path := none }) (some err) ∧
      err.kind = some .BadQuery ∧
      (DecisionTree s ctx req).trace =
        treeTrace pc ic (req.Options.getD { PathSeparator := .DOT }).PathSeparator
          ++ pre.flatMap (packageEvents
              (evaluationInput s user ic (some pc) (req.ResourceContext.getD [])) pc)
          ++ failingPackageEvents rt
              (evaluationInput s user ic (some pc) (req.ResourceContext.getD [])) pc pol := by
  obtain ⟨pre, pol, post, hl, hpre, hpol⟩ := exists_first_true _ policyList hfail
  have hD := DecisionTree_of_enumerated s ctx req pc ic user rt policyList hpc hic htyp hres
    hrt hlist
  obtain ⟨err, herr, hkind⟩ := treeLoop_fails rt
    (req.Options.getD { PathSeparator := .DOT }).PathSeparator
    (initDecisionFilter pc.Decisions)
    (evaluationInput s user ic (some pc) (req.ResourceContext.getD [])) pc pol post hpol pre
    { results := [], policyContext := pc,
      input := evaluationInput s user ic (some pc) (req.ResourceContext.getD []),
      trace := [.resolveIdentity ic,
        .runtimeFromContext pc.Id pc.Name pc.InstanceLabel,
        .getPolicyList pc.Id
          (TranslatePathSeparator (req.Options.getD { PathSeparator := .DOT }).PathSeparator)
          pc.Path] }
    (fun _ => rfl) (fun _ => rfl) hpre
  rw [hl, herr] at hD
  refine ⟨pre, pol, post, err, hl, hpre, hpol, ?_, hkind, ?_⟩
  · rw [hD]
  · rw [hD]
    rfl

/-- Witness of C12: the second of two packages is undefined; the call returns
BadQuery with the zero-value response although the first package evaluated. -/
theorem DecisionTree_package_failure_witness :
    (DecisionTree (scriptedServer allEnabled undefinedSecondRuntime) treeCtx
        { IdentityContext := some alice, ResourceContext := none, Options := none }).ret
      = .ret (some { PathRoot := "", Path := none })
          (some (((cerr .BadQuery).Str "query" "x = data.app.b").Msg "undefined results")) ∧
    ∃ pre pol post err, [packageA, packageB] = pre ++ pol :: post ∧
      (∀ p ∈ pre, packageFails undefinedSecondRuntime
        (evaluationInput (scriptedServer allEnabled undefinedSecondRuntime)
          (some (.map [("id", .str "u1"), ("email", .str "alice@example.com")]))
          alice (some { Id := "tenant", Name := "policy", Path := "app", Decisions := ["app"],
                        InstanceLabel := "" }) [])
        { Id := "tenant", Name := "policy", Path := "app", Decisions := ["app"],
          InstanceLabel := "" } p = false) ∧
      packageFails undefinedSecondRuntime
        (evaluationInput (scriptedServer allEnabled undefinedSecondRuntime)
          (some (.map [("id", .str "u1"), ("email", .str "alice@example.com")]))
          alice (some { Id := "tenant", Name := "policy", Path := "app", Decisions := ["app"],
                        InstanceLabel := "" }) [])
        { Id := "tenant", Name := "policy", Path := "app", Decisions := ["app"],
          InstanceLabel := "" } pol = true ∧
      (DecisionTree (scriptedServer allEnabled undefinedSecondRuntime) treeCtx
        { IdentityContext := some alice, ResourceContext := none, Options := none }).ret
        = .ret (some { PathRoot := "", Path := none }) (some err) ∧
      err.kind = some .BadQuery ∧
      (DecisionTree (scriptedServer allEnabled undefinedSecondRuntime) treeCtx
        { IdentityContext := some alice, ResourceContext := none, Options := none }).trace =
        treeTrace { Id := "tenant", Name := "policy", Path := "app", Decisions := ["app"],
                    InstanceLabel := "" } alice .DOT
          ++ pre.flatMap (packageEvents
              (evaluationInput (scriptedServer allEnabled undefinedSecondRuntime)
                (some (.map [("id", .str "u1"), ("email", .str "alice@example.com")]))
                alice (some { Id := "tenant", Name := "policy", Path := "app",
                              Decisions := ["app"], InstanceLabel := "" }) [])
              { Id := "tenant", Name := "policy", Path := "app", Decisions := ["app"],
                InstanceLabel := "" })
          ++ failingPackageEvents undefinedSecondRuntime
              (evaluationInput (scriptedServer allEnabled undefinedSecondRuntime)
                (some (.map [("id", .str "u1"), ("email", .str "alice@example.com")]))
                alice (some { Id := "tenant", Name := "policy", Path := "app",
                              Decisions := ["app"], InstanceLabel := "" }) [])
              { Id := "tenant", Name := "policy", Path := "app", Decisions := ["app"],
                InstanceLabel := "" } pol :=
  ⟨rfl,
    DecisionTree_package_failure (scriptedServer allEnabled undefinedSecondRuntime) treeCtx
      { IdentityContext := some alice, ResourceContext := none, Options := none }
      { Id := "tenant", Name := "policy", Path := "app", Decisions := ["app"],
        InstanceLabel := "" } alice
      (some (.map [("id", .str "u1"), ("email", .str "alice@example.com")]))
      undefinedSecondRuntime [packageA, packageB]
      (by decide) rfl (by decide) rfl rfl rfl
      ⟨packageB, by simp, rfl⟩⟩

/-! ### The path-separator mode -/

theorem treeLoop_trace (rt : Runtime) (sep : PathSeparator) (f : String → Bool) :
    ∀ (policies : List Policy) (st : TreeState),
      match treeLoop rt sep f policies st with
      | .ok st' => ∃ rest, st'.trace = st.trace ++ rest
      | .error (_, t) => ∃ rest, t = st.trace ++ rest := by
  intro policies
  induction policies with
  | nil => intro st; exact ⟨[], by simp⟩
  | cons p rest ih =>
    intro st
    simp only [treeLoop]
    cases hprep : rt.PrepareForEval ("x = data." ++ p.PackageName)
        (some (Map.set st.input InputPolicy
          (InputValue.policy (some { st.policyContext with Path := p.PackageName })))) with
    | some e => exact ⟨_, rfl⟩
    | none =>
      simp only
      cases hev : rt.Eval ("x = data." ++ p.PackageName)
          (Map.set st.input InputPolicy
            (InputValue.policy (some { st.policyContext with Path := p.PackageName }))) with
      | error e => exact ⟨_, List.append_assoc _ _ _⟩
      | ok results =>
        cases results with
        | nil => exact ⟨_, List.append_assoc _ _ _⟩
        | cons r rs =>
          simp only
          have := ih
            { results :=
                match r.binding "x" with
                | .map result =>
                  treeFields f (rt.Package p (TranslatePathSeparator sep)) (Map.range result)
                    st.results
                | _ => st.results,
              policyContext := { st.policyContext with Path := p.PackageName },
              input := Map.set st.input InputPolicy
                (InputValue.policy (some { st.policyContext with Path := p.PackageName })),
              trace := st.trace ++ [.prepare ("x = data." ++ p.PackageName)]
                ++ [.eval ("x = data." ++ p.PackageName)
                  (Map.set st.input InputPolicy
                    (InputValue.policy
                      (some { st.policyContext with Path := p.PackageName })))] }
          split at this
          · rename_i st' heq
            rw [heq]
            obtain ⟨rest', hrest⟩ := this
            exact ⟨_, by rw [hrest, List.append_assoc, List.append_assoc]⟩
          · rename_i e t heq
            rw [heq]
            obtain ⟨rest', hrest⟩ := this
            exact ⟨_, by rw [hrest, List.append_assoc, List.append_assoc]⟩

theorem treeLoop_succeeds (rt : Runtime) (sep : PathSeparator) (f : String → Bool)
    (input₀ : Input) (pc : PolicyContext) :
    ∀ (policies : List Policy) (st : TreeState),
      (∀ v, Map.set st.input InputPolicy v = Map.set input₀ InputPolicy v) →
      (∀ path, { st.policyContext with Path := path } = { pc with Path := path }) →
      (∀ p ∈ policies, packageFails rt input₀ pc p = false) →
      ∃ st', treeLoop rt sep f policies st = .ok st' ∧
        st'.trace = st.trace ++ policies.flatMap (packageEvents input₀ pc) := by
  intro policies
  induction policies with
  | nil =>
    intro st _ _ _
    exact ⟨st, rfl, by simp⟩
  | cons p rest ih =>
    intro st hin hpc hall
    have hp := hall p (List.mem_cons_self _ _)
    simp only [packageFails] at hp
    cases hprep : rt.PrepareForEval ("x = data." ++ p.PackageName)
        (some (packageInput input₀ pc p)) with
    | some e => simp [hprep] at hp
    | none =>
      simp only [hprep] at hp
      cases hev : rt.Eval ("x = data." ++ p.PackageName) (packageInput input₀ pc p) with
      | error e => simp [hev] at hp
      | ok results =>
        cases results with
        | nil => simp [hev] at hp
        | cons r rs =>
          rw [treeLoop_cons_ok rt sep f input₀ pc p _ st r rs hin hpc hprep hev]
          obtain ⟨st', hst', htr⟩ := ih
            { results :=
                match r.binding "x" with
                | .map result =>
                  treeFields f (rt.Package p (TranslatePathSeparator sep)) (Map.range result)
                    st.results
                | _ => st.results,
              policyContext := { pc with Path := p.PackageName },
              input := packageInput input₀ pc p,
              trace := st.trace ++ packageEvents input₀ pc p }
            (by intro v; simp only [packageInput, Map.set_set])
            (by intro path; rfl)
            (fun q hq => hall q (List.mem_cons_of_mem _ hq))
          refine ⟨st', hst', ?_⟩
          rw [htr]
          simp [List.append_assoc]

/-- C17, counterexample: a `DecisionTree` request whose options carry the UNKNOWN
path-separator mode is not rejected: the packages are enumerated with the UNKNOWN
mode and evaluated, and the call succeeds. -/
theorem DecisionTree_unknown_separator_accepted :
    (DecisionTree (demoServer (.map [("allowed", .bool true)]) none) treeCtx
        { IdentityContext := some alice, ResourceContext := none,
          Options := some { PathSeparator := .UNKNOWN } }).ret
      = .ret (some { PathRoot := "app.b", Path := some [] }) none ∧
    (DecisionTree (demoServer (.map [("allowed", .bool true)]) none) treeCtx
        { IdentityContext := some alice, ResourceContext := none,
          Options := some { PathSeparator := .UNKNOWN } }).trace.take 4
      = [.resolveIdentity alice, .runtimeFromContext "tenant" "policy" "",
         .getPolicyList "tenant" .UNKNOWN "app", .prepare "x = data.app.a"] :=
  ⟨rfl, rfl⟩

/-- C17, amended: a `DecisionTree` request whose options carry the UNKNOWN
path-separator mode is handled like a request with any other mode. Once the
identity is resolved and the instance selected, the packages are enumerated with
the UNKNOWN mode passed on. If the enumeration reports an error, the call returns
it wrapped, with the zero-value response, and nothing is prepared or evaluated. If
the enumeration is empty, the call succeeds with the requested path and an empty
tree. If some enumerated package fails (its preparation fails, its evaluation
fails or yields no result), the call returns a BadQuery error with the zero-value
response; if none fails, the call succeeds after the preparation and evaluation of
every package. The call returns an error exactly when the enumeration reports an
error or some enumerated package fails. -/
theorem DecisionTree_unknown_separator (s : AuthorizerServer) (ctx : Ctx)
    (req : DecisionTreeRequest) (pc : PolicyContext) (ic : IdentityContext)
    (user : Option Value) (rt : Runtime)
    (hopt : req.Options = some { PathSeparator := .UNKNOWN })
    (hpc : getPolicyInfoFromContext ctx = some pc) (hic : req.IdentityContext = some ic)
    (htyp : ic.Typ ≠ .UNKNOWN) (hres : s.getUserFromIdentityContext ic = .ok user)
    (hrt : s.RuntimeFromContext pc.Id pc.Name pc.InstanceLabel = .ok rt) :
    (∃ rest, (DecisionTree s ctx req).trace =
      [.resolveIdentity ic, .runtimeFromContext pc.Id pc.Name pc.InstanceLabel,
       .getPolicyList pc.Id .UNKNOWN pc.Path] ++ rest) ∧
    (∀ e, rt.GetPolicyList pc.Id .UNKNOWN pc.Path = .error e →
      DecisionTree s ctx req =
        { ret := .ret (some { PathRoot := "", Path := none })
            (some (.wrap "get policy list" e)),
          trace := [.resolveIdentity ic, .runtimeFromContext pc.Id pc.Name pc.InstanceLabel,
            .getPolicyList pc.Id .UNKNOWN pc.Path] }) ∧
    (rt.GetPolicyList pc.Id .UNKNOWN pc.Path = .ok [] →
      (DecisionTree s ctx req).ret
        = .ret (some { PathRoot := pc.Path, Path := some [] }) none) ∧
    (∀ policyList, rt.GetPolicyList pc.Id .UNKNOWN pc.Path = .ok policyList →
      ((∃ pol ∈ policyList,
          packageFails rt (evaluationInput s user ic (some pc) (req.ResourceContext.getD []))
            pc pol = true) →
        ∃ err, (DecisionTree s ctx req).ret
            = .ret (some { PathRoot := "", Path := none }) (some err) ∧
          err.kind = some .BadQuery) ∧
      ((∀ pol ∈ policyList,
          packageFails rt (evaluationInput s user ic (some pc) (req.ResourceContext.getD []))
            pc pol = false) →
        ∃ root tree, (DecisionTree s ctx req).ret
            = .ret (some { PathRoot := root, Path := some tree }) none ∧
          (DecisionTree s ctx req).trace =
            [.resolveIdentity ic, .runtimeFromContext pc.Id pc.Name pc.InstanceLabel,
             .getPolicyList pc.Id .UNKNOWN pc.Path]
            ++ policyList.flatMap (packageEvents
                (evaluationInput s user ic (some pc) (req.ResourceContext.getD [])) pc))) ∧
    ((∃ resp err, (DecisionTree s ctx req).ret = .ret resp (some err)) ↔
      ((∃ e, rt.GetPolicyList pc.Id .UNKNOWN pc.Path = .error e) ∨
        ∃ policyList, rt.GetPolicyList pc.Id .UNKNOWN pc.Path = .ok policyList ∧
          ∃ pol ∈ policyList,
            packageFails rt (evaluationInput s user ic (some pc) (req.ResourceContext.getD []))
              pc pol = true)) := by
  have hsep : TranslatePathSeparator
      (req.Options.getD { PathSeparator := .DOT }).PathSeparator = .UNKNOWN := by
    rw [hopt]; rfl
  have herror : ∀ e, rt.GetPolicyList pc.Id .UNKNOWN pc.Path = .error e →
      DecisionTree s ctx req =
        { ret := .ret (some { PathRoot := "", Path := none })
            (some (.wrap "get policy list" e)),
          trace := [.resolveIdentity ic, .runtimeFromContext pc.Id pc.Name pc.InstanceLabel,
            .getPolicyList pc.Id .UNKNOWN pc.Path] } := by
    intro e he
    rw [← hsep] at he
    simp only [DecisionTree, hpc, hic, htyp, hres, hrt, he, if_false, List.nil_append,
      List.cons_append, List.singleton_append]
    rw [hsep]
  have hfails : ∀ policyList, rt.GetPolicyList pc.Id .UNKNOWN pc.Path = .ok policyList →
      (∃ pol ∈ policyList,
          packageFails rt (evaluationInput s user ic (some pc) (req.ResourceContext.getD []))
            pc pol = true) →
        ∃ err, (DecisionTree s ctx req).ret
            = .ret (some { PathRoot := "", Path := none }) (some err) ∧
          err.kind = some .BadQuery := by
    intro policyList hlist hfail
    rw [← hsep] at hlist
    obtain ⟨pre, pol, post, hl, hpre, hpol⟩ := exists_first_true _ policyList hfail
    have hD := DecisionTree_of_enumerated s ctx req pc ic user rt policyList hpc hic htyp hres
      hrt hlist
    obtain ⟨err, herr, hkind⟩ := treeLoop_fails rt
      (req.Options.getD { PathSeparator := .DOT }).PathSeparator
      (initDecisionFilter pc.Decisions)
      (evaluationInput s user ic (some pc) (req.ResourceContext.getD [])) pc pol post hpol pre
      { results := [], policyContext := pc,
        input := evaluationInput s user ic (some pc) (req.ResourceContext.getD []),
        trace := [.resolveIdentity ic,
          .runtimeFromContext pc.Id pc.Name pc.InstanceLabel,
          .getPolicyList pc.Id
            (TranslatePathSeparator (req.Options.getD { PathSeparator := .DOT }).PathSeparator)
            pc.Path] }
      (fun _ => rfl) (fun _ => rfl) hpre
    rw [hl, herr] at hD
    exact ⟨err, by rw [hD], hkind⟩
  have hsucceeds : ∀ policyList, rt.GetPolicyList pc.Id .UNKNOWN pc.Path = .ok policyList →
      (∀ pol ∈ policyList,
          packageFails rt (evaluationInput s user ic (some pc) (req.ResourceContext.getD []))
            pc pol = false) →
        ∃ root tree, (DecisionTree s ctx req).ret
            = .ret (some { PathRoot := root, Path := some tree }) none ∧
          (DecisionTree s ctx req).trace =
            [.resolveIdentity ic, .runtimeFromContext pc.Id pc.Name pc.InstanceLabel,
             .getPolicyList pc.Id .UNKNOWN pc.Path]
            ++ policyList.flatMap (packageEvents
                (evaluationInput s user ic (some pc) (req.ResourceContext.getD [])) pc) := by
    intro policyList hlist hall
    rw [← hsep] at hlist
    have hD := DecisionTree_of_enumerated s ctx req pc ic user rt policyList hpc hic htyp hres
      hrt hlist
    obtain ⟨st', hst', htr⟩ := treeLoop_succeeds rt
      (req.Options.getD { PathSeparator := .DOT }).PathSeparator
      (initDecisionFilter pc.Decisions)
      (evaluationInput s user ic (some pc) (req.ResourceContext.getD [])) pc policyList
      { results := [], policyContext := pc,
        input := evaluationInput s user ic (some pc) (req.ResourceContext.getD []),
        trace := [.resolveIdentity ic,
          .runtimeFromContext pc.Id pc.Name pc.InstanceLabel,
          .getPolicyList pc.Id
            (TranslatePathSeparator (req.Options.getD { PathSeparator := .DOT }).PathSeparator)
            pc.Path] }
      (fun _ => rfl) (fun _ => rfl) hall
    rw [hst'] at hD
    refine ⟨st'.policyContext.Path, st'.results, by rw [hD], ?_⟩
    rw [hD]
    simp only
    rw [htr, hsep]
  refine ⟨?_, herror, ?_, fun policyList hlist => ⟨hfails policyList hlist,
    hsucceeds policyList hlist⟩, ?_⟩
  · cases hlist : rt.GetPolicyList pc.Id .UNKNOWN pc.Path with
    | error e =>
      rw [herror e hlist]
      exact ⟨[], by simp⟩
    | ok policyList =>
      have hlist' := hlist
      rw [← hsep] at hlist'
      have hD := DecisionTree_of_enumerated s ctx req pc ic user rt policyList hpc hic htyp
        hres hrt hlist'
      have htr := treeLoop_trace rt (req.Options.getD { PathSeparator := .DOT }).PathSeparator
        (initDecisionFilter pc.Decisions) policyList
        { results := [], policyContext := pc,
          input := evaluationInput s user ic (some pc) (req.ResourceContext.getD []),
          trace := [.resolveIdentity ic,
            .runtimeFromContext pc.Id pc.Name pc.InstanceLabel,
            .getPolicyList pc.Id
              (TranslatePathSeparator
                (req.Options.getD { PathSeparator := .DOT }).PathSeparator)
              pc.Path] }
      rw [hD]
      split at htr
      · rename_i st' heq
        rw [heq]
        obtain ⟨rest, hrest⟩ := htr
        rw [hsep] at hrest
        exact ⟨rest, hrest⟩
      · rename_i e t heq
        rw [heq]
        obtain ⟨rest, hrest⟩ := htr
        rw [hsep] at hrest
        exact ⟨rest, hrest⟩
  · intro hlist
    rw [← hsep] at hlist
    rw [DecisionTree_of_enumerated s ctx req pc ic user rt [] hpc hic htyp hres hrt hlist]
    simp only [treeLoop]
  · constructor
    · rintro ⟨resp, err, h⟩
      cases hlist : rt.GetPolicyList pc.Id .UNKNOWN pc.Path with
      | error e => exact Or.inl ⟨e, rfl⟩
      | ok policyList =>
        refine Or.inr ⟨policyList, rfl, ?_⟩
        by_contra hno
        have hall : ∀ pol ∈ policyList,
            packageFails rt (evaluationInput s user ic (some pc) (req.ResourceContext.getD []))
              pc pol = false := by
          intro pol hpol
          cases hf : packageFails rt
              (evaluationInput s user ic (some pc) (req.ResourceContext.getD [])) pc pol with
          | false => rfl
          | true => exact absurd ⟨pol, hpol, hf⟩ hno
        obtain ⟨root, tree, hret, -⟩ := hsucceeds policyList hlist hall
        rw [hret] at h
        cases h
    · rintro (⟨e, he⟩ | ⟨policyList, hlist, hfail⟩)
      · exact ⟨_, _, by rw [herror e he]⟩
      · obtain ⟨err, hret, -⟩ := hfails policyList hlist hfail
        exact ⟨_, err, hret⟩

/-- Witness of C17 (amended): the concrete deployment, with the UNKNOWN mode in
the options; the two enumerated packages evaluate and the call succeeds. -/
theorem DecisionTree_unknown_separator_witness :
    ∃ root tree,
      (DecisionTree (demoServer (.map [("allowed", .bool true)]) none) treeCtx
        { IdentityContext := some alice, ResourceContext := none,
          Options := some { PathSeparator := .UNKNOWN } }).ret
        = .ret (some { PathRoot := root, Path := some tree }) none ∧
      (DecisionTree (demoServer (.map [("allowed", .bool true)]) none) treeCtx
        { IdentityContext := some alice, ResourceContext := none,
          Options := some { PathSeparator := .UNKNOWN } }).trace =
        [.resolveIdentity alice, .runtimeFromContext "tenant" "policy" "",
         .getPolicyList "tenant" .UNKNOWN "app"]
        ++ [(⟨"app.a", ""⟩ : Policy), ⟨"app.b", ""⟩].flatMap (packageEvents
            (evaluationInput (demoServer (.map [("allowed", .bool true)]) none)
              (some (.map [("id", .str "u1"), ("email", .str "alice@example.com")])) alice
              (some { Id := "tenant", Name := "policy", Path := "app", Decisions := ["app"],
                      InstanceLabel := "" }) [])
            { Id := "tenant", Name := "policy", Path := "app", Decisions := ["app"],
              InstanceLabel := "" }) :=
  ((DecisionTree_unknown_separator (demoServer (.map [("allowed", .bool true)]) none) treeCtx
    { IdentityContext := some alice, ResourceContext := none,
      Options := some { PathSeparator := .UNKNOWN } }
    { Id := "tenant", Name := "policy", Path := "app", Decisions := ["app"],
      InstanceLabel := "" } alice
    (some (.map [("id", .str "u1"), ("email", .str "alice@example.com")]))
    (demoRuntime (.map [("allowed", .bool true)]) none) rfl (by decide) rfl (by decide) rfl
    rfl).2.2.2.1 [⟨"app.a", ""⟩, ⟨"app.b", ""⟩] rfl).2
    (by
      intro pol hpol
      simp only [List.mem_cons, List.mem_singleton, List.not_mem_nil, or_false] at hpol
      rcases hpol with rfl | rfl <;> rfl)

/-! ### Input assembly of `Query` and `Compile` -/

/-- C15, the code at failing inputs: with a non-empty query and an empty raw
input, `Compile` faults when a resource context is supplied (flag on), when an
identity is supplied (flag on), and when the call context addresses a policy; the
same requests with the raw input of the empty JSON object succeed, and `Query`
succeeds on the empty raw input. -/
theorem Compile_empty_input_faults :
    (Compile (scriptedServer allEnabled (demoRuntime .null none)) emptyCtx
        { Query := "x = true", Input := "", Unknowns := [], DisableInlining := false,
          Options := none, IdentityContext := none, ResourceContext := some [] }).ret
      = .fault ∧
    (Compile (scriptedServer allEnabled (demoRuntime .null none)) emptyCtx
        { Query := "x = true", Input := "", Unknowns := [], DisableInlining := false,
          Options := none, IdentityContext := some alice, ResourceContext := none }).ret
      = .fault ∧
    (Compile (scriptedServer allEnabled (demoRuntime .null none)) demoCtx
        { Query := "x = true", Input := "", Unknowns := [], DisableInlining := false,
          Options := none, IdentityContext := none, ResourceContext := none }).ret
      = .fault ∧
    (Compile (scriptedServer allEnabled (demoRuntime .null none)) emptyCtx
        { Query := "x = true", Input := "\x7b\x7d", Unknowns := [], DisableInlining := false,
          Options := none, IdentityContext := none, ResourceContext := some [] }).ret
      = .ret (some { Response := some [], Metrics := some [], Trace := [],
                     TraceSummary := [] }) none ∧
    (Compile (scriptedServer allEnabled (demoRuntime .null none)) emptyCtx
        { Query := "x = true", Input := "\x7b\x7d", Unknowns := [], DisableInlining := false,
          Options := none, IdentityContext := some alice, ResourceContext := none }).ret
      = .ret (some { Response := some [], Metrics := some [], Trace := [],
                     TraceSummary := [] }) none ∧
    (Compile (scriptedServer allEnabled (demoRuntime .null none)) demoCtx
        { Query := "x = true", Input := "\x7b\x7d", Unknowns := [], DisableInlining := false,
          Options := none, IdentityContext := none, ResourceContext := none }).ret
      = .ret (some { Response := some [], Metrics := some [], Trace := [],
                     TraceSummary := [] }) none ∧
    (Query (scriptedServer allEnabled (demoRuntime .null none)) demoCtx
        { Query := "x = true", Input := "", Options := none, IdentityContext := some alice,
          ResourceContext := some [] }).ret
      = .ret (some { Response := some [("result", .list [])], Metrics := some [],
                     Trace := [], TraceSummary := [] }) none :=
  ⟨rfl, rfl, rfl, rfl, rfl, rfl, rfl⟩

/-- C14, counterexample: `EnableResourceContext` is off and the raw JSON input has
a top-level `resource` key; the evaluation input passed to the engine has a
`resource` field. -/
theorem Query_raw_resource_field :
    (scriptedServer allDisabled (demoRuntime .null none)).cfg.EnableResourceContext = false ∧
    (Query (scriptedServer allDisabled (demoRuntime .null none)) emptyCtx
        { Query := "x = true", Input := "\x7b\"resource\": 1\x7d", Options := none,
          IdentityContext := none, ResourceContext := some [("owner", .str "bob")] }).trace
      = [.runtimeFromContext "" "" "",
         .query "x = true" [("resource", .json (.num "1"))]] ∧
    (Map.get ([("resource", InputValue.json (.num "1"))] : Input) InputResource).isSome
      = true :=
  ⟨rfl, rfl, rfl⟩

/-! ### The resource field of the assembled input -/

theorem Map.get_map_json (m : List (String × Value)) (k : String) :
    Map.get (m.map (fun e => (e.1, InputValue.json e.2))) k =
      (Map.get m k).map InputValue.json := by
  induction m with
  | nil => rfl
  | cons hd tl ih =>
    obtain ⟨k', v'⟩ := hd
    by_cases h : k' = k
    · simp [Map.get, h]
    · simp [Map.get, h, ih]

theorem Map.get_set_policy_resource (m : Input) (v : InputValue) :
    Map.get (Map.set m InputPolicy v) InputResource = Map.get m InputResource :=
  Map.get_set_other _ _ _ _ (by decide)

theorem Map.get_set_identity_resource (m : Input) (v : InputValue) :
    Map.get (Map.set m InputIdentity v) InputResource = Map.get m InputResource :=
  Map.get_set_other _ _ _ _ (by decide)

theorem Map.get_set_user_resource (m : Input) (v : InputValue) :
    Map.get (Map.set m InputUser v) InputResource = Map.get m InputResource :=
  Map.get_set_other _ _ _ _ (by decide)

theorem decodedInput_of_ok (s : AuthorizerServer) (rawInput : String)
    (raw : Option (List (String × Value)))
    (h : (if rawInput ≠ "" then s.jsonUnmarshal rawInput else Except.ok none) = .ok raw) :
    decodedInput s rawInput = raw.getD [] := by
  by_cases hin : rawInput = ""
  · simp only [hin, ne_eq, not_true_eq_false, if_false, Except.ok.injEq] at h
    subst h
    simp [decodedInput, hin]
  · simp only [ne_eq, hin, not_false_eq_true, if_true] at h
    cases raw with
    | none => simp [decodedInput, hin, h]
    | some m => simp [decodedInput, hin, h]

theorem Query_resource_field (s : AuthorizerServer) (ctx : Ctx)
    (hflag : s.cfg.EnableResourceContext = false) (req : QueryRequest) (q : String)
    (input : Input) (hmem : Event.query q input ∈ (Query s ctx req).trace) :
    Map.get input InputResource =
      (Map.get (decodedInput s req.Input) InputResource).map InputValue.json := by
  by_cases hq : req.Query = ""
  · simp [Query, hq] at hmem
  cases hdec : (if req.Input ≠ "" then s.jsonUnmarshal req.Input else Except.ok none) with
  | error e =>
    simp only [Query, hq, hdec, if_false] at hmem
    simp at hmem
  | ok raw =>
    rw [decodedInput_of_ok s req.Input raw hdec]
    simp only [Query, hq, hdec, hflag, if_false, Bool.false_eq_true] at hmem
    cases hP : getPolicyInfoFromContext ctx with
    | none =>
      simp only [hP] at hmem
      cases hif : s.cfg.EnableIdentityContext with
      | false =>
        simp only [hif, if_true, if_false, Bool.false_eq_true, reduceCtorEq] at hmem
        cases hrt : s.RuntimeFromContext "" "" "" with
        | error e =>
          simp only [hrt] at hmem
          simp at hmem
        | ok rt =>
          simp only [hrt] at hmem
          split at hmem
          · simp only [List.mem_append, List.mem_cons, List.mem_singleton, List.not_mem_nil,
              or_false, false_or, reduceCtorEq, Event.query.injEq] at hmem
            obtain ⟨-, rfl⟩ := hmem
            simp only [Map.get_set_policy_resource, Map.get_set_identity_resource,
              Map.get_set_user_resource, Map.get_map_json]
          · simp only [List.mem_append, List.mem_cons, List.mem_singleton, List.not_mem_nil,
              or_false, false_or, reduceCtorEq, Event.query.injEq] at hmem
            obtain ⟨-, rfl⟩ := hmem
            simp only [Map.get_set_policy_resource, Map.get_set_identity_resource,
              Map.get_set_user_resource, Map.get_map_json]
      | true =>
        cases hic : req.IdentityContext with
        | none =>
          simp only [hif, hic, if_true, if_false, Bool.false_eq_true, reduceCtorEq] at hmem
          cases hrt : s.RuntimeFromContext "" "" "" with
          | error e =>
            simp only [hrt] at hmem
            simp at hmem
          | ok rt =>
            simp only [hrt] at hmem
            split at hmem
            · simp only [List.mem_append, List.mem_cons, List.mem_singleton, List.not_mem_nil,
                or_false, false_or, reduceCtorEq, Event.query.injEq] at hmem
              obtain ⟨-, rfl⟩ := hmem
              simp only [Map.get_set_policy_resource, Map.get_set_identity_resource,
                Map.get_set_user_resource, Map.get_map_json]
            · simp only [List.mem_append, List.mem_cons, List.mem_singleton, List.not_mem_nil,
                or_false, false_or, reduceCtorEq, Event.query.injEq] at hmem
              obtain ⟨-, rfl⟩ := hmem
              simp only [Map.get_set_policy_resource, Map.get_set_identity_resource,
                Map.get_set_user_resource, Map.get_map_json]
        | some ic =>
          by_cases hu : ic.Typ = .UNKNOWN
          · simp only [hif, hic, hu, if_true, if_false, Bool.false_eq_true, reduceCtorEq] at hmem
            simp at hmem
          by_cases hn : ic.Typ = .NONE
          · simp only [hif, hic, hu, hn, if_true, if_false, Bool.false_eq_true, reduceCtorEq] at hmem
            cases hrt : s.RuntimeFromContext "" "" "" with
            | error e =>
              simp only [hrt] at hmem
              simp at hmem
            | ok rt =>
              simp only [hrt] at hmem
              split at hmem
              · simp only [List.mem_append, List.mem_cons, List.mem_singleton, List.not_mem_nil,
                  or_false, false_or, reduceCtorEq, Event.query.injEq] at hmem
                obtain ⟨-, rfl⟩ := hmem
                simp only [Map.get_set_policy_resource, Map.get_set_identity_resource,
                  Map.get_set_user_resource, Map.get_map_json]
              · simp only [List.mem_append, List.mem_cons, List.mem_singleton, List.not_mem_nil,
                  or_false, false_or, reduceCtorEq, Event.query.injEq] at hmem
                obtain ⟨-, rfl⟩ := hmem
                simp only [Map.get_set_policy_resource, Map.get_set_identity_resource,
                  Map.get_set_user_resource, Map.get_map_json]
          cases hres : s.getUserFromIdentityContext ic with
          | error e =>
            simp only [hif, hic, hu, hn, hres, if_true, if_false, Bool.false_eq_true, reduceCtorEq] at hmem
            simp at hmem
          | ok user =>
            cases user with
            | none =>
              simp only [hif, hic, hu, hn, hres, if_true, if_false, Bool.false_eq_true, reduceCtorEq] at hmem
              simp at hmem
            | some u =>
              simp only [hif, hic, hu, hn, hres, if_true, if_false, Bool.false_eq_true, reduceCtorEq] at hmem
              cases hrt : s.RuntimeFromContext "" "" "" with
              | error e =>
                simp only [hrt] at hmem
                simp at hmem
              | ok rt =>
                simp only [hrt] at hmem
                split at hmem
                · simp only [List.mem_append, List.mem_cons, List.mem_singleton, List.not_mem_nil,
                    or_false, false_or, reduceCtorEq, Event.query.injEq] at hmem
                  obtain ⟨-, rfl⟩ := hmem
                  simp only [Map.get_set_policy_resource, Map.get_set_identity_resource,
                    Map.get_set_user_resource, Map.get_map_json]
                · simp only [List.mem_append, List.mem_cons, List.mem_singleton, List.not_mem_nil,
                    or_false, false_or, reduceCtorEq, Event.query.injEq] at hmem
                  obtain ⟨-, rfl⟩ := hmem
                  simp only [Map.get_set_policy_resource, Map.get_set_identity_resource,
                    Map.get_set_user_resource, Map.get_map_json]
    | some pc =>
      simp only [hP] at hmem
      cases hif : s.cfg.EnableIdentityContext with
      | false =>
        simp only [hif, if_true, if_false, Bool.false_eq_true, reduceCtorEq] at hmem
        cases hrt : s.RuntimeFromContext pc.Id pc.Name pc.InstanceLabel with
        | error e =>
          simp only [hrt] at hmem
          simp at hmem
        | ok rt =>
          simp only [hrt] at hmem
          split at hmem
          · simp only [List.mem_append, List.mem_cons, List.mem_singleton, List.not_mem_nil,
              or_false, false_or, reduceCtorEq, Event.query.injEq] at hmem
            obtain ⟨-, rfl⟩ := hmem
            simp only [Map.get_set_policy_resource, Map.get_set_identity_resource,
              Map.get_set_user_resource, Map.get_map_json]
          · simp only [List.mem_append, List.mem_cons, List.mem_singleton, List.not_mem_nil,
              or_false, false_or, reduceCtorEq, Event.query.injEq] at hmem
            obtain ⟨-, rfl⟩ := hmem
            simp only [Map.get_set_policy_resource, Map.get_set_identity_resource,
              Map.get_set_user_resource, Map.get_map_json]
      | true =>
        cases hic : req.IdentityContext with
        | none =>
          simp only [hif, hic, if_true, if_false, Bool.false_eq_true, reduceCtorEq] at hmem
          cases hrt : s.RuntimeFromContext pc.Id pc.Name pc.InstanceLabel with
          | error e =>
            simp only [hrt] at hmem
            simp at hmem
          | ok rt =>
            simp only [hrt] at hmem
            split at hmem
            · simp only [List.mem_append, List.mem_cons, List.mem_singleton, List.not_mem_nil,
                or_false, false_or, reduceCtorEq, Event.query.injEq] at hmem
              obtain ⟨-, rfl⟩ := hmem
              simp only [Map.get_set_policy_resource, Map.get_set_identity_resource,
                Map.get_set_user_resource, Map.get_map_json]
            · simp only [List.mem_append, List.mem_cons, List.mem_singleton, List.not_mem_nil,
                or_false, false_or, reduceCtorEq, Event.query.injEq] at hmem
              obtain ⟨-, rfl⟩ := hmem
              simp only [Map.get_set_policy_resource, Map.get_set_identity_resource,
                Map.get_set_user_resource, Map.get_map_json]
        | some ic =>
          by_cases hu : ic.Typ = .UNKNOWN
          · simp only [hif, hic, hu, if_true, if_false, Bool.false_eq_true, reduceCtorEq] at hmem
            simp at hmem
          by_cases hn : ic.Typ = .NONE
          · simp only [hif, hic, hu, hn, if_true, if_false, Bool.false_eq_true, reduceCtorEq] at hmem
            cases hrt : s.RuntimeFromContext pc.Id pc.Name pc.InstanceLabel with
            | error e =>
              simp only [hrt] at hmem
              simp at hmem
            | ok rt =>
              simp only [hrt] at hmem
              split at hmem
              · simp only [List.mem_append, List.mem_cons, List.mem_singleton, List.not_mem_nil,
                  or_false, false_or, reduceCtorEq, Event.query.injEq] at hmem
                obtain ⟨-, rfl⟩ := hmem
                simp only [Map.get_set_policy_resource, Map.get_set_identity_resource,
                  Map.get_set_user_resource, Map.get_map_json]
              · simp only [List.mem_append, List.mem_cons, List.mem_singleton, List.not_mem_nil,
                  or_false, false_or, reduceCtorEq, Event.query.injEq] at hmem
                obtain ⟨-, rfl⟩ := hmem
                simp only [Map.get_set_policy_resource, Map.get_set_identity_resource,
                  Map.get_set_user_resource, Map.get_map_json]
          cases hres : s.getUserFromIdentityContext ic with
          | error e =>
            simp only [hif, hic, hu, hn, hres, if_true, if_false, Bool.false_eq_true, reduceCtorEq] at hmem
            simp at hmem
          | ok user =>
            cases user with
            | none =>
              simp only [hif, hic, hu, hn, hres, if_true, if_false, Bool.false_eq_true, reduceCtorEq] at hmem
              simp at hmem
            | some u =>
              simp only [hif, hic, hu, hn, hres, if_true, if_false, Bool.false_eq_true, reduceCtorEq] at hmem
              cases hrt : s.RuntimeFromContext pc.Id pc.Name pc.InstanceLabel with
              | error e =>
                simp only [hrt] at hmem
                simp at hmem
              | ok rt =>
                simp only [hrt] at hmem
                split at hmem
                · simp only [List.mem_append, List.mem_cons, List.mem_singleton, List.not_mem_nil,
                    or_false, false_or, reduceCtorEq, Event.query.injEq] at hmem
                  obtain ⟨-, rfl⟩ := hmem
                  simp only [Map.get_set_policy_resource, Map.get_set_identity_resource,
                    Map.get_set_user_resource, Map.get_map_json]
                · simp only [List.mem_append, List.mem_cons, List.mem_singleton, List.not_mem_nil,
                    or_false, false_or, reduceCtorEq, Event.query.injEq] at hmem
                  obtain ⟨-, rfl⟩ := hmem
                  simp only [Map.get_set_policy_resource, Map.get_set_identity_resource,
                    Map.get_set_user_resource, Map.get_map_json]

theorem Compile_resource_field (s : AuthorizerServer) (ctx : Ctx)
    (hflag : s.cfg.EnableResourceContext = false) (req : CompileRequest) (q : String)
    (input : Input) (hmem : Event.compile q input ∈ (Compile s ctx req).trace) :
    Map.get input InputResource =
      (Map.get (decodedInput s req.Input) InputResource).map InputValue.json := by
  by_cases hq : req.Query = ""
  · simp [Compile, hq] at hmem
  cases hdec : (if req.Input ≠ "" then s.jsonUnmarshal req.Input else Except.ok none) with
  | error e =>
    simp only [Compile, hq, hdec, if_false] at hmem
    simp at hmem
  | ok raw =>
    rw [decodedInput_of_ok s req.Input raw hdec]
    simp only [Compile, hq, hdec, hflag, if_false, Bool.false_eq_true] at hmem
    cases raw with
    | none =>
      cases hP : getPolicyInfoFromContext ctx with
      | none =>
        simp only [hP] at hmem
        cases hif : s.cfg.EnableIdentityContext with
        | false =>
          simp only [hif, if_true, if_false, Bool.false_eq_true, reduceCtorEq, Option.map_some',
            Option.map_none', Option.getD_some, Option.getD_none] at hmem
          cases hrt : s.RuntimeFromContext "" "" "" with
          | error e =>
            simp only [hrt] at hmem
            simp at hmem
          | ok rt =>
            simp only [hrt] at hmem
            split at hmem <;>
            (simp only [List.mem_append, List.mem_cons, List.mem_singleton, List.not_mem_nil,
               or_false, false_or, reduceCtorEq, Event.compile.injEq] at hmem
             obtain ⟨-, rfl⟩ := hmem
             simp only [Map.get_set_policy_resource, Map.get_set_identity_resource,
               Map.get_set_user_resource, Map.get_map_json, Map.get, Option.map_none',
               Option.getD_some, Option.getD_none])
        | true =>
          cases hic : req.IdentityContext with
          | none =>
            simp only [hif, hic, if_true, if_false, Bool.false_eq_true, reduceCtorEq,
              Option.map_some', Option.map_none', Option.getD_some, Option.getD_none] at hmem
            cases hrt : s.RuntimeFromContext "" "" "" with
            | error e =>
              simp only [hrt] at hmem
              simp at hmem
            | ok rt =>
              simp only [hrt] at hmem
              split at hmem <;>
              (simp only [List.mem_append, List.mem_cons, List.mem_singleton, List.not_mem_nil,
                 or_false, false_or, reduceCtorEq, Event.compile.injEq] at hmem
               obtain ⟨-, rfl⟩ := hmem
               simp only [Map.get_set_policy_resource, Map.get_set_identity_resource,
                 Map.get_set_user_resource, Map.get_map_json, Map.get, Option.map_none',
                 Option.getD_some, Option.getD_none])
          | some ic =>
            by_cases hu : ic.Typ = .UNKNOWN
            · simp only [hif, hic, hu, if_true, if_false, Bool.false_eq_true, reduceCtorEq,
                Option.map_some', Option.map_none', Option.getD_some, Option.getD_none] at hmem
              simp at hmem
            by_cases hn : ic.Typ = .NONE
            · simp only [hif, hic, hu, hn, if_true, if_false, Bool.false_eq_true, reduceCtorEq,
                Option.map_some', Option.map_none', Option.getD_some, Option.getD_none] at hmem
              cases hrt : s.RuntimeFromContext "" "" "" with
              | error e =>
                simp only [hrt] at hmem
                simp at hmem
              | ok rt =>
                simp only [hrt] at hmem
                split at hmem <;>
                (simp only [List.mem_append, List.mem_cons, List.mem_singleton, List.not_mem_nil,
                   or_false, false_or, reduceCtorEq, Event.compile.injEq] at hmem
                 obtain ⟨-, rfl⟩ := hmem
                 simp only [Map.get_set_policy_resource, Map.get_set_identity_resource,
                   Map.get_set_user_resource, Map.get_map_json, Map.get, Option.map_none',
                   Option.getD_some, Option.getD_none])
            cases hres : s.getUserFromIdentityContext ic with
            | error e =>
              simp only [hif, hic, hu, hn, hres, if_true, if_false, Bool.false_eq_true,
                reduceCtorEq, Option.map_some', Option.map_none', Option.getD_some,
                Option.getD_none] at hmem
              simp at hmem
            | ok user =>
              cases user with
              | none =>
                simp only [hif, hic, hu, hn, hres, if_true, if_false, Bool.false_eq_true,
                  reduceCtorEq, Option.map_some', Option.map_none', Option.getD_some,
                  Option.getD_none] at hmem
                simp at hmem
              | some u =>
                simp only [hif, hic, hu, hn, hres, if_true, if_false, Bool.false_eq_true,
                  reduceCtorEq, Option.map_some', Option.map_none', Option.getD_some,
                  Option.getD_none] at hmem
                simp at hmem
      | some pc =>
        simp only [hP] at hmem
        cases hif : s.cfg.EnableIdentityContext with
        | false =>
          simp only [hif, if_true, if_false, Bool.false_eq_true, reduceCtorEq, Option.map_some',
            Option.map_none', Option.getD_some, Option.getD_none] at hmem
          simp at hmem
        | true =>
          cases hic : req.IdentityContext with
          | none =>
            simp only [hif, hic, if_true, if_false, Bool.false_eq_true, reduceCtorEq,
              Option.map_some', Option.map_none', Option.getD_some, Option.getD_none] at hmem
            simp at hmem
          | some ic =>
            by_cases hu : ic.Typ = .UNKNOWN
            · simp only [hif, hic, hu, if_true, if_false, Bool.false_eq_true, reduceCtorEq,
                Option.map_some', Option.map_none', Option.getD_some, Option.getD_none] at hmem
              simp at hmem
            by_cases hn : ic.Typ = .NONE
            · simp only [hif, hic, hu, hn, if_true, if_false, Bool.false_eq_true, reduceCtorEq,
                Option.map_some', Option.map_none', Option.getD_some, Option.getD_none] at hmem
              simp at hmem
            cases hres : s.getUserFromIdentityContext ic with
            | error e =>
              simp only [hif, hic, hu, hn, hres, if_true, if_false, Bool.false_eq_true,
                reduceCtorEq, Option.map_some', Option.map_none', Option.getD_some,
                Option.getD_none] at hmem
              simp at hmem
            | ok user =>
              cases user with
              | none =>
                simp only [hif, hic, hu, hn, hres, if_true, if_false, Bool.false_eq_true,
                  reduceCtorEq, Option.map_some', Option.map_none', Option.getD_some,
                  Option.getD_none] at hmem
                simp at hmem
              | some u =>
                simp only [hif, hic, hu, hn, hres, if_true, if_false, Bool.false_eq_true,
                  reduceCtorEq, Option.map_some', Option.map_none', Option.getD_some,
                  Option.getD_none] at hmem
                simp at hmem
    | some m =>
      cases hP : getPolicyInfoFromContext ctx with
      | none =>
        simp only [hP] at hmem
        cases hif : s.cfg.EnableIdentityContext with
        | false =>
          simp only [hif, if_true, if_false, Bool.false_eq_true, reduceCtorEq, Option.map_some',
            Option.map_none', Option.getD_some, Option.getD_none] at hmem
          cases hrt : s.RuntimeFromContext "" "" "" with
          | error e =>
            simp only [hrt] at hmem
            simp at hmem
          | ok rt =>
            simp only [hrt] at hmem
            split at hmem <;>
            (simp only [List.mem_append, List.mem_cons, List.mem_singleton, List.not_mem_nil,
               or_false, false_or, reduceCtorEq, Event.compile.injEq] at hmem
             obtain ⟨-, rfl⟩ := hmem
             simp only [Map.get_set_policy_resource, Map.get_set_identity_resource,
               Map.get_set_user_resource, Map.get_map_json, Map.get, Option.map_none',
               Option.getD_some, Option.getD_none])
        | true =>
          cases hic : req.IdentityContext with
          | none =>
            simp only [hif, hic, if_true, if_false, Bool.false_eq_true, reduceCtorEq,
              Option.map_some', Option.map_none', Option.getD_some, Option.getD_none] at hmem
            cases hrt : s.RuntimeFromContext "" "" "" with
            | error e =>
              simp only [hrt] at hmem
              simp at hmem
            | ok rt =>
              simp only [hrt] at hmem
              split at hmem <;>
              (simp only [List.mem_append, List.mem_cons, List.mem_singleton, List.not_mem_nil,
                 or_false, false_or, reduceCtorEq, Event.compile.injEq] at hmem
               obtain ⟨-, rfl⟩ := hmem
               simp only [Map.get_set_policy_resource, Map.get_set_identity_resource,
                 Map.get_set_user_resource, Map.get_map_json, Map.get, Option.map_none',
                 Option.getD_some, Option.getD_none])
          | some ic =>
            by_cases hu : ic.Typ = .UNKNOWN
            · simp only [hif, hic, hu, if_true, if_false, Bool.false_eq_true, reduceCtorEq,
                Option.map_some', Option.map_none', Option.getD_some, Option.getD_none] at hmem
              simp at hmem
            by_cases hn : ic.Typ = .NONE
            · simp only [hif, hic, hu, hn, if_true, if_false, Bool.false_eq_true, reduceCtorEq,
                Option.map_some', Option.map_none', Option.getD_some, Option.getD_none] at hmem
              cases hrt : s.RuntimeFromContext "" "" "" with
              | error e =>
                simp only [hrt] at hmem
                simp at hmem
              | ok rt =>
                simp only [hrt] at hmem
                split at hmem <;>
                (simp only [List.mem_append, List.mem_cons, List.mem_singleton, List.not_mem_nil,
                   or_false, false_or, reduceCtorEq, Event.compile.injEq] at hmem
                 obtain ⟨-, rfl⟩ := hmem
                 simp only [Map.get_set_policy_resource, Map.get_set_identity_resource,
                   Map.get_set_user_resource, Map.get_map_json, Map.get, Option.map_none',
                   Option.getD_some, Option.getD_none])
            cases hres : s.getUserFromIdentityContext ic with
            | error e =>
              simp only [hif, hic, hu, hn, hres, if_true, if_false, Bool.false_eq_true,
                reduceCtorEq, Option.map_some', Option.map_none', Option.getD_some,
                Option.getD_none] at hmem
              simp at hmem
            | ok user =>
              cases user with
              | none =>
                simp only [hif, hic, hu, hn, hres, if_true, if_false, Bool.false_eq_true,
                  reduceCtorEq, Option.map_some', Option.map_none', Option.getD_some,
                  Option.getD_none] at hmem
                simp at hmem
              | some u =>
                simp only [hif, hic, hu, hn, hres, if_true, if_false, Bool.false_eq_true,
                  reduceCtorEq, Option.map_some', Option.map_none', Option.getD_some,
                  Option.getD_none] at hmem
                cases hrt : s.RuntimeFromContext "" "" "" with
                | error e =>
                  simp only [hrt] at hmem
                  simp at hmem
                | ok rt =>
                  simp only [hrt] at hmem
                  split at hmem <;>
                  (simp only [List.mem_append, List.mem_cons, List.mem_singleton, List.not_mem_nil,
                     or_false, false_or, reduceCtorEq, Event.compile.injEq] at hmem
                   obtain ⟨-, rfl⟩ := hmem
                   simp only [Map.get_set_policy_resource, Map.get_set_identity_resource,
                     Map.get_set_user_resource, Map.get_map_json, Map.get, Option.map_none',
                     Option.getD_some, Option.getD_none])
      | some pc =>
        simp only [hP] at hmem
        cases hif : s.cfg.EnableIdentityContext with
        | false =>
          simp only [hif, if_true, if_false, Bool.false_eq_true, reduceCtorEq, Option.map_some',
            Option.map_none', Option.getD_some, Option.getD_none] at hmem
          cases hrt : s.RuntimeFromContext pc.Id pc.Name pc.InstanceLabel with
          | error e =>
            simp only [hrt] at hmem
            simp at hmem
          | ok rt =>
            simp only [hrt] at hmem
            split at hmem <;>
            (simp only [List.mem_append, List.mem_cons, List.mem_singleton, List.not_mem_nil,
               or_false, false_or, reduceCtorEq, Event.compile.injEq] at hmem
             obtain ⟨-, rfl⟩ := hmem
             simp only [Map.get_set_policy_resource, Map.get_set_identity_resource,
               Map.get_set_user_resource, Map.get_map_json, Map.get, Option.map_none',
               Option.getD_some, Option.getD_none])
        | true =>
          cases hic : req.IdentityContext with
          | none =>
            simp only [hif, hic, if_true, if_false, Bool.false_eq_true, reduceCtorEq,
              Option.map_some', Option.map_none', Option.getD_some, Option.getD_none] at hmem
            cases hrt : s.RuntimeFromContext pc.Id pc.Name pc.InstanceLabel with
            | error e =>
              simp only [hrt] at hmem
              simp at hmem
            | ok rt =>
              simp only [hrt] at hmem
              split at hmem <;>
              (simp only [List.mem_append, List.mem_cons, List.mem_singleton, List.not_mem_nil,
                 or_false, false_or, reduceCtorEq, Event.compile.injEq] at hmem
               obtain ⟨-, rfl⟩ := hmem
               simp only [Map.get_set_policy_resource, Map.get_set_identity_resource,
                 Map.get_set_user_resource, Map.get_map_json, Map.get, Option.map_none',
                 Option.getD_some, Option.getD_none])
          | some ic =>
            by_cases hu : ic.Typ = .UNKNOWN
            · simp only [hif, hic, hu, if_true, if_false, Bool.false_eq_true, reduceCtorEq,
                Option.map_some', Option.map_none', Option.getD_some, Option.getD_none] at hmem
              simp at hmem
            by_cases hn : ic.Typ = .NONE
            · simp only [hif, hic, hu, hn, if_true, if_false, Bool.false_eq_true, reduceCtorEq,
                Option.map_some', Option.map_none', Option.getD_some, Option.getD_none] at hmem
              cases hrt : s.RuntimeFromContext pc.Id pc.Name pc.InstanceLabel with
              | error e =>
                simp only [hrt] at hmem
                simp at hmem
              | ok rt =>
                simp only [hrt] at hmem
                split at hmem <;>
                (simp only [List.mem_append, List.mem_cons, List.mem_singleton, List.not_mem_nil,
                   or_false, false_or, reduceCtorEq, Event.compile.injEq] at hmem
                 obtain ⟨-, rfl⟩ := hmem
                 simp only [Map.get_set_policy_resource, Map.get_set_identity_resource,
                   Map.get_set_user_resource, Map.get_map_json, Map.get, Option.map_none',
                   Option.getD_some, Option.getD_none])
            cases hres : s.getUserFromIdentityContext ic with
            | error e =>
              simp only [hif, hic, hu, hn, hres, if_true, if_false, Bool.false_eq_true,
                reduceCtorEq, Option.map_some', Option.map_none', Option.getD_some,
                Option.getD_none] at hmem
              simp at hmem
            | ok user =>
              cases user with
              | none =>
                simp only [hif, hic, hu, hn, hres, if_true, if_false, Bool.false_eq_true,
                  reduceCtorEq, Option.map_some', Option.map_none', Option.getD_some,
                  Option.getD_none] at hmem
                simp at hmem
              | some u =>
                simp only [hif, hic, hu, hn, hres, if_true, if_false, Bool.false_eq_true,
                  reduceCtorEq, Option.map_some', Option.map_none', Option.getD_some,
                  Option.getD_none] at hmem
                cases hrt : s.RuntimeFromContext pc.Id pc.Name pc.InstanceLabel with
                | error e =>
                  simp only [hrt] at hmem
                  simp at hmem
                | ok rt =>
                  simp only [hrt] at hmem
                  split at hmem <;>
                  (simp only [List.mem_append, List.mem_cons, List.mem_singleton, List.not_mem_nil,
                     or_false, false_or, reduceCtorEq, Event.compile.injEq] at hmem
                   obtain ⟨-, rfl⟩ := hmem
                   simp only [Map.get_set_policy_resource, Map.get_set_identity_resource,
                     Map.get_set_user_resource, Map.get_map_json, Map.get, Option.map_none',
                     Option.getD_some, Option.getD_none])

/-- C14, amended: when `EnableResourceContext` is off, the request's resource
context is never merged into the evaluation input that `Query` or `Compile` pass to
the engine: the input's `resource` field is the top-level `resource` field of the
decoded raw JSON input when there is one, and is absent otherwise. -/
theorem resource_context_not_merged (s : AuthorizerServer) (ctx : Ctx)
    (hflag : s.cfg.EnableResourceContext = false) :
    (∀ (req : QueryRequest) (q : String) (input : Input),
      Event.query q input ∈ (Query s ctx req).trace →
        Map.get input InputResource =
          (Map.get (decodedInput s req.Input) InputResource).map InputValue.json ∧
        ∀ rc, Map.get input InputResource ≠ some (.resource rc)) ∧
    (∀ (req : CompileRequest) (q : String) (input : Input),
      Event.compile q input ∈ (Compile s ctx req).trace →
        Map.get input InputResource =
          (Map.get (decodedInput s req.Input) InputResource).map InputValue.json ∧
        ∀ rc, Map.get input InputResource ≠ some (.resource rc)) := by
  refine ⟨?_, ?_⟩
  · intro req q input hmem
    have h := Query_resource_field s ctx hflag req q input hmem
    refine ⟨h, ?_⟩
    intro rc hrc
    rw [h] at hrc
    cases hg : Map.get (decodedInput s req.Input) InputResource with
    | none => rw [hg] at hrc; cases hrc
    | some v => rw [hg] at hrc; cases hrc
  · intro req q input hmem
    have h := Compile_resource_field s ctx hflag req q input hmem
    refine ⟨h, ?_⟩
    intro rc hrc
    rw [h] at hrc
    cases hg : Map.get (decodedInput s req.Input) InputResource with
    | none => rw [hg] at hrc; cases hrc
    | some v => rw [hg] at hrc; cases hrc

/-- Witness of C14 (amended): a `Query` request that supplies a resource context,
with the raw input of the empty JSON object, on a server with the flag off: the
input passed to the engine has no `resource` field. -/
theorem resource_context_not_merged_witness :
    Map.get ([] : Input) InputResource =
      (Map.get (decodedInput (scriptedServer allDisabled (demoRuntime .null none)) "\x7b\x7d")
        InputResource).map InputValue.json ∧
    ∀ rc, Map.get ([] : Input) InputResource ≠ some (.resource rc) :=
  (resource_context_not_merged (scriptedServer allDisabled (demoRuntime .null none)) emptyCtx
    rfl).1
    { Query := "x = true", Input := "\x7b\x7d", Options := none, IdentityContext := none,
      ResourceContext := some [("owner", .str "bob")] }
    "x = true" []
    (by
      have htrace : (Query (scriptedServer allDisabled (demoRuntime .null none)) emptyCtx
          { Query := "x = true", Input := "\x7b\x7d", Options := none,
            IdentityContext := none,
            ResourceContext := some [("owner", .str "bob")] }).trace
          = [.runtimeFromContext "" "" "", .query "x = true" []] := rfl
      rw [htrace]
      simp)

/-! ### Colliding external paths -/

theorem treeFields_lookup (f : String → Bool) (p₀ : String) (es R : List (String × Value))
    (hnd : (Map.keys es).Nodup)
    (hR : ∀ p v, Map.get R p = some v → ∃ sub, v = .map sub) :
    (∀ p v, Map.get (treeFields f p₀ es R) p = some v → ∃ sub, v = .map sub) ∧
    (∀ p k, lookupField (treeFields f p₀ es R) p k =
      if p₀ = p then
        match Map.get es k with
        | some v => if keepsField f (k, v) then some v else lookupField R p k
        | none => lookupField R p k
      else lookupField R p k) := by
  have hnot : es.any (keepsField f) = false →
      ∀ k v, Map.get es k = some v → keepsField f (k, v) = false := by
    intro hany k v hget
    have hmem := Map.mem_of_get es k v hget
    cases hk : keepsField f (k, v) with
    | false => rfl
    | true =>
      have : es.any (keepsField f) = true := List.any_eq_true.mpr ⟨(k, v), hmem, hk⟩
      rw [hany] at this
      cases this
  have hshape : ∃ r₀, (Map.get R p₀ = none ∧ r₀ = [] ∨ Map.get R p₀ = some (.map r₀)) ∧
      treeFields f p₀ es R =
        if es.any (keepsField f) then Map.set R p₀ (.map (collectFields f es r₀)) else R := by
    cases hg : Map.get R p₀ with
    | none => exact ⟨[], Or.inl ⟨rfl, rfl⟩, treeFields_of_none f p₀ es R hg⟩
    | some v =>
      obtain ⟨r₀, hv⟩ := hR p₀ v hg
      subst hv
      exact ⟨r₀, Or.inr rfl, treeFields_of_map f p₀ es R r₀ hg⟩
  obtain ⟨r₀, hr₀, heq⟩ := hshape
  have hold : ∀ k, lookupField R p₀ k = Map.get r₀ k := by
    intro k
    rcases hr₀ with ⟨hn, he⟩ | hs
    · subst he
      simp [lookupField, hn, Map.get]
    · simp [lookupField, hs]
  rw [heq]
  by_cases hany : es.any (keepsField f) = true
  · simp only [hany, if_true]
    refine ⟨?_, ?_⟩
    · intro p v hget
      by_cases hp : p₀ = p
      · subst hp
        rw [Map.get_set_same] at hget
        injection hget with hget
        exact ⟨_, hget.symm⟩
      · rw [Map.get_set_other _ _ _ _ hp] at hget
        exact hR p v hget
    · intro p k
      by_cases hp : p₀ = p
      · subst hp
        simp only [lookupField, Map.get_set_same, if_true]
        rw [collectFields_get f es r₀ k hnd]
        have := hold k
        simp only [lookupField] at this
        rw [this]
      · simp only [lookupField, Map.get_set_other _ _ _ _ hp, hp, if_false]
  · have hany' : es.any (keepsField f) = false := by simpa using hany
    simp only [hany', Bool.false_eq_true, if_false]
    refine ⟨hR, ?_⟩
    intro p k
    by_cases hp : p₀ = p
    · subst hp
      simp only [if_true]
      cases hg : Map.get es k with
      | none => rfl
      | some v => simp only [hnot hany' k v hg, Bool.false_eq_true, if_false]
    · simp only [hp, if_false]

theorem stepResults_eq (f : String → Bool) (p₀ : String) (R : List (String × Value))
    (x : Value) :
    (match x with
      | .map result => treeFields f p₀ (Map.range result) R
      | _ => R) = treeFields f p₀ (Map.range (objectFields x)) R := by
  cases x <;> rfl

theorem packageStep_lookup (f : String → Bool) (p₀ : String) (R : List (String × Value))
    (x : Value) (hR : ∀ p v, Map.get R p = some v → ∃ sub, v = .map sub) :
    (∀ p v, Map.get (treeFields f p₀ (Map.range (objectFields x)) R) p = some v →
      ∃ sub, v = .map sub) ∧
    (∀ p k, lookupField (treeFields f p₀ (Map.range (objectFields x)) R) p k =
      if p₀ = p then
        match decisionField f (objectFields x) k with
        | some v => some v
        | none => lookupField R p k
      else lookupField R p k) := by
  obtain ⟨h1, h2⟩ := treeFields_lookup f p₀ (Map.range (objectFields x)) R
    (Map.keys_range_nodup _) hR
  refine ⟨h1, ?_⟩
  intro p k
  rw [h2 p k]
  by_cases hp : p₀ = p
  · simp only [hp, if_true, Map.get_range]
    cases hg : Map.get (objectFields x) k with
    | none => simp [decisionField, hg]
    | some v =>
      by_cases hf : f k = true
      · cases v <;> simp [decisionField, hg, keepsField, hf, Value.isBool]
      · cases v <;> simp [decisionField, hg, keepsField, hf, Value.isBool]
  · simp only [hp, if_false]

theorem treeLoop_merged (rt : Runtime) (sep : PathSeparator) (f : String → Bool)
    (input₀ : Input) (pc : PolicyContext) :
    ∀ (policies : List Policy) (st st' : TreeState),
      treeLoop rt sep f policies st = .ok st' →
      (∀ v, Map.set st.input InputPolicy v = Map.set input₀ InputPolicy v) →
      (∀ path, { st.policyContext with Path := path } = { pc with Path := path }) →
      (∀ p v, Map.get st.results p = some v → ∃ sub, v = .map sub) →
      ∀ p k, lookupField st'.results p k =
        mergedField f rt sep input₀ pc p k policies (lookupField st.results p k) := by
  intro policies
  induction policies with
  | nil =>
    intro st st' h _ _ _ p k
    simp only [treeLoop, Except.ok.injEq] at h
    subst h
    rfl
  | cons pol rest ih =>
    intro st st' h hin hpc hR p k
    have hin' : Map.set input₀ InputPolicy
        (InputValue.policy (some { pc with Path := pol.PackageName })) =
        packageInput input₀ pc pol := rfl
    cases hprep : rt.PrepareForEval ("x = data." ++ pol.PackageName)
        (some (packageInput input₀ pc pol)) with
    | some e => simp [treeLoop, hin, hpc, hin', hprep] at h
    | none =>
      cases hev : rt.Eval ("x = data." ++ pol.PackageName) (packageInput input₀ pc pol) with
      | error e => simp [treeLoop, hin, hpc, hin', hprep, hev] at h
      | ok results =>
        cases results with
        | nil => simp [treeLoop, hin, hpc, hin', hprep, hev] at h
        | cons r rs =>
          rw [treeLoop_cons_ok rt sep f input₀ pc pol rest st r rs hin hpc hprep hev,
            stepResults_eq] at h
          obtain ⟨hmaps, hlook⟩ := packageStep_lookup f
            (rt.Package pol (TranslatePathSeparator sep)) st.results (r.binding "x") hR
          have hres : packageResult rt input₀ pc pol = objectFields (r.binding "x") := by
            simp only [packageResult, hev]
            cases r.binding "x" <;> rfl
          have := ih _ st' h
            (by intro v; simp only [packageInput, Map.set_set])
            (by intro path; rfl)
            hmaps p k
          rw [this]
          simp only [mergedField]
          rw [hlook p k, hres]

/-- C20, counterexample: the packages `app.a` and `app.b` translate to the same
external path `app`; the call succeeds and the entry under `app` holds the field
`a`, which only the earlier package contributed, next to the field `b` of the
later package. -/
theorem DecisionTree_colliding_paths_merge :
    collidingRuntime.Package packageA .DOT = collidingRuntime.Package packageB .DOT ∧
    (DecisionTree (scriptedServer allEnabled collidingRuntime) starCtx
        { IdentityContext := some alice, ResourceContext := none, Options := none }).ret
      = .ret (some { PathRoot := "app.b",
                     Path := some [("app", .map [("a", .bool true), ("b", .bool false)])] })
          none :=
  ⟨rfl, rfl⟩

/-- C20, amended: for every successful `DecisionTree` call, whether or not
enumerated packages translate to the same external path, the decision of name `k`
under the external path `p` of the tree is the one contributed by the last package,
in enumeration order, that translates to `p` and contributes a decision `k`; a
field that only an earlier package contributed stays in the entry. -/
theorem DecisionTree_merges_fields (s : AuthorizerServer) (ctx : Ctx)
    (req : DecisionTreeRequest) (pc : PolicyContext) (ic : IdentityContext)
    (user : Option Value) (rt : Runtime) (policyList : List Policy)
    (resp : DecisionTreeResponse)
    (hpc : getPolicyInfoFromContext ctx = some pc) (hic : req.IdentityContext = some ic)
    (htyp : ic.Typ ≠ .UNKNOWN) (hres : s.getUserFromIdentityContext ic = .ok user)
    (hrt : s.RuntimeFromContext pc.Id pc.Name pc.InstanceLabel = .ok rt)
    (hlist : rt.GetPolicyList pc.Id
      (TranslatePathSeparator (req.Options.getD { PathSeparator := .DOT }).PathSeparator)
      pc.Path = .ok policyList)
    (hsucc : (DecisionTree s ctx req).ret = .ret (some resp) none) :
    ∃ tree, resp.Path = some tree ∧
      ∀ p k, lookupField tree p k =
        mergedField (initDecisionFilter pc.Decisions) rt
          (req.Options.getD { PathSeparator := .DOT }).PathSeparator
          (evaluationInput s user ic (some pc) (req.ResourceContext.getD [])) pc p k
          policyList none := by
  have hD := DecisionTree_of_enumerated s ctx req pc ic user rt policyList hpc hic htyp hres
    hrt hlist
  rw [hD] at hsucc
  cases hloop : treeLoop rt (req.Options.getD { PathSeparator := .DOT }).PathSeparator
      (initDecisionFilter pc.Decisions) policyList
      { results := [], policyContext := pc,
        input := evaluationInput s user ic (some pc) (req.ResourceContext.getD []),
        trace := [.resolveIdentity ic,
          .runtimeFromContext pc.Id pc.Name pc.InstanceLabel,
          .getPolicyList pc.Id
            (TranslatePathSeparator (req.Options.getD { PathSeparator := .DOT }).PathSeparator)
            pc.Path] } with
  | error e =>
    rw [hloop] at hsucc
    obtain ⟨err, t⟩ := e
    cases hsucc
  | ok st =>
    rw [hloop] at hsucc
    simp only [Ret.ret.injEq, Option.some.injEq, and_true] at hsucc
    refine ⟨st.results, by rw [← hsucc], ?_⟩
    intro p k
    have := treeLoop_merged rt _ (initDecisionFilter pc.Decisions)
      (evaluationInput s user ic (some pc) (req.ResourceContext.getD [])) pc policyList _ st
      hloop (fun _ => rfl) (fun _ => rfl) (by intro p v h; simp [Map.get] at h) p k
    rw [this]
    rfl

/-- Witness of C20 (amended): the two colliding packages of `collidingRuntime`. -/
theorem DecisionTree_merges_fields_witness :
    ∃ tree,
      (some [("app", Value.map [("a", .bool true), ("b", .bool false)])]) = some tree ∧
      ∀ p k, lookupField tree p k =
        mergedField (initDecisionFilter ["*"]) collidingRuntime .DOT
          (evaluationInput (scriptedServer allEnabled collidingRuntime)
            (some (.map [("id", .str "u1"), ("email", .str "alice@example.com")]))
            alice (some { Id := "tenant", Name := "policy", Path := "*", Decisions := ["*"],
                          InstanceLabel := "" }) [])
          { Id := "tenant", Name := "policy", Path := "*", Decisions := ["*"],
            InstanceLabel := "" } p k [packageA, packageB] none :=
  DecisionTree_merges_fields (scriptedServer allEnabled collidingRuntime) starCtx
    { IdentityContext := some alice, ResourceContext := none, Options := none }
    { Id := "tenant", Name := "policy", Path := "*", Decisions := ["*"], InstanceLabel := "" }
    alice (some (.map [("id", .str "u1"), ("email", .str "alice@example.com")]))
    collidingRuntime [packageA, packageB]
    { PathRoot := "app.b",
      Path := some [("app", .map [("a", .bool true), ("b", .bool false)])] }
    (by decide) rfl (by decide) rfl rfl rfl rfl

end impl

namespace directory

/-! ## Theorems about `GetIdentityV2` -/

theorem GetIdentityV2_not_found
    (client : GetRelationRequest → Except ClientError (Option GetRelationResponse))
    (identity : String)
    (h : client (relationRequest identity) = .error .notFound ∨
      ∃ relResp, client (relationRequest identity) = .ok (some relResp) ∧
        (relResp.Results = none ∨ (relResp.Results ≠ none ∧ relResp.Objects = []))) :
    ∃ msg, GetIdentityV2 client identity
      = .ret none (some (.ErrDirectoryObjectNotFound msg)) := by
  rcases h with h | ⟨relResp, h, hempty⟩
  · exact ⟨"", by simp [GetIdentityV2, h]⟩
  · cases hres : relResp.Results with
    | none => exact ⟨"", by simp [GetIdentityV2, h, hres]⟩
    | some results =>
      rcases hempty with he | ⟨-, he⟩
      · rw [hres] at he; cases he
      · exact ⟨"no objects found in relation", by simp [GetIdentityV2, h, hres, he]⟩

theorem GetIdentityV2_empty_results_panics :
    GetIdentityV2 emptyResultsDirectory "alice@example.com" = .panic :=
  rfl

/-- C16, the code at a failing input: the relation lookup succeeds with one
result whose subject id is `u1`, and the hydrated objects hold no object of id
`u1`; `GetIdentityV2` returns a `nil` object together with a `nil` error instead
of the directory-object-not-found error. -/
theorem GetIdentityV2_nil_object_nil_error :
    danglingDirectory (relationRequest "alice@example.com")
      = .ok (some { Results := some [some { Subject := some { Id := some "u1" } }],
                    Objects := [("i1", some aliceIdentity)] }) ∧
    impl.Map.get [("i1", some aliceIdentity)] "u1" = none ∧
    GetIdentityV2 danglingDirectory "alice@example.com" = .ret none none :=
  ⟨rfl, by decide, rfl⟩

end directory
